import Mathlib

/-!
# go-unsnap-stream: the incremental and the batch decoder of `unsnap.go`

A shallow embedding of `SnappyFile.Read`, `UnsnapOneFrame` and `Unsnappy`.

* Bytes are `UInt8`; every length, offset and counter is a `Nat` obtained with `toNat`.
  The only place where the source relies on 32-bit wrap-around (`chunksz-crc32Sz`) is
  written with an explicit `% 4294967296`.
* `panic(...)` and Go run-time panics are the constructors of `Failure`; an aborted call
  carries the state of the buffers at the point of the abort.
* `snappy.Decode` is an external library function; it is a parameter `decode` of the model.
* The byte source `r` (an `*os.File`) is the list of bytes it has not delivered yet.
* A Go slice expression is checked against the capacity of the slice, not its length.  The
  bytes of the backing array that follow the view returned by `Bytes()` are the parameter
  `hid` of the model; nothing is assumed about them.
-/

namespace Unsnap

/-- The fatal conditions of the decoders. -/
inductive Failure where
  /-- `panic("file had chunk starting with 0xff but then no magic ...")`. -/
  | malformedHeader
  /-- `panic("unrecognized/unsupported chunk type ...")`. -/
  | unsupportedChunk
  /-- `panic("could not decode snappy stream ...")`. -/
  | corruptBlock
  /-- `panic(err)` after a short `io.Copy`, or `panic("could not write all bytes ...")`. -/
  | shortWrite
  /-- Go run-time panic: slice bounds out of range. -/
  | sliceBounds
  /-- The ring buffer refuses `Advance(n)` with `n > Readable`. -/
  | advanceInvariant
  deriving DecidableEq, Repr

/-- Modelled from the spec: the type `FixedSizeRingBuf` (its source file is not part of
the sources at hand).  A fixed capacity `N` and the contiguous view `data` of the unread
bytes; `Readable` is the length of the view. -/
structure FixedSizeRingBuf where
  N : Nat
  data : List UInt8
  deriving DecidableEq, Repr

/-- Modelled from the spec: `new(capacity)` gives an empty buffer. -/
def NewFixedSizeRingBuf (n : Nat) : FixedSizeRingBuf := ⟨n, []⟩

/-- Modelled from the spec: the unread byte count of `FixedSizeRingBuf`. -/
def FixedSizeRingBuf.Readable (b : FixedSizeRingBuf) : Nat := b.data.length

/-- Modelled from the spec: `view()`, the full contiguous unread region. -/
def FixedSizeRingBuf.Bytes (b : FixedSizeRingBuf) : List UInt8 := b.data

/-- Modelled from the spec: `write(bytes) -> count` of `FixedSizeRingBuf` appends up to the
free space and returns the number of bytes accepted. -/
def FixedSizeRingBuf.Write (b : FixedSizeRingBuf) (p : List UInt8) : FixedSizeRingBuf × Nat :=
  let k := min p.length (b.N - b.data.length)
  (⟨b.N, b.data ++ p.take k⟩, k)

/-- Modelled from the spec: `read(dst) -> count` of `FixedSizeRingBuf` copies
`min(len(dst), readable)` bytes from the front and consumes them.  The destination is
given by its length; the bytes copied into it are returned. -/
def FixedSizeRingBuf.Read (b : FixedSizeRingBuf) (plen : Nat) : FixedSizeRingBuf × List UInt8 :=
  (⟨b.N, b.data.drop plen⟩, b.data.take plen)

/-- Modelled from the spec: `advance(n)` of `FixedSizeRingBuf` consumes `n` bytes from the
front and fails when `n > readable`. -/
def FixedSizeRingBuf.Advance (b : FixedSizeRingBuf) (n : Nat) : Option FixedSizeRingBuf :=
  if n ≤ b.data.length then some ⟨b.N, b.data.drop n⟩ else none

/-- Modelled from the spec: the refill `io.CopyN(encBuf, r, n)` into a `FixedSizeRingBuf`
appends up to `capacity - readable` bytes of the source, at most `n`.  The result is the
buffer, the rest of the source, the count `nread`, and whether `io.CopyN` reports `io.EOF`
(it does whenever fewer than `n` bytes were copied). -/
def copyN (encBuf : FixedSizeRingBuf) (r : List UInt8) (n : Nat) :
    FixedSizeRingBuf × List UInt8 × Nat × Bool :=
  let k := min n (min (encBuf.N - encBuf.data.length) r.length)
  (⟨encBuf.N, encBuf.data ++ r.take k⟩, r.drop k, k, decide (k < n))

/-- Go slice expression `chunk[lo:hi]`: legal when `lo ≤ hi ≤ cap(chunk)`, and then it may
reach into the bytes `hid` that follow the view in the backing array. -/
def sliceLoHi (chunk hid : List UInt8) (lo hi : Nat) : Option (List UInt8) :=
  if lo ≤ hi ∧ hi ≤ chunk.length + hid.length then
    some (((chunk ++ hid).take hi).drop lo)
  else none

/-- Go slice expression `chunk[lo:]`: legal when `lo ≤ len(chunk)`. -/
def sliceLo (chunk : List UInt8) (lo : Nat) : Option (List UInt8) :=
  if lo ≤ chunk.length then some (chunk.drop lo) else none

/-- `binary.LittleEndian.Uint32(fourbytes)`. -/
def leUint32 (fb : List UInt8) : Nat :=
  (fb.getD 0 0).toNat + 256 * (fb.getD 1 0).toNat + 65536 * (fb.getD 2 0).toNat
    + 16777216 * (fb.getD 3 0).toNat

/-- The ten bytes the stream identifier frame is compared with. -/
def streamMagic : List UInt8 := [0xff, 0x06, 0x00, 0x00, 0x73, 0x4e, 0x61, 0x50, 0x70, 0x59]

def snappyStreamHeaderSz : Nat := 10

def headerSz : Nat := 4

def crc32Sz : Nat := 4

/-- The variables of one call of `UnsnapOneFrame`. -/
structure PassState where
  encBuf : FixedSizeRingBuf
  decBuf : FixedSizeRingBuf
  nEnc : Nat
  nDec : Nat
  deriving DecidableEq, Repr

/-- What one iteration of the parse loop of `UnsnapOneFrame` does: `continue` with a new
`chunk`, or abort. -/
inductive Step where
  | next (chunk : List UInt8) (st : PassState)
  | abort (f : Failure) (st : PassState)
  deriving DecidableEq, Repr

/-- The common tail of the data and skippable cases of `UnsnapOneFrame`:
`chunk = chunk[inc:]; (*encBuf).Advance(inc); nEnc += int64(inc)`. -/
def UnsnapOneFrame.advance (chunk : List UInt8) (st : PassState) (inc : Nat) : Step :=
  match sliceLo chunk inc with
  | none => .abort .sliceBounds st
  | some chunk1 =>
    match st.encBuf.Advance inc with
    | none => .abort .advanceInvariant st
    | some e => .next chunk1 { st with encBuf := e, nEnc := st.nEnc + inc }

/-- `io.Copy(outDecodedBuf, bytes.NewBuffer(dec))` followed by the two checks of the source
(`err != nil`, `n != expected`) and `nDec += n`. -/
def UnsnapOneFrame.emit (st : PassState) (dec : List UInt8) (expected : Nat) :
    Except (Failure × PassState) PassState :=
  let (d, n) := st.decBuf.Write dec
  if n ≠ dec.length then .error (.shortWrite, { st with decBuf := d })
  else if n ≠ expected then .error (.shortWrite, { st with decBuf := d })
  else .ok { st with decBuf := d, nDec := st.nDec + n }

/-- The body of the parse loop of `UnsnapOneFrame` (from `chunkCount++` to `continue`), run
on a non-empty `chunk`. -/
def UnsnapOneFrame.body (decode : List UInt8 → Option (List UInt8)) (hid : List UInt8)
    (chunk : List UInt8) (st : PassState) : Step :=
  match sliceLoHi chunk hid 1 4 with
  | none => .abort .sliceBounds st
  | some lenBytes =>
    let chunksz := leUint32 (lenBytes ++ [0])
    let chunk_type := (chunk.headD 0).toNat
    if chunk_type = 0xff then
      match sliceLoHi chunk hid 0 snappyStreamHeaderSz with
      | none => .abort .sliceBounds st
      | some streamHeader =>
        if streamHeader ≠ streamMagic then .abort .malformedHeader st
        else
          match sliceLo chunk snappyStreamHeaderSz with
          | none => .abort .sliceBounds st
          | some chunk1 =>
            match st.encBuf.Advance snappyStreamHeaderSz with
            | none => .abort .advanceInvariant st
            | some e =>
              .next chunk1 { st with encBuf := e, nEnc := st.nEnc + snappyStreamHeaderSz }
    else if chunk_type = 0x00 then
      match sliceLoHi chunk hid (headerSz + crc32Sz) (headerSz + chunksz) with
      | none => .abort .sliceBounds st
      | some sectn =>
        match decode sectn with
        | none => .abort .corruptBlock st
        | some dec =>
          match UnsnapOneFrame.emit st dec dec.length with
          | .error (f, st1) => .abort f st1
          | .ok st1 => UnsnapOneFrame.advance chunk st1 (headerSz + chunksz)
    else if chunk_type = 0x01 then
      match sliceLoHi chunk hid (headerSz + crc32Sz) (headerSz + chunksz) with
      | none => .abort .sliceBounds st
      | some sectn =>
        match UnsnapOneFrame.emit st sectn ((chunksz + 4294967296 - crc32Sz) % 4294967296) with
        | .error (f, st1) => .abort f st1
        | .ok st1 => UnsnapOneFrame.advance chunk st1 (headerSz + chunksz)
    else if chunk_type = 0xfe ∨ (0x80 ≤ chunk_type ∧ chunk_type ≤ 0xfd) then
      match sliceLo chunk (headerSz + chunksz) with
      | none => .abort .sliceBounds st
      | some chunk1 =>
        match st.encBuf.Advance (headerSz + chunksz) with
        | none => .abort .advanceInvariant { st with nEnc := st.nEnc + (headerSz + chunksz) }
        | some e => .next chunk1 { st with encBuf := e, nEnc := st.nEnc + (headerSz + chunksz) }
    else .abort .unsupportedChunk st

/-- The result of a call of `UnsnapOneFrame`: it returns `(nEnc, nDec, err)` (with `err`
either `nil` or `io.EOF`) and leaves the buffers and the source as given, or it aborts.
`outOfFuel` is the model running out of iterations. -/
inductive Outcome where
  | ret (st : PassState) (r : List UInt8) (eof : Bool)
  | abort (f : Failure) (st : PassState) (r : List UInt8)
  | outOfFuel
  deriving DecidableEq, Repr

/-- The parse loop `for nDec < 65536 { if len(chunk) == 0 { break }; ... }` of
`UnsnapOneFrame`, with a bound on the number of iterations. -/
def UnsnapOneFrame.loop (decode : List UInt8 → Option (List UInt8)) (hid : List UInt8)
    (r : List UInt8) : Nat → List UInt8 → PassState → Outcome
  | 0, chunk, st =>
    if 65536 ≤ st.nDec then .ret st r false
    else if chunk.length = 0 then .ret st r false
    else .outOfFuel
  | fuel + 1, chunk, st =>
    if 65536 ≤ st.nDec then .ret st r false
    else if chunk.length = 0 then .ret st r false
    else
      match UnsnapOneFrame.body decode hid chunk st with
      | .abort f st1 => .abort f st1 r
      | .next chunk1 st1 => UnsnapOneFrame.loop decode hid r fuel chunk1 st1

/-- `UnsnapOneFrame(r, encBuf, outDecodedBuf, fname)`: one refill and one parse loop.  The
loop gets one iteration per byte of the view, more than it can use. -/
def UnsnapOneFrame (decode : List UInt8 → Option (List UInt8)) (hid : List UInt8)
    (r : List UInt8) (encBuf outDecodedBuf : FixedSizeRingBuf) : Outcome :=
  match copyN encBuf r 65536 with
  | (encBuf1, r1, nread, eof) =>
    if eof ∧ nread = 0 ∧ encBuf1.Readable = 0 then
      .ret ⟨encBuf1, outDecodedBuf, nread, 0⟩ r1 true
    else
      UnsnapOneFrame.loop decode hid r1 encBuf1.Bytes.length encBuf1.Bytes
        ⟨encBuf1, outDecodedBuf, nread, 0⟩

/-- The handle `SnappyFile`: the source `Filep` (the bytes not read yet) and the two ring
buffers. -/
structure SnappyFile where
  Filep : List UInt8
  EncBuf : FixedSizeRingBuf
  DecBuf : FixedSizeRingBuf
  deriving DecidableEq, Repr

/-- `Open(name)`, on a file with the given content. -/
def Open (content : List UInt8) : SnappyFile :=
  ⟨content, NewFixedSizeRingBuf 65536, NewFixedSizeRingBuf (65536 * 2)⟩

/-- The result of `SnappyFile.Read`: the bytes copied into `p`, whether `err` is `io.EOF`,
and the handle afterwards; or an abort. -/
inductive ReadOutcome where
  | ret (p : List UInt8) (eof : Bool) (f : SnappyFile)
  | abort (fl : Failure) (f : SnappyFile)
  | outOfFuel
  deriving DecidableEq, Repr

/-- `(f *SnappyFile) Read(p)`, with `p` given by its length. -/
def SnappyFile.Read (decode : List UInt8 → Option (List UInt8)) (hid : List UInt8)
    (f : SnappyFile) (plen : Nat) : ReadOutcome :=
  match f.DecBuf.Read plen with
  | (dec1, got) =>
    if 0 < got.length then .ret got false { f with DecBuf := dec1 }
    else
      match UnsnapOneFrame decode hid f.Filep f.EncBuf dec1 with
      | .outOfFuel => .outOfFuel
      | .abort fl st r => .abort fl ⟨r, st.encBuf, st.decBuf⟩
      | .ret st r _ =>
        match st.decBuf.Read plen with
        | (dec2, got2) =>
          if 0 < got2.length then .ret got2 false ⟨r, st.encBuf, dec2⟩
          else if dec2.Bytes.length = 0 then
            if dec2.Bytes.length = 0 ∧ st.encBuf.Bytes.length = 0 then
              .ret [] true ⟨r, st.encBuf, dec2⟩
            else .ret [] false ⟨r, st.encBuf, dec2⟩
          else .ret [] false ⟨r, st.encBuf, dec2⟩

/-- What one iteration of the loop of `Unsnappy` does; `w` is what has been written to the
sink. -/
inductive BatchStep where
  | next (chunk : List UInt8) (w : List UInt8)
  | abort (f : Failure) (w : List UInt8)
  deriving DecidableEq, Repr

/-- The body of the loop of `Unsnappy`, run on a non-empty `chunk`.  The sink accepts every
write in full. -/
def Unsnappy.body (decode : List UInt8 → Option (List UInt8)) (hid : List UInt8)
    (chunk : List UInt8) (w : List UInt8) : BatchStep :=
  match sliceLoHi chunk hid 1 4 with
  | none => .abort .sliceBounds w
  | some lenBytes =>
    let chunksz := leUint32 (lenBytes ++ [0])
    let chunk_type := (chunk.headD 0).toNat
    if chunk_type = 0xff then
      match sliceLoHi chunk hid 0 snappyStreamHeaderSz with
      | none => .abort .sliceBounds w
      | some streamHeader =>
        if streamHeader ≠ streamMagic then .abort .malformedHeader w
        else
          match sliceLo chunk snappyStreamHeaderSz with
          | none => .abort .sliceBounds w
          | some chunk1 => .next chunk1 w
    else if chunk_type = 0x00 then
      match sliceLoHi chunk hid (headerSz + crc32Sz) (headerSz + chunksz) with
      | none => .abort .sliceBounds w
      | some sectn =>
        match decode sectn with
        | none => .abort .corruptBlock w
        | some dec =>
          match sliceLo chunk (headerSz + chunksz) with
          | none => .abort .sliceBounds (w ++ dec)
          | some chunk1 => .next chunk1 (w ++ dec)
    else if chunk_type = 0x01 then
      match sliceLoHi chunk hid (headerSz + crc32Sz) (headerSz + chunksz) with
      | none => .abort .sliceBounds w
      | some sectn =>
        if sectn.length ≠ (chunksz + 4294967296 - crc32Sz) % 4294967296 then
          .abort .shortWrite (w ++ sectn)
        else
          match sliceLo chunk (headerSz + chunksz) with
          | none => .abort .sliceBounds (w ++ sectn)
          | some chunk1 => .next chunk1 (w ++ sectn)
    else if chunk_type = 0xfe ∨ (0x80 ≤ chunk_type ∧ chunk_type ≤ 0xfd) then
      match sliceLo chunk (headerSz + chunksz) with
      | none => .abort .sliceBounds w
      | some chunk1 => .next chunk1 w
    else .abort .unsupportedChunk w

/-- The result of `Unsnappy`: `nil` with the bytes written to the sink, or an abort. -/
inductive BatchOutcome where
  | ok (w : List UInt8)
  | abort (f : Failure) (w : List UInt8)
  | outOfFuel
  deriving DecidableEq, Repr

/-- The loop `for { if len(chunk) == 0 { break }; ... }` of `Unsnappy`, with a bound on the
number of iterations. -/
def Unsnappy.loop (decode : List UInt8 → Option (List UInt8)) (hid : List UInt8) :
    Nat → List UInt8 → List UInt8 → BatchOutcome
  | 0, chunk, w => if chunk.length = 0 then .ok w else .outOfFuel
  | fuel + 1, chunk, w =>
    if chunk.length = 0 then .ok w
    else
      match Unsnappy.body decode hid chunk w with
      | .abort f w1 => .abort f w1
      | .next chunk1 w1 => Unsnappy.loop decode hid fuel chunk1 w1

/-- `Unsnappy(r, w)`: `b` is everything `ioutil.ReadAll(r)` returns, `hid` the rest of its
backing array. -/
def Unsnappy (decode : List UInt8 → Option (List UInt8)) (hid : List UInt8)
    (b : List UInt8) : BatchOutcome :=
  Unsnappy.loop decode hid b.length b []

/-- The loop of `io.Copy(out, f)` in the tests: `f.Read` is called with a buffer of `plen`
bytes until it reports `io.EOF`; `out` collects what was read.  The call number `i` selects
the bytes `hid i` behind the view during that call. -/
def readToEOF (decode : List UInt8 → Option (List UInt8)) (hid : Nat → List UInt8)
    (plen : Nat) : Nat → Nat → SnappyFile → List UInt8 → BatchOutcome
  | 0, _, _, _ => .outOfFuel
  | fuel + 1, i, f, out =>
    match f.Read decode (hid i) plen with
    | .outOfFuel => .outOfFuel
    | .abort fl _ => .abort fl out
    | .ret p eof f1 =>
      if eof then .ok (out ++ p) else readToEOF decode hid plen fuel (i + 1) f1 (out ++ p)

/-- The kind test of the padding and reserved-skippable case. -/
def skippableKind (k : Nat) : Prop := k = 0xfe ∨ (0x80 ≤ k ∧ k ≤ 0xfd)

/-- The declared length of a frame: the 24-bit little-endian value of header bytes 1..3. -/
def frameLen (b1 b2 b3 : UInt8) : Nat := b1.toNat + 256 * b2.toNat + 65536 * b3.toNat

/-- The 23 bytes of the scenario: identifier frame, then a frame of kind `0x01` with the
declared length `len0` and the bytes `c0 c1 c2 c3 h e l l o`. -/
def scenario (len0 c0 c1 c2 c3 : UInt8) : List UInt8 :=
  [0xff, 0x06, 0x00, 0x00, 0x73, 0x4e, 0x61, 0x50, 0x70, 0x59,
   0x01, len0, 0x00, 0x00, c0, c1, c2, c3, 0x68, 0x65, 0x6c, 0x6c, 0x6f]

/-- The five bytes of `hello`. -/
def hello : List UInt8 := [0x68, 0x65, 0x6c, 0x6c, 0x6f]

/-- An uncompressed frame (`0x01`, declared length 9) carrying `hello` after the four
checksum bytes. -/
def helloFrame (c0 c1 c2 c3 : UInt8) : List UInt8 :=
  [0x01, 0x09, 0x00, 0x00, c0, c1, c2, c3, 0x68, 0x65, 0x6c, 0x6c, 0x6f]

/-- A run of `n` zero bytes. -/
def zeros (n : Nat) : List UInt8 := List.replicate n 0

/-- A padding frame (`0xfe`) with the declared length 65522 = 0x00fff2 and a payload of
zeros: 65526 bytes, which together with the identifier frame are 65536 bytes. -/
def padFrame : List UInt8 := 0xfe :: 0xf2 :: 0xff :: 0x00 :: zeros 65522

/-- An uncompressed frame (`0x01`, declared length 65540 = 0x010004) carrying 65536 zero
bytes after the four checksum bytes. -/
def bigFrame (c0 c1 c2 c3 : UInt8) : List UInt8 :=
  0x01 :: 0x04 :: 0x00 :: 0x01 :: c0 :: c1 :: c2 :: c3 :: zeros 65536


/-- The body of `masked_crc32c` as a function of the checksum `crc`, a `uint32`. -/
def maskChecksum (crc : Nat) : Nat :=
  (((crc >>> 15) ||| ((crc <<< 17) % 4294967296)) + 0xa282ead8) % 4294967296

/-- `masked_crc32c(data)`; `crc32.Checksum(data, crctab)` is the parameter `crc32c`, and its
result is a `uint32`. -/
def masked_crc32c (crc32c : List UInt8 → Nat) (data : List UInt8) : Nat :=
  maskChecksum (crc32c data % 4294967296)

/-- The 32-bit right rotation by 15 bits: the low 15 bits move to the top. -/
def rotateRight15 (c : Nat) : Nat := c / 32768 + (c % 32768) * 131072

/-- The 32-bit left rotation by 15 bits: the top 15 bits move to the bottom. -/
def rotateLeft15 (x : Nat) : Nat := (x % 131072) * 32768 + x / 131072

/-- The inverse of the masking: subtract the constant modulo `2^32`, rotate left by 15. -/
def unmaskChecksum (m : Nat) : Nat :=
  rotateLeft15 ((m + 4294967296 - 0xa282ead8) % 4294967296)

/-- The frame rule in the words of the specification: for a frame that is completely present
at the front of `chunk`, what is left of the view behind it and what the frame contributes
to the output.  An identifier frame is the ten magic bytes and contributes nothing; a frame
of kind `0x01` with declared length `L ≥ 4` contributes its bytes `8..4+L`; a frame of kind
`0x00` with `L ≥ 4` contributes the decompression of these bytes; a padding or reserved
skippable frame contributes nothing; each of the latter takes `4+L` bytes.  Everything else
(an incomplete frame, a wrong magic, a data frame shorter than its checksum, a block that
does not decompress, an unsupported kind) has no result. -/
def frameRule (decode : List UInt8 → Option (List UInt8)) (chunk : List UInt8) :
    Option (List UInt8 × List UInt8) :=
  match chunk with
  | k :: b1 :: b2 :: b3 :: rest =>
    if k.toNat = 0xff then
      if (k :: b1 :: b2 :: b3 :: rest).take 10 = streamMagic then
        some ((k :: b1 :: b2 :: b3 :: rest).drop 10, [])
      else none
    else if rest.length < frameLen b1 b2 b3 then none
    else if k.toNat = 0x01 then
      if 4 ≤ frameLen b1 b2 b3 then
        some (rest.drop (frameLen b1 b2 b3), (rest.take (frameLen b1 b2 b3)).drop 4)
      else none
    else if k.toNat = 0x00 then
      if 4 ≤ frameLen b1 b2 b3 then
        match decode ((rest.take (frameLen b1 b2 b3)).drop 4) with
        | some dec => some (rest.drop (frameLen b1 b2 b3), dec)
        | none => none
      else none
    else if k.toNat = 0xfe ∨ (0x80 ≤ k.toNat ∧ k.toNat ≤ 0xfd) then
      some (rest.drop (frameLen b1 b2 b3), [])
    else none
  | _ => none

/-- Consecutive frames by the frame rule: `Frames decode c c1 o` says that complete frames
taken one after the other from the front of the view `c` leave the view `c1` and contribute,
in this order, the output `o`. -/
inductive Frames (decode : List UInt8 → Option (List UInt8)) :
    List UInt8 → List UInt8 → List UInt8 → Prop where
  | nil (c : List UInt8) : Frames decode c c []
  | snoc (c c1 c2 o1 o2 : List UInt8) : Frames decode c c1 o1 →
      frameRule decode c1 = some (c2, o2) → Frames decode c c2 (o1 ++ o2)

/-- The value of the local variable `chunkCount` of `UnsnapOneFrame` when the parse loop
ends: the number of iterations that got past the two exit tests, the aborting one
included. -/
def UnsnapOneFrame.chunkCount (decode : List UInt8 → Option (List UInt8)) (hid : List UInt8) :
    Nat → List UInt8 → PassState → Nat
  | 0, _, _ => 0
  | fuel + 1, chunk, st =>
    if 65536 ≤ st.nDec then 0
    else if chunk.length = 0 then 0
    else
      match UnsnapOneFrame.body decode hid chunk st with
      | .abort _ _ => 1
      | .next chunk1 st1 => 1 + UnsnapOneFrame.chunkCount decode hid fuel chunk1 st1

/-- The value of the local variable `chunkCount` of `Unsnappy` when its loop ends. -/
def Unsnappy.chunkCount (decode : List UInt8 → Option (List UInt8)) (hid : List UInt8) :
    Nat → List UInt8 → List UInt8 → Nat
  | 0, _, _ => 0
  | fuel + 1, chunk, w =>
    if chunk.length = 0 then 0
    else
      match Unsnappy.body decode hid chunk w with
      | .abort _ _ => 1
      | .next chunk1 w1 => 1 + Unsnappy.chunkCount decode hid fuel chunk1 w1

/-- Two inputs that are identical except in the checksum bytes of their data frames.  The
inputs are cut into frames of `4 + frameLen` bytes; after the four header bytes of a frame
come up to four bytes `c` (frame offsets 4..8), then the bytes `p` of the frame that
follow them, then the frames `t` after it.  The bytes `c` may differ between the two
inputs when the frame has the kind `0x00` or `0x01`; everything else is the same.  The
last frame may be cut short by the end of the input. -/
inductive SameButChecksums : List UInt8 → List UInt8 → Prop
  | refl (v : List UInt8) : SameButChecksums v v
  | frame (k b1 b2 b3 : UInt8) (c c' p t t' : List UInt8) :
    c.length = c'.length → c.length ≤ 4 →
    (c ≠ c' → k.toNat = 0x00 ∨ k.toNat = 0x01) →
    (c.length < 4 → p = []) →
    c.length + p.length ≤ frameLen b1 b2 b3 →
    (c.length + p.length < frameLen b1 b2 b3 → t = [] ∧ t' = []) →
    SameButChecksums t t' →
    SameButChecksums (k :: b1 :: b2 :: b3 :: (c ++ p ++ t)) (k :: b1 :: b2 :: b3 :: (c' ++ p ++ t'))

/-- What a call of `UnsnapOneFrame` shows of its variables apart from the encoded bytes
not yet parsed: `nEnc`, `nDec`, the decoded buffer, and the capacity and the byte count of
the encoded buffer. -/
def PassState.seen (st : PassState) : Nat × Nat × FixedSizeRingBuf × Nat × Nat :=
  (st.nEnc, st.nDec, st.decBuf, st.encBuf.N, st.encBuf.data.length)

/-- The behaviour of a call of `UnsnapOneFrame`: the failure or `none` for a return, the
`io.EOF` flag, what `PassState.seen` shows, and the number of source bytes not read. -/
def Outcome.behaviour : Outcome →
    Option (Option Failure × Bool × (Nat × Nat × FixedSizeRingBuf × Nat × Nat) × Nat)
  | .ret st r e => some (none, e, st.seen, r.length)
  | .abort f st r => some (some f, false, st.seen, r.length)
  | .outOfFuel => none

/-- A run of `n` snappy copy elements `fe 01 00`: each copies 64 bytes from offset 1. -/
def copyRun : Nat → List UInt8
  | 0 => []
  | n + 1 => 0xfe :: 0x01 :: 0x00 :: copyRun n

/-- The snappy block of 65536 zero bytes (3077 bytes): the length preamble `80 80 04`, the
literal `00` (tag `00`), 1023 copies of 64 bytes from offset 1 and one copy of 63 bytes
(`fa 01 00`). -/
def zerosBlock : List UInt8 :=
  [0x80, 0x80, 0x04, 0x00, 0x00] ++ (copyRun 1023 ++ [0xfa, 0x01, 0x00])

/-- The compressed frame (`0x00`, declared length 3081) that carries `zerosBlock` after four
checksum bytes. -/
def zerosFrame : List UInt8 :=
  [0x00, 0x09, 0x0c, 0x00, 0x00, 0x00, 0x00, 0x00] ++ zerosBlock

/-- What `snappy.Decode` returns on `zerosBlock`, the one block of the inputs below: 65536
zero bytes.  Other blocks are not asked for and are given as corrupt. -/
def decodeZeros (blk : List UInt8) : Option (List UInt8) :=
  if blk = zerosBlock then some (zeros 65536) else none

/-- The identifier frame, the uncompressed frame of `hello` and `zerosFrame`. -/
def helloThenZeros : List UInt8 := streamMagic ++ (helloFrame 0x00 0x00 0x00 0x00 ++ zerosFrame)

/-- The identifier frame, `zerosFrame` and a frame of the unsupported kind `0x02`. -/
def zerosThenUnsupported : List UInt8 := streamMagic ++ (zerosFrame ++ [0x02, 0x00, 0x00, 0x00])

/-! ## Slices and headers -/

theorem sliceLoHi_of_le {chunk hid : List UInt8} {lo hi : Nat} (h1 : lo ≤ hi)
    (h2 : hi ≤ chunk.length) :
    sliceLoHi chunk hid lo hi = some ((chunk.take hi).drop lo) := by
  unfold sliceLoHi
  rw [if_pos ⟨h1, by omega⟩, List.take_append_of_le_length h2]

theorem sliceLo_of_le {chunk : List UInt8} {lo : Nat} (h : lo ≤ chunk.length) :
    sliceLo chunk lo = some (chunk.drop lo) := by
  unfold sliceLo
  rw [if_pos h]

theorem sliceLo_of_lt {chunk : List UInt8} {lo : Nat} (h : chunk.length < lo) :
    sliceLo chunk lo = none := by
  unfold sliceLo
  rw [if_neg (by omega)]

theorem header_slice (hid : List UInt8) (k b1 b2 b3 : UInt8) (rest : List UInt8) :
    sliceLoHi (k :: b1 :: b2 :: b3 :: rest) hid 1 4 = some [b1, b2, b3] := by
  rw [sliceLoHi_of_le (by omega) (by simp)]
  simp

theorem leUint32_header (b1 b2 b3 : UInt8) :
    leUint32 ([b1, b2, b3] ++ [0]) = frameLen b1 b2 b3 := by
  simp [leUint32, frameLen]

theorem frameLen_lt (b1 b2 b3 : UInt8) : frameLen b1 b2 b3 < 16777216 := by
  have h1 := b1.toNat_lt
  have h2 := b2.toNat_lt
  have h3 := b3.toNat_lt
  unfold frameLen
  omega

theorem drop_header_add (n : Nat) (k b1 b2 b3 : UInt8) (rest : List UInt8) :
    List.drop (4 + n) (k :: b1 :: b2 :: b3 :: rest) = List.drop n rest := by
  rw [Nat.add_comm]
  rfl

theorem payload_slice (hid : List UInt8) (k b1 b2 b3 : UInt8) (rest : List UInt8) (n : Nat)
    (h4 : 4 ≤ n) (hn : n ≤ rest.length) :
    sliceLoHi (k :: b1 :: b2 :: b3 :: rest) hid (headerSz + crc32Sz) (headerSz + n) =
      some ((rest.take n).drop 4) := by
  rw [sliceLoHi_of_le (by simp [headerSz, crc32Sz]; omega) (by simp [headerSz]; omega)]
  simp only [headerSz, crc32Sz]
  rw [Nat.add_comm 4 n]
  simp [List.take_succ_cons]

/-! ## One iteration of `UnsnapOneFrame` on a frame that is completely present -/

theorem body_ident (decode : List UInt8 → Option (List UInt8)) (hid rest : List UInt8)
    (st : PassState) (hview : st.encBuf.data = streamMagic ++ rest) :
    UnsnapOneFrame.body decode hid (streamMagic ++ rest) st =
      .next rest { st with encBuf := ⟨st.encBuf.N, rest⟩, nEnc := st.nEnc + 10 } := by
  unfold UnsnapOneFrame.body
  have hs : streamMagic ++ rest =
      0xff :: 0x06 :: 0x00 :: 0x00 :: (0x73 :: 0x4e :: 0x61 :: 0x50 :: 0x70 :: 0x59 :: rest) := rfl
  rw [hs, header_slice, ← hs]
  have h10 : sliceLoHi (streamMagic ++ rest) hid 0 snappyStreamHeaderSz = some streamMagic := by
    rw [sliceLoHi_of_le (by simp [snappyStreamHeaderSz])
      (by simp [snappyStreamHeaderSz, streamMagic])]
    simp [snappyStreamHeaderSz, streamMagic]
  have hd : sliceLo (streamMagic ++ rest) snappyStreamHeaderSz = some rest := by
    rw [sliceLo_of_le (by simp [snappyStreamHeaderSz, streamMagic])]
    simp [snappyStreamHeaderSz, streamMagic]
  have ha : st.encBuf.Advance snappyStreamHeaderSz = some ⟨st.encBuf.N, rest⟩ := by
    unfold FixedSizeRingBuf.Advance
    rw [hview, if_pos (by simp [snappyStreamHeaderSz, streamMagic])]
    simp [snappyStreamHeaderSz, streamMagic]
  have hk : ((streamMagic ++ rest).headD 0).toNat = 0xff := by
    simp [streamMagic]
  simp only [hk, h10, hd, ha]
  simp [snappyStreamHeaderSz]

theorem body_skippable (decode : List UInt8 → Option (List UInt8)) (hid : List UInt8)
    (k b1 b2 b3 : UInt8) (rest : List UInt8) (st : PassState)
    (hk : k.toNat = 0xfe ∨ (0x80 ≤ k.toNat ∧ k.toNat ≤ 0xfd))
    (hlen : frameLen b1 b2 b3 ≤ rest.length)
    (hview : st.encBuf.data = k :: b1 :: b2 :: b3 :: rest) :
    UnsnapOneFrame.body decode hid (k :: b1 :: b2 :: b3 :: rest) st =
      .next (rest.drop (frameLen b1 b2 b3))
        { st with encBuf := ⟨st.encBuf.N, rest.drop (frameLen b1 b2 b3)⟩,
                  nEnc := st.nEnc + (4 + frameLen b1 b2 b3) } := by
  have h1 : k.toNat ≠ 0xff := by omega
  have h2 : k.toNat ≠ 0 := by omega
  have h3 : k.toNat ≠ 1 := by omega
  unfold UnsnapOneFrame.body
  rw [header_slice]
  simp only [leUint32_header, List.headD_cons, if_neg h1, if_neg h2, if_neg h3, if_pos hk]
  rw [sliceLo_of_le (by simp [headerSz]; omega)]
  simp only [FixedSizeRingBuf.Advance, hview]
  rw [if_pos (by simp [headerSz]; omega)]
  simp [headerSz, drop_header_add]

theorem advance_complete (k b1 b2 b3 : UInt8) (rest : List UInt8) (st : PassState) (n : Nat)
    (hlen : n ≤ rest.length) (hview : st.encBuf.data = k :: b1 :: b2 :: b3 :: rest) :
    UnsnapOneFrame.advance (k :: b1 :: b2 :: b3 :: rest) st (headerSz + n) =
      .next (rest.drop n)
        { st with encBuf := ⟨st.encBuf.N, rest.drop n⟩, nEnc := st.nEnc + (4 + n) } := by
  unfold UnsnapOneFrame.advance
  rw [sliceLo_of_le (by simp [headerSz]; omega)]
  simp only [FixedSizeRingBuf.Advance, hview]
  rw [if_pos (by simp [headerSz]; omega)]
  simp [headerSz, drop_header_add]

theorem emit_fits (st : PassState) (dec : List UInt8)
    (hroom : dec.length ≤ st.decBuf.N - st.decBuf.data.length) :
    UnsnapOneFrame.emit st dec dec.length =
      .ok { st with decBuf := ⟨st.decBuf.N, st.decBuf.data ++ dec⟩,
                    nDec := st.nDec + dec.length } := by
  unfold UnsnapOneFrame.emit FixedSizeRingBuf.Write
  simp [Nat.min_eq_left hroom]

theorem body_uncompressed (decode : List UInt8 → Option (List UInt8)) (hid : List UInt8)
    (k b1 b2 b3 : UInt8) (rest : List UInt8) (st : PassState)
    (hk : k.toNat = 0x01) (h4 : 4 ≤ frameLen b1 b2 b3)
    (hlen : frameLen b1 b2 b3 ≤ rest.length)
    (hroom : frameLen b1 b2 b3 - 4 ≤ st.decBuf.N - st.decBuf.data.length)
    (hview : st.encBuf.data = k :: b1 :: b2 :: b3 :: rest) :
    UnsnapOneFrame.body decode hid (k :: b1 :: b2 :: b3 :: rest) st =
      .next (rest.drop (frameLen b1 b2 b3))
        { encBuf := ⟨st.encBuf.N, rest.drop (frameLen b1 b2 b3)⟩,
          decBuf := ⟨st.decBuf.N, st.decBuf.data ++ (rest.take (frameLen b1 b2 b3)).drop 4⟩,
          nEnc := st.nEnc + (4 + frameLen b1 b2 b3),
          nDec := st.nDec + (frameLen b1 b2 b3 - 4) } := by
  have hl := frameLen_lt b1 b2 b3
  have hpl : ((rest.take (frameLen b1 b2 b3)).drop 4).length = frameLen b1 b2 b3 - 4 := by
    simp [Nat.min_eq_left hlen]
  have hexp : (frameLen b1 b2 b3 + 4294967296 - crc32Sz) % 4294967296 =
      ((rest.take (frameLen b1 b2 b3)).drop 4).length := by
    rw [hpl]
    simp only [crc32Sz]
    omega
  unfold UnsnapOneFrame.body
  rw [header_slice]
  simp only [leUint32_header, List.headD_cons, hk]
  rw [payload_slice hid k b1 b2 b3 rest _ h4 hlen, hexp,
    if_neg (show ¬ (1 : Nat) = 255 by decide), if_neg (show ¬ (1 : Nat) = 0 by decide),
    if_pos trivial]
  dsimp only
  rw [emit_fits _ _ (by rw [hpl]; exact hroom)]
  dsimp only
  rw [advance_complete k b1 b2 b3 rest _ _ hlen (by exact hview), hpl]

theorem body_compressed (decode : List UInt8 → Option (List UInt8)) (hid : List UInt8)
    (k b1 b2 b3 : UInt8) (rest dec : List UInt8) (st : PassState)
    (hk : k.toNat = 0x00) (h4 : 4 ≤ frameLen b1 b2 b3)
    (hlen : frameLen b1 b2 b3 ≤ rest.length)
    (hdec : decode ((rest.take (frameLen b1 b2 b3)).drop 4) = some dec)
    (hroom : dec.length ≤ st.decBuf.N - st.decBuf.data.length)
    (hview : st.encBuf.data = k :: b1 :: b2 :: b3 :: rest) :
    UnsnapOneFrame.body decode hid (k :: b1 :: b2 :: b3 :: rest) st =
      .next (rest.drop (frameLen b1 b2 b3))
        { encBuf := ⟨st.encBuf.N, rest.drop (frameLen b1 b2 b3)⟩,
          decBuf := ⟨st.decBuf.N, st.decBuf.data ++ dec⟩,
          nEnc := st.nEnc + (4 + frameLen b1 b2 b3),
          nDec := st.nDec + dec.length } := by
  unfold UnsnapOneFrame.body
  rw [header_slice]
  simp only [leUint32_header, List.headD_cons, hk]
  rw [payload_slice hid k b1 b2 b3 rest _ h4 hlen,
    if_neg (show ¬ (0 : Nat) = 255 by decide), if_pos trivial]
  dsimp only
  rw [hdec]
  dsimp only
  rw [emit_fits _ _ hroom]
  dsimp only
  rw [advance_complete k b1 b2 b3 rest _ _ hlen (by exact hview)]

/-! ## One iteration on an incomplete frame -/

theorem magic_header_of_take {chunk : List UInt8} (h : chunk.take 10 = streamMagic) :
    leUint32 ((chunk.take 4).drop 1 ++ [0]) = 6 := by
  have h4 : chunk.take 4 = (chunk.take 10).take 4 := by
    rw [List.take_take]
    rfl
  rw [h4, h]
  rfl

theorem body_incomplete (decode : List UInt8 → Option (List UInt8)) (hid chunk : List UInt8)
    (st : PassState)
    (hinc : chunk.length < 4 ∨ chunk.length < 4 + leUint32 ((chunk.take 4).drop 1 ++ [0])) :
    ∃ f st1, UnsnapOneFrame.body decode hid chunk st = .abort f st1 := by
  unfold UnsnapOneFrame.body
  cases h14 : sliceLoHi chunk hid 1 4 with
  | none => exact ⟨_, _, rfl⟩
  | some lenBytes =>
    have hdecl : 4 ≤ chunk.length → lenBytes = (chunk.take 4).drop 1 := by
      intro h
      rw [sliceLoHi_of_le (by omega) h] at h14
      exact (Option.some.inj h14).symm
    have H : chunk.length < headerSz + leUint32 (lenBytes ++ [0]) := by
      rcases Nat.lt_or_ge chunk.length 4 with h | h
      · simp only [headerSz]
        omega
      · rw [hdecl h]
        rcases hinc with h1 | h1
        · omega
        · simpa [headerSz] using h1
    have Hlo : sliceLo chunk (headerSz + leUint32 (lenBytes ++ [0])) = none := sliceLo_of_lt H
    dsimp only
    split_ifs with hff h0 h1 hsk
    · cases h10 : sliceLoHi chunk hid 0 snappyStreamHeaderSz with
      | none => exact ⟨_, _, rfl⟩
      | some streamHeader =>
        dsimp only
        by_cases hm : streamHeader = streamMagic
        · rw [if_neg (not_not.mpr hm)]
          cases hlo : sliceLo chunk snappyStreamHeaderSz with
          | none => exact ⟨_, _, rfl⟩
          | some c1 =>
            exfalso
            have hl : 10 ≤ chunk.length := by
              by_contra hc
              rw [sliceLo_of_lt (by simp only [snappyStreamHeaderSz]; omega)] at hlo
              exact Option.noConfusion hlo
            rw [sliceLoHi_of_le (by simp [snappyStreamHeaderSz]) (by simpa [snappyStreamHeaderSz] using hl)]
              at h10
            have ht : chunk.take 10 = streamMagic := by
              have := Option.some.inj h10
              simpa [snappyStreamHeaderSz, hm] using this
            have h6 := magic_header_of_take ht
            rw [hdecl (by omega), h6] at H
            simp only [headerSz] at H
            omega
        · rw [if_pos hm]
          exact ⟨_, _, rfl⟩
    · cases sliceLoHi chunk hid (headerSz + crc32Sz) (headerSz + leUint32 (lenBytes ++ [0])) with
      | none => exact ⟨_, _, rfl⟩
      | some sectn =>
        dsimp only
        cases decode sectn with
        | none => exact ⟨_, _, rfl⟩
        | some dec =>
          dsimp only
          cases UnsnapOneFrame.emit st dec dec.length with
          | error e => exact ⟨_, _, rfl⟩
          | ok st1 =>
            dsimp only
            unfold UnsnapOneFrame.advance
            rw [Hlo]
            exact ⟨_, _, rfl⟩
    · cases sliceLoHi chunk hid (headerSz + crc32Sz) (headerSz + leUint32 (lenBytes ++ [0])) with
      | none => exact ⟨_, _, rfl⟩
      | some sectn =>
        dsimp only
        cases UnsnapOneFrame.emit st sectn
            ((leUint32 (lenBytes ++ [0]) + 4294967296 - crc32Sz) % 4294967296) with
        | error e => exact ⟨_, _, rfl⟩
        | ok st1 =>
          dsimp only
          unfold UnsnapOneFrame.advance
          rw [Hlo]
          exact ⟨_, _, rfl⟩
    · rw [Hlo]
      exact ⟨_, _, rfl⟩
    · exact ⟨_, _, rfl⟩

/-! ## One iteration of `Unsnappy` on a frame that is completely present -/

theorem batch_ident (decode : List UInt8 → Option (List UInt8)) (hid rest w : List UInt8) :
    Unsnappy.body decode hid (streamMagic ++ rest) w = .next rest w := by
  unfold Unsnappy.body
  have hs : streamMagic ++ rest =
      0xff :: 0x06 :: 0x00 :: 0x00 :: (0x73 :: 0x4e :: 0x61 :: 0x50 :: 0x70 :: 0x59 :: rest) := rfl
  rw [hs, header_slice, ← hs]
  have h10 : sliceLoHi (streamMagic ++ rest) hid 0 snappyStreamHeaderSz = some streamMagic := by
    rw [sliceLoHi_of_le (by simp [snappyStreamHeaderSz])
      (by simp [snappyStreamHeaderSz, streamMagic])]
    simp [snappyStreamHeaderSz, streamMagic]
  have hd : sliceLo (streamMagic ++ rest) snappyStreamHeaderSz = some rest := by
    rw [sliceLo_of_le (by simp [snappyStreamHeaderSz, streamMagic])]
    simp [snappyStreamHeaderSz, streamMagic]
  have hk : ((streamMagic ++ rest).headD 0).toNat = 0xff := by
    simp [streamMagic]
  simp only [hk, h10, hd]
  simp

theorem batch_skippable (decode : List UInt8 → Option (List UInt8)) (hid : List UInt8)
    (k b1 b2 b3 : UInt8) (rest w : List UInt8)
    (hk : k.toNat = 0xfe ∨ (0x80 ≤ k.toNat ∧ k.toNat ≤ 0xfd))
    (hlen : frameLen b1 b2 b3 ≤ rest.length) :
    Unsnappy.body decode hid (k :: b1 :: b2 :: b3 :: rest) w =
      .next (rest.drop (frameLen b1 b2 b3)) w := by
  have h1 : k.toNat ≠ 0xff := by omega
  have h2 : k.toNat ≠ 0 := by omega
  have h3 : k.toNat ≠ 1 := by omega
  unfold Unsnappy.body
  rw [header_slice]
  simp only [leUint32_header, List.headD_cons, if_neg h1, if_neg h2, if_neg h3, if_pos hk]
  rw [sliceLo_of_le (by simp [headerSz]; omega)]
  simp [headerSz, drop_header_add]

theorem batch_uncompressed (decode : List UInt8 → Option (List UInt8)) (hid : List UInt8)
    (k b1 b2 b3 : UInt8) (rest w : List UInt8)
    (hk : k.toNat = 0x01) (h4 : 4 ≤ frameLen b1 b2 b3)
    (hlen : frameLen b1 b2 b3 ≤ rest.length) :
    Unsnappy.body decode hid (k :: b1 :: b2 :: b3 :: rest) w =
      .next (rest.drop (frameLen b1 b2 b3)) (w ++ (rest.take (frameLen b1 b2 b3)).drop 4) := by
  have hl := frameLen_lt b1 b2 b3
  have hpl : ((rest.take (frameLen b1 b2 b3)).drop 4).length = frameLen b1 b2 b3 - 4 := by
    simp [Nat.min_eq_left hlen]
  have hexp : (frameLen b1 b2 b3 + 4294967296 - crc32Sz) % 4294967296 =
      ((rest.take (frameLen b1 b2 b3)).drop 4).length := by
    rw [hpl]
    simp only [crc32Sz]
    omega
  unfold Unsnappy.body
  rw [header_slice]
  simp only [leUint32_header, List.headD_cons, hk]
  rw [payload_slice hid k b1 b2 b3 rest _ h4 hlen, hexp,
    if_neg (show ¬ (1 : Nat) = 255 by decide), if_neg (show ¬ (1 : Nat) = 0 by decide),
    if_pos trivial]
  dsimp only
  rw [if_neg (not_not.mpr rfl), sliceLo_of_le (by simp [headerSz]; omega)]
  simp [headerSz, drop_header_add]

theorem batch_compressed (decode : List UInt8 → Option (List UInt8)) (hid : List UInt8)
    (k b1 b2 b3 : UInt8) (rest dec w : List UInt8)
    (hk : k.toNat = 0x00) (h4 : 4 ≤ frameLen b1 b2 b3)
    (hlen : frameLen b1 b2 b3 ≤ rest.length)
    (hdec : decode ((rest.take (frameLen b1 b2 b3)).drop 4) = some dec) :
    Unsnappy.body decode hid (k :: b1 :: b2 :: b3 :: rest) w =
      .next (rest.drop (frameLen b1 b2 b3)) (w ++ dec) := by
  unfold Unsnappy.body
  rw [header_slice]
  simp only [leUint32_header, List.headD_cons, hk]
  rw [payload_slice hid k b1 b2 b3 rest _ h4 hlen,
    if_neg (show ¬ (0 : Nat) = 255 by decide), if_pos trivial]
  dsimp only
  rw [hdec]
  dsimp only
  rw [sliceLo_of_le (by simp [headerSz]; omega)]
  simp [headerSz, drop_header_add]

/-! ## The loops -/

theorem loop_done (decode : List UInt8 → Option (List UInt8)) (hid r : List UInt8)
    (fuel : Nat) (chunk : List UInt8) (st : PassState)
    (h : 65536 ≤ st.nDec ∨ chunk = []) :
    UnsnapOneFrame.loop decode hid r fuel chunk st = .ret st r false := by
  cases fuel with
  | zero =>
    unfold UnsnapOneFrame.loop
    rcases h with h | h
    · rw [if_pos h]
    · simp [h]
  | succ n =>
    unfold UnsnapOneFrame.loop
    rcases h with h | h
    · rw [if_pos h]
    · simp [h]

theorem loop_next (decode : List UInt8 → Option (List UInt8)) (hid r : List UInt8)
    (fuel : Nat) (chunk chunk1 : List UInt8) (st st1 : PassState)
    (hb : st.nDec < 65536) (hc : chunk ≠ [])
    (hbody : UnsnapOneFrame.body decode hid chunk st = .next chunk1 st1) :
    UnsnapOneFrame.loop decode hid r (fuel + 1) chunk st =
      UnsnapOneFrame.loop decode hid r fuel chunk1 st1 := by
  rw [UnsnapOneFrame.loop, if_neg (by omega), if_neg (by simpa using hc), hbody]

theorem loop_abort (decode : List UInt8 → Option (List UInt8)) (hid r : List UInt8)
    (fuel : Nat) (chunk : List UInt8) (st st1 : PassState) (f : Failure)
    (hb : st.nDec < 65536) (hc : chunk ≠ [])
    (hbody : UnsnapOneFrame.body decode hid chunk st = .abort f st1) :
    UnsnapOneFrame.loop decode hid r (fuel + 1) chunk st = .abort f st1 r := by
  rw [UnsnapOneFrame.loop, if_neg (by omega), if_neg (by simpa using hc), hbody]

theorem batch_loop_nil (decode : List UInt8 → Option (List UInt8)) (hid : List UInt8)
    (fuel : Nat) (w : List UInt8) :
    Unsnappy.loop decode hid fuel [] w = .ok w := by
  cases fuel <;> simp [Unsnappy.loop]

theorem batch_loop_next (decode : List UInt8 → Option (List UInt8)) (hid : List UInt8)
    (fuel : Nat) (chunk chunk1 w w1 : List UInt8) (hc : chunk ≠ [])
    (hbody : Unsnappy.body decode hid chunk w = .next chunk1 w1) :
    Unsnappy.loop decode hid (fuel + 1) chunk w = Unsnappy.loop decode hid fuel chunk1 w1 := by
  rw [Unsnappy.loop, if_neg (by simpa using hc), hbody]

theorem batch_loop_abort (decode : List UInt8 → Option (List UInt8)) (hid : List UInt8)
    (fuel : Nat) (chunk w w1 : List UInt8) (f : Failure) (hc : chunk ≠ [])
    (hbody : Unsnappy.body decode hid chunk w = .abort f w1) :
    Unsnappy.loop decode hid (fuel + 1) chunk w = .abort f w1 := by
  rw [Unsnappy.loop, if_neg (by simpa using hc), hbody]

theorem loop_next_pos (decode : List UInt8 → Option (List UInt8)) (hid r : List UInt8)
    (fuel : Nat) (chunk chunk1 : List UInt8) (st st1 : PassState) (hf : 0 < fuel)
    (hb : st.nDec < 65536) (hc : chunk ≠ [])
    (hbody : UnsnapOneFrame.body decode hid chunk st = .next chunk1 st1) :
    UnsnapOneFrame.loop decode hid r fuel chunk st =
      UnsnapOneFrame.loop decode hid r (fuel - 1) chunk1 st1 := by
  obtain ⟨n, rfl⟩ := Nat.exists_eq_succ_of_ne_zero (Nat.pos_iff_ne_zero.mp hf)
  exact loop_next decode hid r n chunk chunk1 st st1 hb hc hbody

theorem loop_abort_pos (decode : List UInt8 → Option (List UInt8)) (hid r : List UInt8)
    (fuel : Nat) (chunk : List UInt8) (st st1 : PassState) (f : Failure) (hf : 0 < fuel)
    (hb : st.nDec < 65536) (hc : chunk ≠ [])
    (hbody : UnsnapOneFrame.body decode hid chunk st = .abort f st1) :
    UnsnapOneFrame.loop decode hid r fuel chunk st = .abort f st1 r := by
  obtain ⟨n, rfl⟩ := Nat.exists_eq_succ_of_ne_zero (Nat.pos_iff_ne_zero.mp hf)
  exact loop_abort decode hid r n chunk st st1 f hb hc hbody

theorem batch_loop_next_pos (decode : List UInt8 → Option (List UInt8)) (hid : List UInt8)
    (fuel : Nat) (chunk chunk1 w w1 : List UInt8) (hf : 0 < fuel) (hc : chunk ≠ [])
    (hbody : Unsnappy.body decode hid chunk w = .next chunk1 w1) :
    Unsnappy.loop decode hid fuel chunk w = Unsnappy.loop decode hid (fuel - 1) chunk1 w1 := by
  obtain ⟨n, rfl⟩ := Nat.exists_eq_succ_of_ne_zero (Nat.pos_iff_ne_zero.mp hf)
  exact batch_loop_next decode hid n chunk chunk1 w w1 hc hbody

/-! ## A pass and a read on a freshly opened handle -/

theorem pass_fresh_short (decode : List UInt8 → Option (List UInt8)) (hid v : List UInt8)
    (out : FixedSizeRingBuf) (hne : v ≠ []) (hlen : v.length < 65536) :
    UnsnapOneFrame decode hid v (NewFixedSizeRingBuf 65536) out =
      UnsnapOneFrame.loop decode hid [] v.length v ⟨⟨65536, v⟩, out, v.length, 0⟩ := by
  have hpos : 0 < v.length := List.length_pos.mpr hne
  have hk : min 65536 (min (65536 - 0) v.length) = v.length := by omega
  unfold UnsnapOneFrame copyN
  simp only [NewFixedSizeRingBuf, List.length_nil, hk, List.take_length, List.drop_length,
    List.nil_append, FixedSizeRingBuf.Readable, FixedSizeRingBuf.Bytes]
  rw [if_neg (by omega)]

theorem pass_fresh_full (decode : List UInt8 → Option (List UInt8)) (hid v rest : List UInt8)
    (out : FixedSizeRingBuf) (hlen : v.length = 65536) :
    UnsnapOneFrame decode hid (v ++ rest) (NewFixedSizeRingBuf 65536) out =
      UnsnapOneFrame.loop decode hid rest 65536 v ⟨⟨65536, v⟩, out, 65536, 0⟩ := by
  have hk : min 65536 (min (65536 - 0) (v ++ rest).length) = 65536 := by
    rw [List.length_append]
    omega
  have ht : (v ++ rest).take 65536 = v := by
    rw [← hlen]
    exact List.take_left' rfl
  have hd : (v ++ rest).drop 65536 = rest := by
    rw [← hlen]
    exact List.drop_left' rfl
  unfold UnsnapOneFrame copyN
  simp only [NewFixedSizeRingBuf, List.length_nil, hk, ht, hd,
    List.nil_append, FixedSizeRingBuf.Readable, FixedSizeRingBuf.Bytes]
  rw [if_neg (by simp), hlen]

theorem Read_of_empty (decode : List UInt8 → Option (List UInt8)) (hid : List UInt8)
    (f : SnappyFile) (plen : Nat) (he : f.DecBuf.data = []) :
    f.Read decode hid plen =
      match UnsnapOneFrame decode hid f.Filep f.EncBuf f.DecBuf with
      | .outOfFuel => .outOfFuel
      | .abort fl st r => .abort fl ⟨r, st.encBuf, st.decBuf⟩
      | .ret st r _ =>
        if 0 < (st.decBuf.data.take plen).length then
          .ret (st.decBuf.data.take plen) false ⟨r, st.encBuf, ⟨st.decBuf.N, st.decBuf.data.drop plen⟩⟩
        else if st.decBuf.data.drop plen = [] ∧ st.encBuf.data = [] then
          .ret [] true ⟨r, st.encBuf, ⟨st.decBuf.N, st.decBuf.data.drop plen⟩⟩
        else .ret [] false ⟨r, st.encBuf, ⟨st.decBuf.N, st.decBuf.data.drop plen⟩⟩ := by
  have hd : f.DecBuf = ⟨f.DecBuf.N, []⟩ := by
    cases hb : f.DecBuf with
    | mk n d =>
      rw [hb] at he
      simp only at he
      rw [he]
  unfold SnappyFile.Read FixedSizeRingBuf.Read
  simp only [he, List.take_nil, List.drop_nil, List.length_nil, Nat.lt_irrefl, if_false]
  rw [← hd]
  cases UnsnapOneFrame decode hid f.Filep f.EncBuf f.DecBuf with
  | outOfFuel => rfl
  | abort fl st r => rfl
  | ret st r eof =>
    simp only [FixedSizeRingBuf.Bytes, List.length_eq_zero]
    clear hd he
    split_ifs <;> first | rfl | (exfalso; tauto)

theorem Read_fresh (decode : List UInt8 → Option (List UInt8)) (hid x : List UInt8)
    (plen : Nat) :
    (Open x).Read decode hid plen =
      match UnsnapOneFrame decode hid x (NewFixedSizeRingBuf 65536)
          (NewFixedSizeRingBuf (65536 * 2)) with
      | .outOfFuel => .outOfFuel
      | .abort fl st r => .abort fl ⟨r, st.encBuf, st.decBuf⟩
      | .ret st r _ =>
        if 0 < (st.decBuf.data.take plen).length then
          .ret (st.decBuf.data.take plen) false ⟨r, st.encBuf, ⟨st.decBuf.N, st.decBuf.data.drop plen⟩⟩
        else if st.decBuf.data.drop plen = [] ∧ st.encBuf.data = [] then
          .ret [] true ⟨r, st.encBuf, ⟨st.decBuf.N, st.decBuf.data.drop plen⟩⟩
        else .ret [] false ⟨r, st.encBuf, ⟨st.decBuf.N, st.decBuf.data.drop plen⟩⟩ :=
  Read_of_empty decode hid (Open x) plen rfl

theorem Read_fresh_abort (decode : List UInt8 → Option (List UInt8)) (hid x r : List UInt8)
    (plen : Nat) (fl : Failure) (st : PassState)
    (h : UnsnapOneFrame decode hid x (NewFixedSizeRingBuf 65536)
      (NewFixedSizeRingBuf (65536 * 2)) = .abort fl st r) :
    (Open x).Read decode hid plen = .abort fl ⟨r, st.encBuf, st.decBuf⟩ := by
  rw [Read_fresh, h]


theorem pass_ident_hello (decode : List UInt8 → Option (List UInt8))
    (hid : List UInt8) (c0 c1 c2 c3 : UInt8) :
    UnsnapOneFrame decode hid (streamMagic ++ helloFrame c0 c1 c2 c3)
        (NewFixedSizeRingBuf 65536) (NewFixedSizeRingBuf (65536 * 2)) =
      .ret ⟨⟨65536, []⟩, ⟨131072, hello⟩, 46, 5⟩ [] false := by
  have h9 : frameLen 0x09 0x00 0x00 = 9 := by decide
  have e1 := body_ident decode hid (helloFrame c0 c1 c2 c3)
    ⟨⟨65536, streamMagic ++ helloFrame c0 c1 c2 c3⟩, ⟨131072, []⟩, 23, 0⟩ rfl
  have e2 := body_uncompressed decode hid 0x01 0x09 0x00 0x00
    [c0, c1, c2, c3, 0x68, 0x65, 0x6c, 0x6c, 0x6f]
    ⟨⟨65536, helloFrame c0 c1 c2 c3⟩, ⟨131072, []⟩, 33, 0⟩ rfl (by decide)
    (by rw [h9]; simp) (by rw [h9]; simp) rfl
  refine (pass_fresh_short decode hid _ _ (by simp [streamMagic]) (by simp [streamMagic, helloFrame])).trans ?_
  refine (loop_next_pos decode hid [] _ _ _ _ _ (by simp [streamMagic]) (by simp)
    (by simp [streamMagic]) e1).trans ?_
  refine (loop_next_pos decode hid [] _ _ _ _ _ (by simp [streamMagic, helloFrame]) (by simp)
    (by simp [helloFrame]) e2).trans ?_
  exact loop_done decode hid [] _ _ _ (Or.inr rfl)

theorem batch_ident_hello (decode : List UInt8 → Option (List UInt8))
    (hid : List UInt8) (c0 c1 c2 c3 : UInt8) :
    Unsnappy decode hid (streamMagic ++ helloFrame c0 c1 c2 c3) = .ok hello := by
  have h9 : frameLen 0x09 0x00 0x00 = 9 := by decide
  have b1 := batch_ident decode hid (helloFrame c0 c1 c2 c3) []
  have b2 := batch_uncompressed decode hid 0x01 0x09 0x00 0x00
    [c0, c1, c2, c3, 0x68, 0x65, 0x6c, 0x6c, 0x6f] [] rfl (by decide) (by rw [h9]; simp)
  refine (batch_loop_next_pos decode hid _ _ _ _ _ (by simp [streamMagic])
    (by simp [streamMagic]) b1).trans ?_
  refine (batch_loop_next_pos decode hid _ _ _ _ _ (by simp [streamMagic, helloFrame])
    (by simp [helloFrame]) b2).trans ?_
  exact batch_loop_nil decode hid _ _

/-! ## C2: the concrete scenario -/

/-- C2 (counterexample): with the declared length 5 of the scenario as written, the frame
carries the checksum and the single byte `h`; both decoders emit `h`, take `e` for the
kind byte of the next frame and abort with the unsupported-chunk failure. -/
theorem C2_scenario_declared_5_aborts :
    UnsnapOneFrame (fun _ => none) [] (scenario 0x05 0 0 0 0) (NewFixedSizeRingBuf 65536)
        (NewFixedSizeRingBuf (65536 * 2)) =
      .abort .unsupportedChunk
        ⟨⟨65536, [0x65, 0x6c, 0x6c, 0x6f]⟩, ⟨131072, [0x68]⟩, 42, 1⟩ [] ∧
    Unsnappy (fun _ => none) [] (scenario 0x05 0 0 0 0) = .abort .unsupportedChunk [0x68] := by
  decide

/-- C2 (amended): with the declared length 9 (four checksum bytes and the five bytes of
`hello`), for every choice of the checksum bytes, of the block decoder and of the bytes
behind the view, `UnsnapOneFrame` on empty buffers returns with exactly `hello` in the
decoded buffer and an empty encoded buffer, and `Unsnappy` writes exactly `hello`. -/
theorem C2_scenario_declared_9_decodes (decode : List UInt8 → Option (List UInt8))
    (hid : List UInt8) (c0 c1 c2 c3 : UInt8) :
    UnsnapOneFrame decode hid (scenario 0x09 c0 c1 c2 c3) (NewFixedSizeRingBuf 65536)
        (NewFixedSizeRingBuf (65536 * 2)) =
      .ret ⟨⟨65536, []⟩, ⟨131072, hello⟩, 46, 5⟩ [] false ∧
    Unsnappy decode hid (scenario 0x09 c0 c1 c2 c3) = .ok hello :=
  ⟨pass_ident_hello decode hid c0 c1 c2 c3, batch_ident_hello decode hid c0 c1 c2 c3⟩

/-! ## C1: round trip through `Read` -/

theorem readToEOF_abort (decode : List UInt8 → Option (List UInt8)) (hid : Nat → List UInt8)
    (plen fuel i : Nat) (f f1 : SnappyFile) (out : List UInt8) (fl : Failure)
    (h : f.Read decode (hid i) plen = .abort fl f1) :
    readToEOF decode hid plen (fuel + 1) i f out = .abort fl out := by
  rw [readToEOF, h]

theorem pass_abort_of_incomplete (decode : List UInt8 → Option (List UInt8))
    (hid r chunk : List UInt8) (fuel : Nat) (st : PassState) (hf : 0 < fuel)
    (hb : st.nDec < 65536) (hc : chunk ≠ [])
    (hinc : chunk.length < 4 ∨ chunk.length < 4 + leUint32 ((chunk.take 4).drop 1 ++ [0])) :
    ∃ f st1, UnsnapOneFrame.loop decode hid r fuel chunk st = .abort f st1 r := by
  obtain ⟨f, st1, h⟩ := body_incomplete decode hid chunk st hinc
  exact ⟨f, st1, loop_abort_pos decode hid r fuel chunk st st1 f hf hb hc h⟩

theorem zeros_length (n : Nat) : (zeros n).length = n := by
  simp [zeros]

theorem zeros_add (m n : Nat) : zeros (m + n) = zeros m ++ zeros n := by
  unfold zeros
  exact List.replicate_add m n 0

theorem bigFrame_split (c0 c1 c2 c3 : UInt8) :
    streamMagic ++ bigFrame c0 c1 c2 c3 =
      (streamMagic ++ (0x01 :: 0x04 :: 0x00 :: 0x01 :: c0 :: c1 :: c2 :: c3 :: zeros 65518)) ++
        zeros 18 := by
  have h : zeros 65536 = zeros 65518 ++ zeros 18 := zeros_add 65518 18
  simp only [bigFrame, h, List.cons_append, List.append_assoc]

theorem pass_aborts_inside_frame (decode : List UInt8 → Option (List UInt8))
    (hid : List UInt8) (c0 c1 c2 c3 : UInt8) (z1 z2 : List UInt8) (h1 : z1.length = 65518) :
    ∃ f st1, UnsnapOneFrame decode hid
        ((streamMagic ++ (0x01 :: 0x04 :: 0x00 :: 0x01 :: c0 :: c1 :: c2 :: c3 :: z1)) ++ z2)
        (NewFixedSizeRingBuf 65536) (NewFixedSizeRingBuf (65536 * 2)) = .abort f st1 z2 := by
  have hl10 : streamMagic.length = 10 := rfl
  have e1 := body_ident decode hid
    (0x01 :: 0x04 :: 0x00 :: 0x01 :: c0 :: c1 :: c2 :: c3 :: z1)
    ⟨⟨65536, streamMagic ++ (0x01 :: 0x04 :: 0x00 :: 0x01 :: c0 :: c1 :: c2 :: c3 :: z1)⟩,
      ⟨131072, []⟩, 65536, 0⟩ rfl
  obtain ⟨f, st1, h2⟩ := pass_abort_of_incomplete decode hid z2
    (0x01 :: 0x04 :: 0x00 :: 0x01 :: c0 :: c1 :: c2 :: c3 :: z1) 65535
    ⟨⟨65536, 0x01 :: 0x04 :: 0x00 :: 0x01 :: c0 :: c1 :: c2 :: c3 :: z1⟩,
      ⟨131072, []⟩, 65536 + 10, 0⟩ (by omega) (by simp) (by simp)
    (Or.inr (by simp [leUint32, h1, UInt8.size]))
  refine ⟨f, st1, ?_⟩
  refine (pass_fresh_full decode hid _ _ _ (by simp [hl10, h1])).trans ?_
  refine (loop_next_pos decode hid _ _ _ _ _ _ (by omega) (by simp)
    (by simp [streamMagic]) e1).trans ?_
  exact h2

theorem batch_full_frame (decode : List UInt8 → Option (List UInt8))
    (hid : List UInt8) (c0 c1 c2 c3 : UInt8) (z : List UInt8) (hz : z.length = 65536) :
    Unsnappy decode hid
        (streamMagic ++ (0x01 :: 0x04 :: 0x00 :: 0x01 :: c0 :: c1 :: c2 :: c3 :: z)) = .ok z := by
  have hl10 : streamMagic.length = 10 := rfl
  have hfl : frameLen 0x04 0x00 0x01 = 65540 := by decide
  have b1 := batch_ident decode hid
    (0x01 :: 0x04 :: 0x00 :: 0x01 :: c0 :: c1 :: c2 :: c3 :: z) []
  have b2 := batch_uncompressed decode hid 0x01 0x04 0x00 0x01 (c0 :: c1 :: c2 :: c3 :: z) []
    rfl (by decide) (by rw [hfl]; simp [hz])
  have hd : (c0 :: c1 :: c2 :: c3 :: z).drop (frameLen 0x04 0x00 0x01) = [] := by
    rw [hfl]
    exact List.drop_eq_nil_of_le (by simp [hz])
  have ht : [] ++ ((c0 :: c1 :: c2 :: c3 :: z).take (frameLen 0x04 0x00 0x01)).drop 4 = z := by
    rw [hfl, List.take_of_length_le (by simp [hz])]
    rfl
  rw [hd, ht] at b2
  unfold Unsnappy
  refine (batch_loop_next_pos decode hid _ _ _ _ _ (by simp [hl10]) (by simp [streamMagic])
    b1).trans ?_
  refine (batch_loop_next_pos decode hid _ _ _ _ _ (by simp [hl10, hz]) (by simp) b2).trans ?_
  exact batch_loop_nil decode hid _ _

/-- C1 (failing input): the stream is the identifier frame and one uncompressed frame that
carries 65536 zero bytes.  The refill takes 65536 bytes, so the view ends inside the data
frame and the first `Read` aborts, for every checksum, every read size and whatever lies
behind the view: reading until `io.EOF` yields nothing.  The batch path `Unsnappy`
decodes the same stream to the 65536 bytes. -/
theorem C1_read_aborts_on_full_size_frame (decode : List UInt8 → Option (List UInt8))
    (hid : Nat → List UInt8) (plen fuel : Nat) (c0 c1 c2 c3 : UInt8) :
    (∃ f, readToEOF decode hid plen (fuel + 1) 0
        (Open (streamMagic ++ bigFrame c0 c1 c2 c3)) [] = .abort f []) ∧
    Unsnappy decode (hid 0) (streamMagic ++ bigFrame c0 c1 c2 c3) = .ok (zeros 65536) := by
  constructor
  · obtain ⟨f, st1, hp⟩ := pass_aborts_inside_frame decode (hid 0) c0 c1 c2 c3
      (zeros 65518) (zeros 18) (zeros_length _)
    refine ⟨f, readToEOF_abort decode hid plen fuel 0 _ ⟨zeros 18, st1.encBuf, st1.decBuf⟩
      [] f ?_⟩
    rw [bigFrame_split]
    exact Read_fresh_abort decode (hid 0) _ _ plen f st1 hp
  · exact batch_full_frame decode (hid 0) c0 c1 c2 c3 (zeros 65536) (zeros_length _)

/-! ## C3, C9, C10: `io.EOF` while the source still holds frames -/

theorem pass_ident_padding (decode : List UInt8 → Option (List UInt8))
    (hid : List UInt8) (z rest : List UInt8) (hz : z.length = 65522) :
    UnsnapOneFrame decode hid
        ((streamMagic ++ (0xfe :: 0xf2 :: 0xff :: 0x00 :: z)) ++ rest)
        (NewFixedSizeRingBuf 65536) (NewFixedSizeRingBuf (65536 * 2)) =
      .ret ⟨⟨65536, []⟩, ⟨131072, []⟩, 131072, 0⟩ rest false := by
  have hl10 : streamMagic.length = 10 := rfl
  have hfl : frameLen 0xf2 0xff 0x00 = 65522 := by decide
  have hd : z.drop 65522 = [] := List.drop_eq_nil_of_le (by rw [hz])
  have e1 : UnsnapOneFrame.body decode hid (streamMagic ++ (0xfe :: 0xf2 :: 0xff :: 0x00 :: z))
      ⟨⟨65536, streamMagic ++ (0xfe :: 0xf2 :: 0xff :: 0x00 :: z)⟩,
        NewFixedSizeRingBuf (65536 * 2), 65536, 0⟩ =
      .next (0xfe :: 0xf2 :: 0xff :: 0x00 :: z)
        ⟨⟨65536, 0xfe :: 0xf2 :: 0xff :: 0x00 :: z⟩, ⟨131072, []⟩, 65546, 0⟩ := by
    simpa [NewFixedSizeRingBuf] using body_ident decode hid (0xfe :: 0xf2 :: 0xff :: 0x00 :: z)
      ⟨⟨65536, streamMagic ++ (0xfe :: 0xf2 :: 0xff :: 0x00 :: z)⟩, ⟨131072, []⟩, 65536, 0⟩ rfl
  have e2 : UnsnapOneFrame.body decode hid (0xfe :: 0xf2 :: 0xff :: 0x00 :: z)
      ⟨⟨65536, 0xfe :: 0xf2 :: 0xff :: 0x00 :: z⟩, ⟨131072, []⟩, 65546, 0⟩ =
      .next [] ⟨⟨65536, []⟩, ⟨131072, []⟩, 131072, 0⟩ := by
    simpa [hfl, hd] using body_skippable decode hid 0xfe 0xf2 0xff 0x00 z
      ⟨⟨65536, 0xfe :: 0xf2 :: 0xff :: 0x00 :: z⟩, ⟨131072, []⟩, 65546, 0⟩
      (Or.inl rfl) (by rw [hfl, hz]) rfl
  rw [pass_fresh_full decode hid _ _ _ (by simp [hl10, hz]),
    loop_next_pos decode hid _ _ _ _ _ _ (by omega) (by simp) (by simp [streamMagic]) e1,
    loop_next_pos decode hid _ _ _ _ _ _ (by omega) (by simp) (by simp) e2,
    loop_done decode hid _ _ _ _ (Or.inr rfl)]

theorem padded_split (c0 c1 c2 c3 : UInt8) :
    streamMagic ++ padFrame ++ helloFrame c0 c1 c2 c3 =
      (streamMagic ++ (0xfe :: 0xf2 :: 0xff :: 0x00 :: zeros 65522)) ++
        helloFrame c0 c1 c2 c3 := rfl

theorem Read_fresh_eof (decode : List UInt8 → Option (List UInt8)) (hid x r : List UInt8)
    (plen n m : Nat) (e : Bool)
    (h : UnsnapOneFrame decode hid x (NewFixedSizeRingBuf 65536)
      (NewFixedSizeRingBuf (65536 * 2)) = .ret ⟨⟨65536, []⟩, ⟨131072, []⟩, n, m⟩ r e) :
    (Open x).Read decode hid plen = .ret [] true (Open r) := by
  rw [Read_fresh, h]
  simp [Open, NewFixedSizeRingBuf]

theorem Read_padded_eof (decode : List UInt8 → Option (List UInt8)) (hid : List UInt8)
    (plen : Nat) (c0 c1 c2 c3 : UInt8) :
    (Open (streamMagic ++ padFrame ++ helloFrame c0 c1 c2 c3)).Read decode hid plen =
      .ret [] true (Open (helloFrame c0 c1 c2 c3)) := by
  rw [padded_split]
  exact Read_fresh_eof decode hid _ _ plen _ _ _
    (pass_ident_padding decode hid (zeros 65522) _ (zeros_length _))

theorem pass_hello_frame (decode : List UInt8 → Option (List UInt8)) (hid : List UInt8)
    (c0 c1 c2 c3 : UInt8) :
    UnsnapOneFrame decode hid (helloFrame c0 c1 c2 c3) (NewFixedSizeRingBuf 65536)
        (NewFixedSizeRingBuf (65536 * 2)) =
      .ret ⟨⟨65536, []⟩, ⟨131072, hello⟩, 26, 5⟩ [] false := by
  have h9 : frameLen 0x09 0x00 0x00 = 9 := by decide
  have e2 := body_uncompressed decode hid 0x01 0x09 0x00 0x00
    [c0, c1, c2, c3, 0x68, 0x65, 0x6c, 0x6c, 0x6f]
    ⟨⟨65536, helloFrame c0 c1 c2 c3⟩, ⟨131072, []⟩, 13, 0⟩ rfl (by decide)
    (by rw [h9]; simp) (by rw [h9]; simp) rfl
  refine (pass_fresh_short decode hid _ _ (by simp [helloFrame]) (by simp [helloFrame])).trans ?_
  refine (loop_next_pos decode hid [] _ _ _ _ _ (by simp [helloFrame]) (by simp)
    (by simp [helloFrame]) e2).trans ?_
  exact loop_done decode hid [] _ _ _ (Or.inr rfl)

/-- C3 (failing input): the source holds the identifier frame, a padding frame that fills
the first 65536 bytes exactly, and then a data frame carrying `hello`.  The first `Read`
consumes the two leading frames, produces nothing and returns `(0, io.EOF)` although the
data frame is still unread in the source. -/
theorem C3_eof_with_unread_source (decode : List UInt8 → Option (List UInt8))
    (hid : List UInt8) (plen : Nat) (c0 c1 c2 c3 : UInt8) :
    (Open (streamMagic ++ padFrame ++ helloFrame c0 c1 c2 c3)).Read decode hid plen =
      .ret [] true ⟨helloFrame c0 c1 c2 c3, ⟨65536, []⟩, ⟨131072, []⟩⟩ ∧
    helloFrame c0 c1 c2 c3 ≠ [] :=
  ⟨Read_padded_eof decode hid plen c0 c1 c2 c3, by simp [helloFrame]⟩

theorem pass_empty (decode : List UInt8 → Option (List UInt8)) (hid : List UInt8) :
    UnsnapOneFrame decode hid [] (NewFixedSizeRingBuf 65536) (NewFixedSizeRingBuf (65536 * 2)) =
      .ret ⟨⟨65536, []⟩, ⟨131072, []⟩, 0, 0⟩ [] true := by
  simp [UnsnapOneFrame, copyN, NewFixedSizeRingBuf, FixedSizeRingBuf.Readable]

theorem Read_hello (decode : List UInt8 → Option (List UInt8)) (hid : List UInt8)
    (plen : Nat) (c0 c1 c2 c3 : UInt8) :
    (Open (helloFrame c0 c1 c2 c3)).Read decode hid plen =
      .ret (hello.take plen) false ⟨[], ⟨65536, []⟩, ⟨131072, hello.drop plen⟩⟩ := by
  rw [Read_fresh, pass_hello_frame]
  dsimp only
  rcases Nat.eq_zero_or_pos plen with h | h
  · subst h
    simp [hello]
  · rw [if_pos (by simp [hello]; omega)]

/-- C10 (failing input): on the stream of C3 the first `Read` returns `(0, io.EOF)`; the
next `Read` on the same handle refills from the source, decodes the data frame and returns
`(min(len(p), 5), nil)` with the first bytes of `hello`, not `(0, io.EOF)`.  The cause is
the defect of C3. -/
theorem C10_read_after_eof_returns_data (decode : List UInt8 → Option (List UInt8))
    (hid1 hid2 : List UInt8) (plen : Nat) (c0 c1 c2 c3 : UInt8) :
    (Open (streamMagic ++ padFrame ++ helloFrame c0 c1 c2 c3)).Read decode hid1 plen =
      .ret [] true ⟨helloFrame c0 c1 c2 c3, ⟨65536, []⟩, ⟨131072, []⟩⟩ ∧
    SnappyFile.Read decode hid2 ⟨helloFrame c0 c1 c2 c3, ⟨65536, []⟩, ⟨131072, []⟩⟩ plen =
      .ret (hello.take plen) false ⟨[], ⟨65536, []⟩, ⟨131072, hello.drop plen⟩⟩ :=
  ⟨Read_padded_eof decode hid1 plen c0 c1 c2 c3, Read_hello decode hid2 plen c0 c1 c2 c3⟩

/-- C9 (failing input): `E` is the identifier frame followed by a data frame carrying
`hello`; `E'` has one padding frame inserted between the two.  Reading `E` until `io.EOF`
yields `hello`; reading `E'` until `io.EOF` yields nothing, because the first `Read`
already reports `io.EOF` (the defect of C3). -/
theorem C9_padding_changes_output (decode : List UInt8 → Option (List UInt8))
    (hid : Nat → List UInt8) (fuel : Nat) (c0 c1 c2 c3 : UInt8) :
    readToEOF decode hid (32 * 1024) (fuel + 2) 0
        (Open (streamMagic ++ helloFrame c0 c1 c2 c3)) [] = .ok hello ∧
    readToEOF decode hid (32 * 1024) (fuel + 1) 0
        (Open (streamMagic ++ padFrame ++ helloFrame c0 c1 c2 c3)) [] = .ok [] := by
  constructor
  · have r1 : (Open (streamMagic ++ helloFrame c0 c1 c2 c3)).Read decode (hid 0) (32 * 1024) =
        .ret hello false (Open []) := by
      rw [Read_fresh, pass_ident_hello]
      simp [hello, Open, NewFixedSizeRingBuf]
    have r2 : (Open []).Read decode (hid (0 + 1)) (32 * 1024) = .ret [] true (Open []) :=
      Read_fresh_eof decode (hid (0 + 1)) _ _ _ _ _ _ (pass_empty decode (hid (0 + 1)))
    rw [readToEOF, r1]
    dsimp only
    rw [if_neg (by simp), readToEOF, r2]
    simp
  · rw [readToEOF, Read_padded_eof]
    simp

/-! ## C4: a view that ends in an incomplete frame -/

/-- C4 (failing input): a pass whose view ends in an incomplete frame aborts instead of
keeping the partial frame for the next pass.  First: the source delivers the identifier
frame and the first ten bytes of a 13-byte data frame.  Second: the source holds the
identifier frame and a data frame of 65544 bytes, of which the refill takes 65526.  In both
cases, for every checksum, every block decoder and whatever lies behind the view, the call
aborts. -/
theorem C4_pass_aborts_on_incomplete_frame (decode : List UInt8 → Option (List UInt8))
    (hid : List UInt8) (c0 c1 c2 c3 : UInt8) :
    (∃ f st1, UnsnapOneFrame decode hid
        (streamMagic ++ [0x01, 0x09, 0x00, 0x00, c0, c1, c2, c3, 0x68, 0x65])
        (NewFixedSizeRingBuf 65536) (NewFixedSizeRingBuf (65536 * 2)) = .abort f st1 []) ∧
    (∃ f st1, UnsnapOneFrame decode hid (streamMagic ++ bigFrame c0 c1 c2 c3)
        (NewFixedSizeRingBuf 65536) (NewFixedSizeRingBuf (65536 * 2)) =
          .abort f st1 (zeros 18)) := by
  constructor
  · have e1 := body_ident decode hid [0x01, 0x09, 0x00, 0x00, c0, c1, c2, c3, 0x68, 0x65]
      ⟨⟨65536, streamMagic ++ [0x01, 0x09, 0x00, 0x00, c0, c1, c2, c3, 0x68, 0x65]⟩,
        ⟨131072, []⟩, 20, 0⟩ rfl
    obtain ⟨f, st1, h2⟩ := pass_abort_of_incomplete decode hid []
      [0x01, 0x09, 0x00, 0x00, c0, c1, c2, c3, 0x68, 0x65] 19
      ⟨⟨65536, [0x01, 0x09, 0x00, 0x00, c0, c1, c2, c3, 0x68, 0x65]⟩, ⟨131072, []⟩, 20 + 10, 0⟩
      (by omega) (by simp) (by simp) (Or.inr (by simp [leUint32, UInt8.size]))
    refine ⟨f, st1, ?_⟩
    refine (pass_fresh_short decode hid _ _ (by simp [streamMagic])
      (by simp [streamMagic])).trans ?_
    refine (loop_next_pos decode hid [] _ _ _ _ _ (by simp [streamMagic]) (by simp)
      (by simp [streamMagic]) e1).trans ?_
    exact h2
  · rw [bigFrame_split]
    exact pass_aborts_inside_frame decode hid c0 c1 c2 c3 (zeros 65518) (zeros 18)
      (zeros_length _)

/-! ## C5: a stream without the identifier frame -/

theorem batch_hello_frame (decode : List UInt8 → Option (List UInt8))
    (hid : List UInt8) (c0 c1 c2 c3 : UInt8) :
    Unsnappy decode hid (helloFrame c0 c1 c2 c3) = .ok hello := by
  have h9 : frameLen 0x09 0x00 0x00 = 9 := by decide
  have b2 := batch_uncompressed decode hid 0x01 0x09 0x00 0x00
    [c0, c1, c2, c3, 0x68, 0x65, 0x6c, 0x6c, 0x6f] [] rfl (by decide) (by rw [h9]; simp)
  refine (batch_loop_next_pos decode hid _ _ _ _ _ (by simp [helloFrame])
    (by simp [helloFrame]) b2).trans ?_
  exact batch_loop_nil decode hid _ _

/-- C5 (failing input): the stream that consists of the uncompressed frame of `hello` alone,
with no identifier frame before it.  For every checksum, block decoder, backing array and
length of the destination, nothing fails: one call of `UnsnapOneFrame` on empty buffers
returns `(26, 5, nil)` with `hello` in the decoded buffer, `Read` on the opened handle
returns the first bytes of `hello`, and `Unsnappy` writes `hello`. -/
theorem C5_stream_without_identifier_decodes (decode : List UInt8 → Option (List UInt8))
    (hid : List UInt8) (plen : Nat) (c0 c1 c2 c3 : UInt8) :
    UnsnapOneFrame decode hid (helloFrame c0 c1 c2 c3) (NewFixedSizeRingBuf 65536)
        (NewFixedSizeRingBuf (65536 * 2)) =
      .ret ⟨⟨65536, []⟩, ⟨131072, hello⟩, 26, 5⟩ [] false ∧
    (Open (helloFrame c0 c1 c2 c3)).Read decode hid plen =
      .ret (hello.take plen) false ⟨[], ⟨65536, []⟩, ⟨131072, hello.drop plen⟩⟩ ∧
    Unsnappy decode hid (helloFrame c0 c1 c2 c3) = .ok hello :=
  ⟨pass_hello_frame decode hid c0 c1 c2 c3, Read_hello decode hid plen c0 c1 c2 c3,
    batch_hello_frame decode hid c0 c1 c2 c3⟩

theorem emit_error_kind {st st1 : PassState} {dec : List UInt8} {n : Nat} {f : Failure}
    (h : UnsnapOneFrame.emit st dec n = .error (f, st1)) : f = .shortWrite := by
  unfold UnsnapOneFrame.emit FixedSizeRingBuf.Write at h
  dsimp only at h
  split_ifs at h <;> exact ((Prod.mk.inj (Except.error.inj h)).1).symm

theorem advance_abort_kind {chunk : List UInt8} {st st1 : PassState} {inc : Nat} {f : Failure}
    (h : UnsnapOneFrame.advance chunk st inc = .abort f st1) :
    f = .sliceBounds ∨ f = .advanceInvariant := by
  unfold UnsnapOneFrame.advance at h
  split at h
  · exact Or.inl (Step.abort.inj h).1.symm
  · split at h
    · exact Or.inr (Step.abort.inj h).1.symm
    · cases h

theorem body_abort_cases (decode : List UInt8 → Option (List UInt8)) (hid chunk : List UInt8)
    (st st1 : PassState) (f : Failure)
    (h : UnsnapOneFrame.body decode hid chunk st = .abort f st1) :
    (f = .malformedHeader ∧ (chunk.headD 0).toNat = 0xff) ∨
    (f = .unsupportedChunk ∧ (chunk.headD 0).toNat ≠ 0xff ∧ (chunk.headD 0).toNat ≠ 0x00 ∧
      (chunk.headD 0).toNat ≠ 0x01 ∧ ¬ skippableKind (chunk.headD 0).toNat) ∨
    f = .sliceBounds ∨ f = .advanceInvariant ∨ f = .shortWrite ∨ f = .corruptBlock := by
  unfold UnsnapOneFrame.body at h
  cases h14 : sliceLoHi chunk hid 1 4 with
  | none =>
    rw [h14] at h
    exact Or.inr (Or.inr (Or.inl (Step.abort.inj h).1.symm))
  | some lenBytes =>
    rw [h14] at h
    dsimp only at h
    split_ifs at h with hff h0 h1 hsk
    · cases h10 : sliceLoHi chunk hid 0 snappyStreamHeaderSz with
      | none =>
        rw [h10] at h
        exact Or.inr (Or.inr (Or.inl (Step.abort.inj h).1.symm))
      | some streamHeader =>
        rw [h10] at h
        dsimp only at h
        split_ifs at h with hm
        · exact Or.inl ⟨(Step.abort.inj h).1.symm, hff⟩
        · cases hlo : sliceLo chunk snappyStreamHeaderSz with
          | none =>
            rw [hlo] at h
            exact Or.inr (Or.inr (Or.inl (Step.abort.inj h).1.symm))
          | some c1 =>
            rw [hlo] at h
            dsimp only at h
            cases hadv : st.encBuf.Advance snappyStreamHeaderSz with
            | none =>
              rw [hadv] at h
              exact Or.inr (Or.inr (Or.inr (Or.inl (Step.abort.inj h).1.symm)))
            | some e =>
              rw [hadv] at h
              cases h
    · cases hs : sliceLoHi chunk hid (headerSz + crc32Sz) (headerSz + leUint32 (lenBytes ++ [0])) with
      | none =>
        rw [hs] at h
        exact Or.inr (Or.inr (Or.inl (Step.abort.inj h).1.symm))
      | some sectn =>
        rw [hs] at h
        dsimp only at h
        cases hd : decode sectn with
        | none =>
          rw [hd] at h
          exact Or.inr (Or.inr (Or.inr (Or.inr (Or.inr (Step.abort.inj h).1.symm))))
        | some dec =>
          rw [hd] at h
          dsimp only at h
          cases he : UnsnapOneFrame.emit st dec dec.length with
          | error e =>
            obtain ⟨f1, s1⟩ := e
            rw [he] at h
            have hk := emit_error_kind he
            exact Or.inr (Or.inr (Or.inr (Or.inr (Or.inl ((Step.abort.inj h).1.symm.trans hk)))))
          | ok s1 =>
            rw [he] at h
            rcases advance_abort_kind h with hk | hk
            · exact Or.inr (Or.inr (Or.inl hk))
            · exact Or.inr (Or.inr (Or.inr (Or.inl hk)))
    · cases hs : sliceLoHi chunk hid (headerSz + crc32Sz) (headerSz + leUint32 (lenBytes ++ [0])) with
      | none =>
        rw [hs] at h
        exact Or.inr (Or.inr (Or.inl (Step.abort.inj h).1.symm))
      | some sectn =>
        rw [hs] at h
        dsimp only at h
        cases he : UnsnapOneFrame.emit st sectn
            ((leUint32 (lenBytes ++ [0]) + 4294967296 - crc32Sz) % 4294967296) with
        | error e =>
          obtain ⟨f1, s1⟩ := e
          rw [he] at h
          have hk := emit_error_kind he
          exact Or.inr (Or.inr (Or.inr (Or.inr (Or.inl ((Step.abort.inj h).1.symm.trans hk)))))
        | ok s1 =>
          rw [he] at h
          rcases advance_abort_kind h with hk | hk
          · exact Or.inr (Or.inr (Or.inl hk))
          · exact Or.inr (Or.inr (Or.inr (Or.inl hk)))
    · cases hlo : sliceLo chunk (headerSz + leUint32 (lenBytes ++ [0])) with
      | none =>
        rw [hlo] at h
        exact Or.inr (Or.inr (Or.inl (Step.abort.inj h).1.symm))
      | some c1 =>
        rw [hlo] at h
        dsimp only at h
        cases hadv : st.encBuf.Advance (headerSz + leUint32 (lenBytes ++ [0])) with
        | none =>
          rw [hadv] at h
          exact Or.inr (Or.inr (Or.inr (Or.inl (Step.abort.inj h).1.symm)))
        | some e =>
          rw [hadv] at h
          cases h
    · exact Or.inr (Or.inl ⟨(Step.abort.inj h).1.symm, hff, h0, h1, hsk⟩)

theorem batch_abort_cases (decode : List UInt8 → Option (List UInt8)) (hid chunk w w1 : List UInt8)
    (f : Failure) (h : Unsnappy.body decode hid chunk w = .abort f w1) :
    (f = .malformedHeader ∧ (chunk.headD 0).toNat = 0xff) ∨
    (f = .unsupportedChunk ∧ (chunk.headD 0).toNat ≠ 0xff ∧ (chunk.headD 0).toNat ≠ 0x00 ∧
      (chunk.headD 0).toNat ≠ 0x01 ∧ ¬ skippableKind (chunk.headD 0).toNat) ∨
    f = .sliceBounds ∨ f = .advanceInvariant ∨ f = .shortWrite ∨ f = .corruptBlock := by
  unfold Unsnappy.body at h
  cases h14 : sliceLoHi chunk hid 1 4 with
  | none =>
    rw [h14] at h
    exact Or.inr (Or.inr (Or.inl (BatchStep.abort.inj h).1.symm))
  | some lenBytes =>
    rw [h14] at h
    dsimp only at h
    split_ifs at h with hff h0 h1 hsk
    · cases h10 : sliceLoHi chunk hid 0 snappyStreamHeaderSz with
      | none =>
        rw [h10] at h
        exact Or.inr (Or.inr (Or.inl (BatchStep.abort.inj h).1.symm))
      | some streamHeader =>
        rw [h10] at h
        dsimp only at h
        split_ifs at h with hm
        · exact Or.inl ⟨(BatchStep.abort.inj h).1.symm, hff⟩
        · cases hlo : sliceLo chunk snappyStreamHeaderSz with
          | none =>
            rw [hlo] at h
            exact Or.inr (Or.inr (Or.inl (BatchStep.abort.inj h).1.symm))
          | some c1 =>
            rw [hlo] at h
            cases h
    · cases hs : sliceLoHi chunk hid (headerSz + crc32Sz) (headerSz + leUint32 (lenBytes ++ [0])) with
      | none =>
        rw [hs] at h
        exact Or.inr (Or.inr (Or.inl (BatchStep.abort.inj h).1.symm))
      | some sectn =>
        rw [hs] at h
        dsimp only at h
        cases hd : decode sectn with
        | none =>
          rw [hd] at h
          exact Or.inr (Or.inr (Or.inr (Or.inr (Or.inr (BatchStep.abort.inj h).1.symm))))
        | some dec =>
          rw [hd] at h
          dsimp only at h
          cases hlo : sliceLo chunk (headerSz + leUint32 (lenBytes ++ [0])) with
          | none =>
            rw [hlo] at h
            exact Or.inr (Or.inr (Or.inl (BatchStep.abort.inj h).1.symm))
          | some c1 =>
            rw [hlo] at h
            cases h
    · cases hs : sliceLoHi chunk hid (headerSz + crc32Sz) (headerSz + leUint32 (lenBytes ++ [0])) with
      | none =>
        rw [hs] at h
        exact Or.inr (Or.inr (Or.inl (BatchStep.abort.inj h).1.symm))
      | some sectn =>
        rw [hs] at h
        dsimp only at h
        split_ifs at h with hn
        · exact Or.inr (Or.inr (Or.inr (Or.inr (Or.inl (BatchStep.abort.inj h).1.symm))))
        · cases hlo : sliceLo chunk (headerSz + leUint32 (lenBytes ++ [0])) with
          | none =>
            rw [hlo] at h
            exact Or.inr (Or.inr (Or.inl (BatchStep.abort.inj h).1.symm))
          | some c1 =>
            rw [hlo] at h
            cases h
    · cases hlo : sliceLo chunk (headerSz + leUint32 (lenBytes ++ [0])) with
      | none =>
        rw [hlo] at h
        exact Or.inr (Or.inr (Or.inl (BatchStep.abort.inj h).1.symm))
      | some c1 =>
        rw [hlo] at h
        cases h
    · exact Or.inr (Or.inl ⟨(BatchStep.abort.inj h).1.symm, hff, h0, h1, hsk⟩)

/-- Neither decoder records whether an identifier frame was seen: the malformed-header
failure is never raised at a frame whose kind byte is not `0xff`, whether or not it is the
first frame of the stream. -/
theorem malformed_header_only_at_ff (decode : List UInt8 → Option (List UInt8))
    (hid chunk w : List UInt8) (st : PassState) (hk : (chunk.headD 0).toNat ≠ 0xff) :
    (∀ st1, UnsnapOneFrame.body decode hid chunk st ≠ .abort .malformedHeader st1) ∧
    (∀ w1, Unsnappy.body decode hid chunk w ≠ .abort .malformedHeader w1) := by
  constructor
  · intro st1 h
    rcases body_abort_cases decode hid chunk st st1 _ h with h1 | h1 | h1 | h1 | h1 | h1
    · exact hk h1.2
    · exact Failure.noConfusion h1.1
    all_goals exact Failure.noConfusion h1
  · intro w1 h
    rcases batch_abort_cases decode hid chunk w w1 _ h with h1 | h1 | h1 | h1 | h1 | h1
    · exact hk h1.2
    · exact Failure.noConfusion h1.1
    all_goals exact Failure.noConfusion h1

/-! ## C6: the magic bytes of the identifier frame -/

theorem pass_fresh (decode : List UInt8 → Option (List UInt8)) (hid input : List UInt8)
    (out : FixedSizeRingBuf) (hne : input ≠ []) :
    UnsnapOneFrame decode hid input (NewFixedSizeRingBuf 65536) out =
      UnsnapOneFrame.loop decode hid (input.drop (min 65536 input.length))
        (input.take (min 65536 input.length)).length (input.take (min 65536 input.length))
        ⟨⟨65536, input.take (min 65536 input.length)⟩, out, min 65536 input.length, 0⟩ := by
  have hpos : 0 < input.length := List.length_pos.mpr hne
  have hk : min 65536 (min (65536 - 0) input.length) = min 65536 input.length := by omega
  unfold UnsnapOneFrame copyN
  simp only [NewFixedSizeRingBuf, List.length_nil, hk, List.nil_append,
    FixedSizeRingBuf.Readable, FixedSizeRingBuf.Bytes]
  rw [if_neg (by omega)]

theorem kind_of_head {chunk : List UInt8} {k : UInt8} (h : chunk.head? = some k) :
    (chunk.headD 0).toNat = k.toNat := by
  cases chunk with
  | nil => cases h
  | cons a t =>
    simp only [List.head?_cons, Option.some.injEq] at h
    rw [List.headD_cons, h]

theorem body_bad_magic (decode : List UInt8 → Option (List UInt8)) (hid chunk : List UInt8)
    (st : PassState) (h10 : 10 ≤ chunk.length) (hff : chunk.head? = some 0xff)
    (hne : chunk.take 10 ≠ streamMagic) :
    UnsnapOneFrame.body decode hid chunk st = .abort .malformedHeader st := by
  have hk : (chunk.headD 0).toNat = 0xff := kind_of_head hff
  unfold UnsnapOneFrame.body
  rw [sliceLoHi_of_le (by omega) (by omega)]
  dsimp only
  rw [if_pos hk, sliceLoHi_of_le (by simp [snappyStreamHeaderSz])
    (by simpa [snappyStreamHeaderSz] using h10)]
  dsimp only
  rw [if_pos (by simpa [snappyStreamHeaderSz] using hne)]

theorem batch_bad_magic (decode : List UInt8 → Option (List UInt8)) (hid chunk w : List UInt8)
    (h10 : 10 ≤ chunk.length) (hff : chunk.head? = some 0xff)
    (hne : chunk.take 10 ≠ streamMagic) :
    Unsnappy.body decode hid chunk w = .abort .malformedHeader w := by
  have hk : (chunk.headD 0).toNat = 0xff := kind_of_head hff
  unfold Unsnappy.body
  rw [sliceLoHi_of_le (by omega) (by omega)]
  dsimp only
  rw [if_pos hk, sliceLoHi_of_le (by simp [snappyStreamHeaderSz])
    (by simpa [snappyStreamHeaderSz] using h10)]
  dsimp only
  rw [if_pos (by simpa [snappyStreamHeaderSz] using hne)]

/-- C6: let the input have at least 10 bytes and start with `0xff`.  If its first 10 bytes
differ from the magic literal, `UnsnapOneFrame` on empty buffers aborts with the
malformed-header failure, with an empty decoded buffer and with the encoded buffer still
holding all `min(65536, len)` bytes the refill put there, and `Unsnappy` aborts with the
same failure having written nothing.  If the first 10 bytes equal the literal, the loop body
of either decoder accepts the frame: the view and the encoded buffer lose exactly their
first 10 bytes and nothing else changes but the counter `nEnc`. -/
theorem C6_bad_magic_detection (decode : List UInt8 → Option (List UInt8))
    (hid input : List UInt8) (h10 : 10 ≤ input.length) (hff : input.head? = some 0xff) :
    (input.take 10 ≠ streamMagic →
      UnsnapOneFrame decode hid input (NewFixedSizeRingBuf 65536)
          (NewFixedSizeRingBuf (65536 * 2)) =
        .abort .malformedHeader
          ⟨⟨65536, input.take (min 65536 input.length)⟩, ⟨65536 * 2, []⟩,
            min 65536 input.length, 0⟩
          (input.drop (min 65536 input.length)) ∧
      Unsnappy decode hid input = .abort .malformedHeader []) ∧
    (input.take 10 = streamMagic →
      ∀ (st : PassState) (w : List UInt8), st.encBuf.Bytes = input →
        UnsnapOneFrame.body decode hid input st =
          .next (input.drop 10)
            { st with encBuf := ⟨st.encBuf.N, input.drop 10⟩, nEnc := st.nEnc + 10 } ∧
        Unsnappy.body decode hid input w = .next (input.drop 10) w) := by
  have hne : input ≠ [] := by
    intro h
    rw [h] at h10
    simp at h10
  constructor
  · intro hm
    have hl : 10 ≤ (input.take (min 65536 input.length)).length := by
      rw [List.length_take]
      omega
    have hh : (input.take (min 65536 input.length)).head? = some 0xff := by
      cases input with
      | nil => cases hff
      | cons a t =>
        have : min 65536 (a :: t).length = (min 65536 (a :: t).length - 1) + 1 := by
          simp only [List.length_cons]
          omega
        rw [this, List.take_succ_cons]
        exact hff
    have ht : (input.take (min 65536 input.length)).take 10 ≠ streamMagic := by
      rw [List.take_take, show min 10 (min 65536 input.length) = 10 by omega]
      exact hm
    constructor
    · rw [pass_fresh decode hid input _ hne]
      exact loop_abort_pos decode hid _ _ _ _ _ _ (by omega) (by simp)
        (by intro h; rw [h] at hl; simp at hl)
        (body_bad_magic decode hid _ _ hl hh ht)
    · unfold Unsnappy
      obtain ⟨n, hn⟩ : ∃ n, input.length = n + 1 := ⟨input.length - 1, by omega⟩
      rw [hn]
      exact batch_loop_abort decode hid n input [] [] _ hne
        (batch_bad_magic decode hid input [] h10 hff hm)
  · intro hm st w hview
    have hs : input = streamMagic ++ input.drop 10 := by
      conv_lhs => rw [← List.take_append_drop 10 input, hm]
    constructor
    · have := body_ident decode hid (input.drop 10) st (by rw [← hs]; exact hview)
      rw [← hs] at this
      exact this
    · have := batch_ident decode hid (input.drop 10) w
      rw [← hs] at this
      exact this

/-- C6 (witness): an input that starts with `0xff` and has `X` in place of `Y`, and the
identifier frame itself. -/
theorem C6_bad_magic_detection_witness :
    (UnsnapOneFrame (fun _ => none) []
        [0xff, 0x06, 0x00, 0x00, 0x73, 0x4e, 0x61, 0x50, 0x70, 0x58, 0x01]
        (NewFixedSizeRingBuf 65536) (NewFixedSizeRingBuf (65536 * 2)) =
      .abort .malformedHeader
        ⟨⟨65536, [0xff, 0x06, 0x00, 0x00, 0x73, 0x4e, 0x61, 0x50, 0x70, 0x58, 0x01]⟩,
          ⟨131072, []⟩, 11, 0⟩ [] ∧
      Unsnappy (fun _ => none) []
        [0xff, 0x06, 0x00, 0x00, 0x73, 0x4e, 0x61, 0x50, 0x70, 0x58, 0x01] =
      .abort .malformedHeader []) ∧
    (UnsnapOneFrame.body (fun _ => none) [] streamMagic ⟨⟨65536, streamMagic⟩, ⟨131072, []⟩, 10, 0⟩ =
        .next [] ⟨⟨65536, []⟩, ⟨131072, []⟩, 20, 0⟩ ∧
      Unsnappy.body (fun _ => none) [] streamMagic [] = .next [] []) :=
  ⟨(C6_bad_magic_detection (fun _ => none) []
      [0xff, 0x06, 0x00, 0x00, 0x73, 0x4e, 0x61, 0x50, 0x70, 0x58, 0x01]
      (by decide) rfl).1 (by decide),
   (C6_bad_magic_detection (fun _ => none) [] streamMagic (by decide) rfl).2 rfl
      ⟨⟨65536, streamMagic⟩, ⟨131072, []⟩, 10, 0⟩ [] rfl⟩

/-! ## C7: unsupported kinds -/

theorem body_unsupported (decode : List UInt8 → Option (List UInt8)) (hid chunk : List UInt8)
    (st : PassState) (h4 : 4 ≤ chunk.length)
    (hk : 0x02 ≤ (chunk.headD 0).toNat ∧ (chunk.headD 0).toNat ≤ 0x7f) :
    UnsnapOneFrame.body decode hid chunk st = .abort .unsupportedChunk st := by
  unfold UnsnapOneFrame.body
  rw [sliceLoHi_of_le (by omega) h4]
  dsimp only
  rw [if_neg (by omega), if_neg (by omega), if_neg (by omega), if_neg (by omega)]

theorem batch_unsupported (decode : List UInt8 → Option (List UInt8)) (hid chunk w : List UInt8)
    (h4 : 4 ≤ chunk.length)
    (hk : 0x02 ≤ (chunk.headD 0).toNat ∧ (chunk.headD 0).toNat ≤ 0x7f) :
    Unsnappy.body decode hid chunk w = .abort .unsupportedChunk w := by
  unfold Unsnappy.body
  rw [sliceLoHi_of_le (by omega) h4]
  dsimp only
  rw [if_neg (by omega), if_neg (by omega), if_neg (by omega), if_neg (by omega)]

theorem unsupported_range (k : UInt8) (hff : k.toNat ≠ 0xff) (h0 : k.toNat ≠ 0x00)
    (h1 : k.toNat ≠ 0x01) (hsk : ¬ skippableKind k.toNat) :
    0x02 ≤ k.toNat ∧ k.toNat ≤ 0x7f := by
  have hlt := k.toNat_lt
  unfold skippableKind at hsk
  omega

/-- C7: when the loop body of `UnsnapOneFrame` (and of `Unsnappy`) runs on a view that
holds a frame header (at least 4 bytes), it aborts with the unsupported-chunk failure if and
only if the kind byte lies in `0x02..0x7f`; for every other kind byte (`0x00`, `0x01`,
`0x80..0xff`) it never does. -/
theorem C7_unsupported_kinds (decode : List UInt8 → Option (List UInt8))
    (hid chunk w : List UInt8) (st : PassState) (h4 : 4 ≤ chunk.length) :
    ((∃ st1, UnsnapOneFrame.body decode hid chunk st = .abort .unsupportedChunk st1) ↔
      (0x02 ≤ (chunk.headD 0).toNat ∧ (chunk.headD 0).toNat ≤ 0x7f)) ∧
    ((∃ w1, Unsnappy.body decode hid chunk w = .abort .unsupportedChunk w1) ↔
      (0x02 ≤ (chunk.headD 0).toNat ∧ (chunk.headD 0).toNat ≤ 0x7f)) := by
  constructor
  · constructor
    · rintro ⟨st1, h⟩
      rcases body_abort_cases decode hid chunk st st1 _ h with h1 | h1 | h1 | h1 | h1 | h1
      · exact Failure.noConfusion h1.1
      · exact unsupported_range _ h1.2.1 h1.2.2.1 h1.2.2.2.1 h1.2.2.2.2
      all_goals exact Failure.noConfusion h1
    · intro hk
      exact ⟨st, body_unsupported decode hid chunk st h4 hk⟩
  · constructor
    · rintro ⟨w1, h⟩
      rcases batch_abort_cases decode hid chunk w w1 _ h with h1 | h1 | h1 | h1 | h1 | h1
      · exact Failure.noConfusion h1.1
      · exact unsupported_range _ h1.2.1 h1.2.2.1 h1.2.2.2.1 h1.2.2.2.2
      all_goals exact Failure.noConfusion h1
    · intro hk
      exact ⟨w, batch_unsupported decode hid chunk w h4 hk⟩

/-- C7 (witness): a header with the kind byte `0x02`. -/
theorem C7_unsupported_kinds_witness :
    4 ≤ [(0x02 : UInt8), 0x00, 0x00, 0x00].length ∧
    ((∃ st1, UnsnapOneFrame.body (fun _ => none) [] [0x02, 0x00, 0x00, 0x00]
        ⟨⟨65536, [0x02, 0x00, 0x00, 0x00]⟩, ⟨131072, []⟩, 4, 0⟩ =
          .abort .unsupportedChunk st1) ↔
      (0x02 ≤ (([0x02, 0x00, 0x00, 0x00] : List UInt8).headD 0).toNat ∧
        (([0x02, 0x00, 0x00, 0x00] : List UInt8).headD 0).toNat ≤ 0x7f)) ∧
    ((∃ w1, Unsnappy.body (fun _ => none) [] [0x02, 0x00, 0x00, 0x00] [] =
          .abort .unsupportedChunk w1) ↔
      (0x02 ≤ (([0x02, 0x00, 0x00, 0x00] : List UInt8).headD 0).toNat ∧
        (([0x02, 0x00, 0x00, 0x00] : List UInt8).headD 0).toNat ≤ 0x7f)) :=
  ⟨by decide, C7_unsupported_kinds (fun _ => none) [] [0x02, 0x00, 0x00, 0x00] []
    ⟨⟨65536, [0x02, 0x00, 0x00, 0x00]⟩, ⟨131072, []⟩, 4, 0⟩ (by decide)⟩

/-! ## C8: padding and reserved skippable frames -/

/-- C8: a frame of kind `0xfe` or `0x80..0xfd` that is completely present in the view (any
declared length, zero included, any payload) makes the loop body of `UnsnapOneFrame` continue
without failure: the decoded buffer and `nDec` are unchanged and the view and the encoded
buffer lose exactly their first `4 + length` bytes; the loop body of `Unsnappy` drops the same
`4 + length` bytes and writes nothing. -/
theorem C8_skippable_frames (decode : List UInt8 → Option (List UInt8)) (hid : List UInt8)
    (k b1 b2 b3 : UInt8) (rest w : List UInt8) (st : PassState)
    (hk : k.toNat = 0xfe ∨ (0x80 ≤ k.toNat ∧ k.toNat ≤ 0xfd))
    (hlen : frameLen b1 b2 b3 ≤ rest.length)
    (hview : st.encBuf.Bytes = k :: b1 :: b2 :: b3 :: rest) :
    UnsnapOneFrame.body decode hid (k :: b1 :: b2 :: b3 :: rest) st =
      .next ((k :: b1 :: b2 :: b3 :: rest).drop (4 + frameLen b1 b2 b3))
        { st with
          encBuf := ⟨st.encBuf.N, st.encBuf.Bytes.drop (4 + frameLen b1 b2 b3)⟩,
          nEnc := st.nEnc + (4 + frameLen b1 b2 b3) } ∧
    Unsnappy.body decode hid (k :: b1 :: b2 :: b3 :: rest) w =
      .next ((k :: b1 :: b2 :: b3 :: rest).drop (4 + frameLen b1 b2 b3)) w := by
  rw [hview, drop_header_add]
  exact ⟨body_skippable decode hid k b1 b2 b3 rest st hk hlen hview,
    batch_skippable decode hid k b1 b2 b3 rest w hk hlen⟩

/-- C8 (witness): a padding frame with the declared length 0, followed by one more byte. -/
theorem C8_skippable_frames_witness :
    ((0xfe : UInt8).toNat = 0xfe ∨ (0x80 ≤ (0xfe : UInt8).toNat ∧ (0xfe : UInt8).toNat ≤ 0xfd)) ∧
    UnsnapOneFrame.body (fun _ => none) [] [0xfe, 0x00, 0x00, 0x00, 0x01]
        ⟨⟨65536, [0xfe, 0x00, 0x00, 0x00, 0x01]⟩, ⟨131072, []⟩, 5, 0⟩ =
      .next [0x01] ⟨⟨65536, [0x01]⟩, ⟨131072, []⟩, 9, 0⟩ ∧
    Unsnappy.body (fun _ => none) [] [0xfe, 0x00, 0x00, 0x00, 0x01] [] = .next [0x01] [] :=
  ⟨by decide, C8_skippable_frames (fun _ => none) [] 0xfe 0x00 0x00 0x00 [0x01] []
    ⟨⟨65536, [0xfe, 0x00, 0x00, 0x00, 0x01]⟩, ⟨131072, []⟩, 5, 0⟩ (by decide) (by decide) rfl⟩

/-! ## C20: the masked checksum -/

theorem rotate_eq (c : Nat) (hc : c < 4294967296) :
    (c >>> 15) ||| ((c <<< 17) % 4294967296) = rotateRight15 c := by
  have h1 : (c <<< 17) % 4294967296 = 2 ^ 17 * (c % 32768) := by
    rw [Nat.shiftLeft_eq, show (4294967296 : Nat) = 32768 * 2 ^ 17 by norm_num,
      Nat.mul_mod_mul_right, Nat.mul_comm]
  have h2 : c >>> 15 < 2 ^ 17 := by
    rw [Nat.shiftRight_eq_div_pow]
    norm_num
    omega
  rw [h1, Nat.or_comm, ← Nat.mul_add_lt_is_or h2, Nat.shiftRight_eq_div_pow]
  unfold rotateRight15
  norm_num
  omega

theorem maskChecksum_eq (c : Nat) (hc : c < 4294967296) :
    maskChecksum c = (rotateRight15 c + 0xa282ead8) % 4294967296 := by
  unfold maskChecksum
  rw [rotate_eq c hc]

theorem rotateRight15_lt (c : Nat) (hc : c < 4294967296) : rotateRight15 c < 4294967296 := by
  unfold rotateRight15
  omega

theorem rotateLeft15_lt (x : Nat) (hx : x < 4294967296) : rotateLeft15 x < 4294967296 := by
  unfold rotateLeft15
  omega

theorem rotateLeft_rotateRight (c : Nat) (hc : c < 4294967296) :
    rotateLeft15 (rotateRight15 c) = c := by
  have hq : c / 32768 < 131072 := by omega
  have hr : c % 32768 < 32768 := by omega
  have hc' : c = 32768 * (c / 32768) + c % 32768 := by omega
  generalize c / 32768 = q at hq hc'
  generalize c % 32768 = r at hr hc'
  unfold rotateLeft15 rotateRight15
  rw [hc']
  have e1 : (32768 * q + r) / 32768 = q := by omega
  have e2 : (32768 * q + r) % 32768 = r := by omega
  rw [e1, e2]
  have e3 : (q + r * 131072) % 131072 = q := by omega
  have e4 : (q + r * 131072) / 131072 = r := by omega
  rw [e3, e4]
  omega

theorem rotateRight_rotateLeft (x : Nat) (hx : x < 4294967296) :
    rotateRight15 (rotateLeft15 x) = x := by
  have hq : x / 131072 < 32768 := by omega
  have hr : x % 131072 < 131072 := by omega
  have hx' : x = 131072 * (x / 131072) + x % 131072 := by omega
  generalize x / 131072 = q at hq hx'
  generalize x % 131072 = r at hr hx'
  unfold rotateLeft15 rotateRight15
  rw [hx']
  have e1 : (131072 * q + r) / 131072 = q := by omega
  have e2 : (131072 * q + r) % 131072 = r := by omega
  rw [e1, e2]
  have e3 : (r * 32768 + q) % 32768 = q := by omega
  have e4 : (r * 32768 + q) / 32768 = r := by omega
  rw [e3, e4]
  omega

theorem unmask_mask (c : Nat) (hc : c < 4294967296) : unmaskChecksum (maskChecksum c) = c := by
  have h := rotateRight15_lt c hc
  rw [maskChecksum_eq c hc]
  unfold unmaskChecksum
  have e : ((rotateRight15 c + 0xa282ead8) % 4294967296 + 4294967296 - 0xa282ead8) % 4294967296 =
      rotateRight15 c := by omega
  rw [e, rotateLeft_rotateRight c hc]

theorem mask_unmask (m : Nat) (hm : m < 4294967296) : maskChecksum (unmaskChecksum m) = m := by
  have hx : (m + 4294967296 - 0xa282ead8) % 4294967296 < 4294967296 := by omega
  rw [maskChecksum_eq _ (by unfold unmaskChecksum; exact rotateLeft15_lt _ hx)]
  unfold unmaskChecksum
  rw [rotateRight_rotateLeft _ hx]
  omega

/-- C20: `masked_crc32c(data)` is the checksum `c = crc32c(data)` rotated right by 15 bits
within 32 bits, plus `0xa282ead8`, modulo `2^32`; and as a function of `c` the masking is a
bijection on the 32-bit values: it stays below `2^32` and `unmaskChecksum` is its two-sided
inverse there. -/
theorem C20_masked_checksum (crc32c : List UInt8 → Nat) (data : List UInt8) (c m : Nat) :
    masked_crc32c crc32c data =
      (rotateRight15 (crc32c data % 4294967296) + 0xa282ead8) % 4294967296 ∧
    rotateRight15 (c % 4294967296) =
      ((c % 4294967296) >>> 15) ||| (((c % 4294967296) <<< 17) % 4294967296) ∧
    maskChecksum (c % 4294967296) < 4294967296 ∧
    unmaskChecksum (maskChecksum (c % 4294967296)) = c % 4294967296 ∧
    unmaskChecksum (m % 4294967296) < 4294967296 ∧
    maskChecksum (unmaskChecksum (m % 4294967296)) = m % 4294967296 := by
  have hc : c % 4294967296 < 4294967296 := Nat.mod_lt _ (by norm_num)
  have hm : m % 4294967296 < 4294967296 := Nat.mod_lt _ (by norm_num)
  refine ⟨maskChecksum_eq _ (Nat.mod_lt _ (by norm_num)), (rotate_eq _ hc).symm, ?_,
    unmask_mask _ hc, ?_, mask_unmask _ hm⟩
  · unfold maskChecksum
    exact Nat.mod_lt _ (by norm_num)
  · unfold unmaskChecksum
    exact rotateLeft15_lt _ (Nat.mod_lt _ (by norm_num))

/-! ## C17: data frames too short for the checksum -/

theorem sliceLoHi_reversed {chunk hid : List UInt8} {lo hi : Nat} (h : hi < lo) :
    sliceLoHi chunk hid lo hi = none := by
  unfold sliceLoHi
  rw [if_neg (by omega)]

theorem body_short_data (decode : List UInt8 → Option (List UInt8)) (hid : List UInt8)
    (k b1 b2 b3 : UInt8) (rest : List UInt8) (st : PassState)
    (hk : k.toNat = 0x00 ∨ k.toNat = 0x01) (hL : frameLen b1 b2 b3 < 4) :
    UnsnapOneFrame.body decode hid (k :: b1 :: b2 :: b3 :: rest) st = .abort .sliceBounds st := by
  have hs : sliceLoHi (k :: b1 :: b2 :: b3 :: rest) hid (headerSz + crc32Sz)
      (headerSz + frameLen b1 b2 b3) = none :=
    sliceLoHi_reversed (by simp only [headerSz, crc32Sz]; omega)
  unfold UnsnapOneFrame.body
  rw [header_slice]
  simp only [leUint32_header, List.headD_cons]
  rcases hk with hk | hk
  · rw [if_neg (by omega), if_pos hk, hs]
  · rw [if_neg (by omega), if_neg (by omega), if_pos hk, hs]

theorem batch_short_data (decode : List UInt8 → Option (List UInt8)) (hid : List UInt8)
    (k b1 b2 b3 : UInt8) (rest w : List UInt8)
    (hk : k.toNat = 0x00 ∨ k.toNat = 0x01) (hL : frameLen b1 b2 b3 < 4) :
    Unsnappy.body decode hid (k :: b1 :: b2 :: b3 :: rest) w = .abort .sliceBounds w := by
  have hs : sliceLoHi (k :: b1 :: b2 :: b3 :: rest) hid (headerSz + crc32Sz)
      (headerSz + frameLen b1 b2 b3) = none :=
    sliceLoHi_reversed (by simp only [headerSz, crc32Sz]; omega)
  unfold Unsnappy.body
  rw [header_slice]
  simp only [leUint32_header, List.headD_cons]
  rcases hk with hk | hk
  · rw [if_neg (by omega), if_pos hk, hs]
  · rw [if_neg (by omega), if_neg (by omega), if_pos hk, hs]

/-- C17: at a frame of kind `0x00` or `0x01` whose declared length is less than 4, the loop
body of `UnsnapOneFrame` and of `Unsnappy` aborts: the slice `chunk[8:4+length]` has its
bounds reversed.  Nothing is emitted and nothing is advanced: the abort carries the state
as it was. -/
theorem C17_short_data_frames_abort (decode : List UInt8 → Option (List UInt8))
    (hid : List UInt8) (k b1 b2 b3 : UInt8) (rest w : List UInt8) (st : PassState)
    (hk : k.toNat = 0x00 ∨ k.toNat = 0x01) (hL : frameLen b1 b2 b3 < 4) :
    UnsnapOneFrame.body decode hid (k :: b1 :: b2 :: b3 :: rest) st = .abort .sliceBounds st ∧
    Unsnappy.body decode hid (k :: b1 :: b2 :: b3 :: rest) w = .abort .sliceBounds w ∧
    (frameLen b1 b2 b3 + 4294967296 - crc32Sz) % 4294967296 =
      4294967292 + frameLen b1 b2 b3 :=
  ⟨body_short_data decode hid k b1 b2 b3 rest st hk hL,
    batch_short_data decode hid k b1 b2 b3 rest w hk hL, by simp only [crc32Sz]; omega⟩

/-- C17 (witness): an uncompressed frame with the declared length 3. -/
theorem C17_short_data_frames_abort_witness :
    ((0x01 : UInt8).toNat = 0x00 ∨ (0x01 : UInt8).toNat = 0x01) ∧
    frameLen 0x03 0x00 0x00 < 4 ∧
    UnsnapOneFrame.body (fun _ => none) [] [0x01, 0x03, 0x00, 0x00, 0x61, 0x62, 0x63]
        ⟨⟨65536, [0x01, 0x03, 0x00, 0x00, 0x61, 0x62, 0x63]⟩, ⟨131072, []⟩, 7, 0⟩ =
      .abort .sliceBounds
        ⟨⟨65536, [0x01, 0x03, 0x00, 0x00, 0x61, 0x62, 0x63]⟩, ⟨131072, []⟩, 7, 0⟩ ∧
    Unsnappy.body (fun _ => none) [] [0x01, 0x03, 0x00, 0x00, 0x61, 0x62, 0x63] [] =
      .abort .sliceBounds [] ∧
    (frameLen 0x03 0x00 0x00 + 4294967296 - crc32Sz) % 4294967296 =
      4294967292 + frameLen 0x03 0x00 0x00 :=
  ⟨by decide, by decide,
    C17_short_data_frames_abort (fun _ => none) [] 0x01 0x03 0x00 0x00 [0x61, 0x62, 0x63] []
      ⟨⟨65536, [0x01, 0x03, 0x00, 0x00, 0x61, 0x62, 0x63]⟩, ⟨131072, []⟩, 7, 0⟩
      (by decide) (by decide)⟩

/-! ## C19: the error result of a pass -/

theorem loop_ret_nil (decode : List UInt8 → Option (List UInt8)) (hid r : List UInt8) :
    ∀ (fuel : Nat) (chunk : List UInt8) (st st1 : PassState) (r1 : List UInt8) (e : Bool),
      UnsnapOneFrame.loop decode hid r fuel chunk st = .ret st1 r1 e → e = false ∧ r1 = r := by
  intro fuel
  induction fuel with
  | zero =>
    intro chunk st st1 r1 e h
    unfold UnsnapOneFrame.loop at h
    split_ifs at h
    · cases h
      exact ⟨rfl, rfl⟩
    · cases h
      exact ⟨rfl, rfl⟩
  | succ n ih =>
    intro chunk st st1 r1 e h
    unfold UnsnapOneFrame.loop at h
    split_ifs at h
    · cases h
      exact ⟨rfl, rfl⟩
    · cases h
      exact ⟨rfl, rfl⟩
    · cases hb : UnsnapOneFrame.body decode hid chunk st with
      | abort f s1 =>
        rw [hb] at h
        cases h
      | next c1 s1 =>
        rw [hb] at h
        exact ih c1 s1 st1 r1 e h

/-- C19: with an encoded buffer of positive capacity, a call of `UnsnapOneFrame` that
returns reports `io.EOF` exactly when the source is exhausted and the encoded buffer is
empty (the refill read nothing and hit the end of the input); every other returning call
reports `nil`.  In the `io.EOF` case the call returns `nEnc = nDec = 0` and leaves the
source and both buffers as they were. -/
theorem C19_error_result_of_a_pass (decode : List UInt8 → Option (List UInt8))
    (hid r : List UInt8) (encBuf outDecodedBuf : FixedSizeRingBuf) (hN : 0 < encBuf.N) :
    (∀ st r1 e, UnsnapOneFrame decode hid r encBuf outDecodedBuf = .ret st r1 e →
      (e = true ↔ (r = [] ∧ encBuf.data = []))) ∧
    ((r = [] ∧ encBuf.data = []) →
      UnsnapOneFrame decode hid r encBuf outDecodedBuf =
        .ret ⟨encBuf, outDecodedBuf, 0, 0⟩ r true) := by
  constructor
  · intro st r1 e h
    unfold UnsnapOneFrame copyN at h
    dsimp only at h
    split_ifs at h with hc
    · cases h
      obtain ⟨-, h2, h3⟩ := hc
      simp only [FixedSizeRingBuf.Readable, List.length_append, Nat.add_eq_zero_iff,
        List.length_eq_zero] at h3
      have hr : r = [] := by
        rw [h3.1] at h2
        simp only [List.length_nil, Nat.sub_zero] at h2
        exact List.length_eq_zero.mp (by omega)
      exact ⟨fun _ => ⟨hr, h3.1⟩, fun _ => rfl⟩
    · have he := (loop_ret_nil decode hid _ _ _ _ _ _ _ h).1
      subst he
      constructor
      · intro h0
        cases h0
      · rintro ⟨hr, hd⟩
        exfalso
        apply hc
        subst hr
        simp [hd, FixedSizeRingBuf.Readable]
  · rintro ⟨hr, hd⟩
    subst hr
    cases encBuf with
    | mk n d =>
      simp only at hd
      subst hd
      simp [UnsnapOneFrame, copyN, FixedSizeRingBuf.Readable]

/-- C19 (witness): the freshly opened handle's buffers and an exhausted source. -/
theorem C19_error_result_of_a_pass_witness :
    0 < (NewFixedSizeRingBuf 65536).N ∧
    (∀ st r1 e, UnsnapOneFrame (fun _ => none) [] [] (NewFixedSizeRingBuf 65536)
        (NewFixedSizeRingBuf (65536 * 2)) = .ret st r1 e →
      (e = true ↔ (([] : List UInt8) = [] ∧ (NewFixedSizeRingBuf 65536).data = []))) ∧
    ((([] : List UInt8) = [] ∧ (NewFixedSizeRingBuf 65536).data = []) →
      UnsnapOneFrame (fun _ => none) [] [] (NewFixedSizeRingBuf 65536)
          (NewFixedSizeRingBuf (65536 * 2)) =
        .ret ⟨NewFixedSizeRingBuf 65536, NewFixedSizeRingBuf (65536 * 2), 0, 0⟩ [] true) :=
  ⟨by decide, C19_error_result_of_a_pass (fun _ => none) [] [] (NewFixedSizeRingBuf 65536)
    (NewFixedSizeRingBuf (65536 * 2)) (by decide)⟩

/-! ## The loop bodies against the frame rule -/

theorem declared_of_cons (k b1 b2 b3 : UInt8) (rest : List UInt8) :
    leUint32 (((k :: b1 :: b2 :: b3 :: rest).take 4).drop 1 ++ [0]) = frameLen b1 b2 b3 := by
  simp [leUint32, frameLen]

theorem body_ff_short (decode : List UInt8 → Option (List UInt8)) (hid chunk : List UInt8)
    (st : PassState) (hk : (chunk.headD 0).toNat = 0xff) (hlen : chunk.length < 10) :
    ∃ f st1, UnsnapOneFrame.body decode hid chunk st = .abort f st1 := by
  have hlo : sliceLo chunk snappyStreamHeaderSz = none :=
    sliceLo_of_lt (by simp only [snappyStreamHeaderSz]; omega)
  unfold UnsnapOneFrame.body
  cases sliceLoHi chunk hid 1 4 with
  | none => exact ⟨_, _, rfl⟩
  | some lenBytes =>
    dsimp only
    rw [if_pos hk]
    cases sliceLoHi chunk hid 0 snappyStreamHeaderSz with
    | none => exact ⟨_, _, rfl⟩
    | some streamHeader =>
      dsimp only
      split_ifs
      · exact ⟨_, _, rfl⟩
      · rw [hlo]
        exact ⟨_, _, rfl⟩

theorem batch_ff_short (decode : List UInt8 → Option (List UInt8)) (hid chunk w : List UInt8)
    (hk : (chunk.headD 0).toNat = 0xff) (hlen : chunk.length < 10) :
    ∃ f, Unsnappy.body decode hid chunk w = .abort f w := by
  have hlo : sliceLo chunk snappyStreamHeaderSz = none :=
    sliceLo_of_lt (by simp only [snappyStreamHeaderSz]; omega)
  unfold Unsnappy.body
  cases sliceLoHi chunk hid 1 4 with
  | none => exact ⟨_, rfl⟩
  | some lenBytes =>
    dsimp only
    rw [if_pos hk]
    cases sliceLoHi chunk hid 0 snappyStreamHeaderSz with
    | none => exact ⟨_, rfl⟩
    | some streamHeader =>
      dsimp only
      split_ifs
      · exact ⟨_, rfl⟩
      · rw [hlo]
        exact ⟨_, rfl⟩

theorem body_corrupt (decode : List UInt8 → Option (List UInt8)) (hid : List UInt8)
    (k b1 b2 b3 : UInt8) (rest : List UInt8) (st : PassState)
    (hk : k.toNat = 0x00) (h4 : 4 ≤ frameLen b1 b2 b3)
    (hlen : frameLen b1 b2 b3 ≤ rest.length)
    (hdec : decode ((rest.take (frameLen b1 b2 b3)).drop 4) = none) :
    UnsnapOneFrame.body decode hid (k :: b1 :: b2 :: b3 :: rest) st = .abort .corruptBlock st := by
  unfold UnsnapOneFrame.body
  rw [header_slice]
  simp only [leUint32_header, List.headD_cons, hk]
  rw [payload_slice hid k b1 b2 b3 rest _ h4 hlen,
    if_neg (show ¬ (0 : Nat) = 255 by decide), if_pos trivial]
  dsimp only
  rw [hdec]

theorem batch_corrupt (decode : List UInt8 → Option (List UInt8)) (hid : List UInt8)
    (k b1 b2 b3 : UInt8) (rest w : List UInt8)
    (hk : k.toNat = 0x00) (h4 : 4 ≤ frameLen b1 b2 b3)
    (hlen : frameLen b1 b2 b3 ≤ rest.length)
    (hdec : decode ((rest.take (frameLen b1 b2 b3)).drop 4) = none) :
    Unsnappy.body decode hid (k :: b1 :: b2 :: b3 :: rest) w = .abort .corruptBlock w := by
  unfold Unsnappy.body
  rw [header_slice]
  simp only [leUint32_header, List.headD_cons, hk]
  rw [payload_slice hid k b1 b2 b3 rest _ h4 hlen,
    if_neg (show ¬ (0 : Nat) = 255 by decide), if_pos trivial]
  dsimp only
  rw [hdec]

theorem emit_short (st : PassState) (dec : List UInt8) (n : Nat)
    (hroom : st.decBuf.N - st.decBuf.data.length < dec.length) :
    UnsnapOneFrame.emit st dec n =
      .error (.shortWrite,
        { st with decBuf := ⟨st.decBuf.N,
            st.decBuf.data ++ dec.take (st.decBuf.N - st.decBuf.data.length)⟩ }) := by
  unfold UnsnapOneFrame.emit FixedSizeRingBuf.Write
  have hm : min dec.length (st.decBuf.N - st.decBuf.data.length) =
      st.decBuf.N - st.decBuf.data.length := by omega
  simp only [hm]
  rw [if_pos (by omega)]

theorem body_uncompressed_short (decode : List UInt8 → Option (List UInt8)) (hid : List UInt8)
    (k b1 b2 b3 : UInt8) (rest : List UInt8) (st : PassState)
    (hk : k.toNat = 0x01) (h4 : 4 ≤ frameLen b1 b2 b3)
    (hlen : frameLen b1 b2 b3 ≤ rest.length)
    (hroom : st.decBuf.N - st.decBuf.data.length < frameLen b1 b2 b3 - 4) :
    UnsnapOneFrame.body decode hid (k :: b1 :: b2 :: b3 :: rest) st =
      .abort .shortWrite
        { st with decBuf := ⟨st.decBuf.N, st.decBuf.data ++
            ((rest.take (frameLen b1 b2 b3)).drop 4).take
              (st.decBuf.N - st.decBuf.data.length)⟩ } := by
  have hpl : ((rest.take (frameLen b1 b2 b3)).drop 4).length = frameLen b1 b2 b3 - 4 := by
    simp [Nat.min_eq_left hlen]
  unfold UnsnapOneFrame.body
  rw [header_slice]
  simp only [leUint32_header, List.headD_cons, hk]
  rw [payload_slice hid k b1 b2 b3 rest _ h4 hlen,
    if_neg (show ¬ (1 : Nat) = 255 by decide), if_neg (show ¬ (1 : Nat) = 0 by decide),
    if_pos trivial]
  dsimp only
  rw [emit_short _ _ _ (by rw [hpl]; exact hroom)]

theorem body_compressed_short (decode : List UInt8 → Option (List UInt8)) (hid : List UInt8)
    (k b1 b2 b3 : UInt8) (rest dec : List UInt8) (st : PassState)
    (hk : k.toNat = 0x00) (h4 : 4 ≤ frameLen b1 b2 b3)
    (hlen : frameLen b1 b2 b3 ≤ rest.length)
    (hdec : decode ((rest.take (frameLen b1 b2 b3)).drop 4) = some dec)
    (hroom : st.decBuf.N - st.decBuf.data.length < dec.length) :
    UnsnapOneFrame.body decode hid (k :: b1 :: b2 :: b3 :: rest) st =
      .abort .shortWrite
        { st with decBuf := ⟨st.decBuf.N,
            st.decBuf.data ++ dec.take (st.decBuf.N - st.decBuf.data.length)⟩ } := by
  unfold UnsnapOneFrame.body
  rw [header_slice]
  simp only [leUint32_header, List.headD_cons, hk]
  rw [payload_slice hid k b1 b2 b3 rest _ h4 hlen,
    if_neg (show ¬ (0 : Nat) = 255 by decide), if_pos trivial]
  dsimp only
  rw [hdec]
  dsimp only
  rw [emit_short _ _ _ hroom]


theorem batch_incomplete (decode : List UInt8 → Option (List UInt8)) (hid chunk w : List UInt8)
    (hinc : chunk.length < 4 ∨ chunk.length < 4 + leUint32 ((chunk.take 4).drop 1 ++ [0])) :
    ∃ f w1, Unsnappy.body decode hid chunk w = .abort f w1 := by
  unfold Unsnappy.body
  cases h14 : sliceLoHi chunk hid 1 4 with
  | none => exact ⟨_, _, rfl⟩
  | some lenBytes =>
    have hdecl : 4 ≤ chunk.length → lenBytes = (chunk.take 4).drop 1 := by
      intro h
      rw [sliceLoHi_of_le (by omega) h] at h14
      exact (Option.some.inj h14).symm
    have H : chunk.length < headerSz + leUint32 (lenBytes ++ [0]) := by
      rcases Nat.lt_or_ge chunk.length 4 with h | h
      · simp only [headerSz]
        omega
      · rw [hdecl h]
        rcases hinc with h1 | h1
        · omega
        · simpa [headerSz] using h1
    have Hlo : sliceLo chunk (headerSz + leUint32 (lenBytes ++ [0])) = none := sliceLo_of_lt H
    dsimp only
    split_ifs with hff h0 h1 hsk
    · cases h10 : sliceLoHi chunk hid 0 snappyStreamHeaderSz with
      | none => exact ⟨_, _, rfl⟩
      | some streamHeader =>
        dsimp only
        by_cases hm : streamHeader = streamMagic
        · rw [if_neg (not_not.mpr hm)]
          cases hlo : sliceLo chunk snappyStreamHeaderSz with
          | none => exact ⟨_, _, rfl⟩
          | some c1 =>
            exfalso
            have hl : 10 ≤ chunk.length := by
              by_contra hc
              rw [sliceLo_of_lt (by simp only [snappyStreamHeaderSz]; omega)] at hlo
              exact Option.noConfusion hlo
            rw [sliceLoHi_of_le (by simp [snappyStreamHeaderSz])
              (by simpa [snappyStreamHeaderSz] using hl)] at h10
            have ht : chunk.take 10 = streamMagic := by
              have := Option.some.inj h10
              simpa [snappyStreamHeaderSz, hm] using this
            have h6 := magic_header_of_take ht
            rw [hdecl (by omega), h6] at H
            simp only [headerSz] at H
            omega
        · rw [if_pos hm]
          exact ⟨_, _, rfl⟩
    · cases sliceLoHi chunk hid (headerSz + crc32Sz) (headerSz + leUint32 (lenBytes ++ [0])) with
      | none => exact ⟨_, _, rfl⟩
      | some sectn =>
        dsimp only
        cases decode sectn with
        | none => exact ⟨_, _, rfl⟩
        | some dec =>
          dsimp only
          rw [Hlo]
          exact ⟨_, _, rfl⟩
    · cases sliceLoHi chunk hid (headerSz + crc32Sz) (headerSz + leUint32 (lenBytes ++ [0])) with
      | none => exact ⟨_, _, rfl⟩
      | some sectn =>
        dsimp only
        split_ifs
        · exact ⟨_, _, rfl⟩
        · rw [Hlo]
          exact ⟨_, _, rfl⟩
    · rw [Hlo]
      exact ⟨_, _, rfl⟩
    · exact ⟨_, _, rfl⟩

theorem frameRule_short (decode : List UInt8 → Option (List UInt8)) (chunk : List UInt8)
    (h : chunk.length < 4) : frameRule decode chunk = none := by
  match chunk, h with
  | [], _ => rfl
  | [_], _ => rfl
  | [_, _], _ => rfl
  | [_, _, _], _ => rfl
  | _ :: _ :: _ :: _ :: _, h => exact absurd h (by simp)

theorem frameRule_cons (decode : List UInt8 → Option (List UInt8)) (k b1 b2 b3 : UInt8)
    (rest : List UInt8) :
    frameRule decode (k :: b1 :: b2 :: b3 :: rest) =
      if k.toNat = 0xff then
        if (k :: b1 :: b2 :: b3 :: rest).take 10 = streamMagic then
          some ((k :: b1 :: b2 :: b3 :: rest).drop 10, [])
        else none
      else if rest.length < frameLen b1 b2 b3 then none
      else if k.toNat = 0x01 then
        if 4 ≤ frameLen b1 b2 b3 then
          some (rest.drop (frameLen b1 b2 b3), (rest.take (frameLen b1 b2 b3)).drop 4)
        else none
      else if k.toNat = 0x00 then
        if 4 ≤ frameLen b1 b2 b3 then
          match decode ((rest.take (frameLen b1 b2 b3)).drop 4) with
          | some dec => some (rest.drop (frameLen b1 b2 b3), dec)
          | none => none
        else none
      else if k.toNat = 0xfe ∨ (0x80 ≤ k.toNat ∧ k.toNat ≤ 0xfd) then
        some (rest.drop (frameLen b1 b2 b3), [])
      else none := rfl

theorem take_ten_magic {chunk : List UInt8} (h : chunk.take 10 = streamMagic) :
    chunk = streamMagic ++ chunk.drop 10 := by
  conv_lhs => rw [← List.take_append_drop 10 chunk, h]

/-- The loop body of `UnsnapOneFrame` against the frame rule: where the rule has no result
the body aborts; where it has one, the body continues with exactly that result if the
decoded buffer has room for the output, and aborts with the short-write failure if not. -/
theorem body_spec (decode : List UInt8 → Option (List UInt8)) (hid chunk : List UInt8)
    (st : PassState) (hview : st.encBuf.data = chunk) :
    match frameRule decode chunk with
    | none => ∃ f st1, UnsnapOneFrame.body decode hid chunk st = .abort f st1
    | some (c1, out) =>
      c1.length + 4 ≤ chunk.length ∧
      (out.length ≤ st.decBuf.N - st.decBuf.data.length →
        UnsnapOneFrame.body decode hid chunk st =
          .next c1 ⟨⟨st.encBuf.N, c1⟩, ⟨st.decBuf.N, st.decBuf.data ++ out⟩,
            st.nEnc + (chunk.length - c1.length), st.nDec + out.length⟩) ∧
      (st.decBuf.N - st.decBuf.data.length < out.length →
        ∃ st1, UnsnapOneFrame.body decode hid chunk st = .abort .shortWrite st1) := by
  rcases Nat.lt_or_ge chunk.length 4 with hlt | hge
  · rw [frameRule_short decode chunk hlt]
    exact body_incomplete decode hid chunk st (Or.inl hlt)
  · obtain ⟨k, b1, b2, b3, rest, rfl⟩ : ∃ k b1 b2 b3 rest, chunk = k :: b1 :: b2 :: b3 :: rest := by
      match chunk, hge with
      | k :: b1 :: b2 :: b3 :: rest, _ => exact ⟨k, b1, b2, b3, rest, rfl⟩
    rw [frameRule_cons]
    by_cases hff : k.toNat = 0xff
    · rw [if_pos hff]
      by_cases hm : (k :: b1 :: b2 :: b3 :: rest).take 10 = streamMagic
      · rw [if_pos hm]
        dsimp only
        have hs := take_ten_magic hm
        have hl : (k :: b1 :: b2 :: b3 :: rest).length =
            ((k :: b1 :: b2 :: b3 :: rest).drop 10).length + 10 := by
          conv_lhs => rw [hs]
          simp [streamMagic]
        refine ⟨by omega, fun _ => ?_, fun h => ?_⟩
        · have hb := body_ident decode hid ((k :: b1 :: b2 :: b3 :: rest).drop 10) st
            (by rw [← hs]; exact hview)
          rw [← hs] at hb
          rw [hb, hl]
          simp
        · simp at h
      · rw [if_neg hm]
        dsimp only
        rcases Nat.lt_or_ge (k :: b1 :: b2 :: b3 :: rest).length 10 with h10 | h10
        · exact body_ff_short decode hid _ st (by simpa using hff) h10
        · exact ⟨_, _, body_bad_magic decode hid _ st h10
            (by
              have : k = 0xff := by
                apply UInt8.eq_of_val_eq
                apply Fin.ext
                exact hff
              rw [this]
              rfl) hm⟩
    · rw [if_neg hff]
      by_cases hinc : rest.length < frameLen b1 b2 b3
      · rw [if_pos hinc]
        exact body_incomplete decode hid _ st
          (Or.inr (by rw [declared_of_cons]; simp only [List.length_cons]; omega))
      · rw [if_neg hinc]
        have hlen : frameLen b1 b2 b3 ≤ rest.length := by omega
        have hcl : (k :: b1 :: b2 :: b3 :: rest).length - (rest.drop (frameLen b1 b2 b3)).length =
            4 + frameLen b1 b2 b3 := by
          simp only [List.length_cons, List.length_drop]
          omega
        have hpr : (rest.drop (frameLen b1 b2 b3)).length + 4 ≤
            (k :: b1 :: b2 :: b3 :: rest).length := by
          simp only [List.length_cons, List.length_drop]
          omega
        by_cases h1 : k.toNat = 0x01
        · rw [if_pos h1]
          by_cases h4 : 4 ≤ frameLen b1 b2 b3
          · rw [if_pos h4]
            dsimp only
            have hpl : ((rest.take (frameLen b1 b2 b3)).drop 4).length = frameLen b1 b2 b3 - 4 := by
              simp [Nat.min_eq_left hlen]
            refine ⟨hpr, fun hroom => ?_, fun hroom => ?_⟩
            · rw [body_uncompressed decode hid k b1 b2 b3 rest st h1 h4 hlen
                (by rw [← hpl]; exact hroom) hview, hcl, hpl]
            · exact ⟨_, body_uncompressed_short decode hid k b1 b2 b3 rest st h1 h4 hlen
                (by rw [← hpl]; exact hroom)⟩
          · rw [if_neg h4]
            exact ⟨_, _, body_short_data decode hid k b1 b2 b3 rest st (Or.inr h1) (by omega)⟩
        · rw [if_neg h1]
          by_cases h0 : k.toNat = 0x00
          · rw [if_pos h0]
            by_cases h4 : 4 ≤ frameLen b1 b2 b3
            · rw [if_pos h4]
              cases hdec : decode ((rest.take (frameLen b1 b2 b3)).drop 4) with
              | none =>
                exact ⟨_, _, body_corrupt decode hid k b1 b2 b3 rest st h0 h4 hlen hdec⟩
              | some dec =>
                dsimp only
                refine ⟨hpr, fun hroom => ?_, fun hroom => ?_⟩
                · rw [body_compressed decode hid k b1 b2 b3 rest dec st h0 h4 hlen hdec
                    hroom hview, hcl]
                · exact ⟨_, body_compressed_short decode hid k b1 b2 b3 rest dec st h0 h4 hlen
                    hdec hroom⟩
            · rw [if_neg h4]
              exact ⟨_, _, body_short_data decode hid k b1 b2 b3 rest st (Or.inl h0) (by omega)⟩
          · rw [if_neg h0]
            by_cases hsk : k.toNat = 0xfe ∨ (0x80 ≤ k.toNat ∧ k.toNat ≤ 0xfd)
            · rw [if_pos hsk]
              dsimp only
              refine ⟨hpr, fun _ => ?_, fun h => ?_⟩
              · rw [body_skippable decode hid k b1 b2 b3 rest st hsk hlen hview, hcl]
                simp
              · simp at h
            · rw [if_neg hsk]
              exact ⟨_, _, body_unsupported decode hid _ st (by simp)
                (by
                  simp only [List.headD_cons]
                  exact unsupported_range k hff h0 h1 hsk)⟩


/-- The loop body of `Unsnappy` against the frame rule: where the rule has no result the
body aborts; where it has one, the body continues with exactly that result. -/
theorem batch_spec (decode : List UInt8 → Option (List UInt8)) (hid chunk w : List UInt8) :
    match frameRule decode chunk with
    | none => ∃ f w1, Unsnappy.body decode hid chunk w = .abort f w1
    | some (c1, out) => Unsnappy.body decode hid chunk w = .next c1 (w ++ out) := by
  rcases Nat.lt_or_ge chunk.length 4 with hlt | hge
  · rw [frameRule_short decode chunk hlt]
    exact batch_incomplete decode hid chunk w (Or.inl hlt)
  · obtain ⟨k, b1, b2, b3, rest, rfl⟩ : ∃ k b1 b2 b3 rest, chunk = k :: b1 :: b2 :: b3 :: rest := by
      match chunk, hge with
      | k :: b1 :: b2 :: b3 :: rest, _ => exact ⟨k, b1, b2, b3, rest, rfl⟩
    rw [frameRule_cons]
    by_cases hff : k.toNat = 0xff
    · rw [if_pos hff]
      by_cases hm : (k :: b1 :: b2 :: b3 :: rest).take 10 = streamMagic
      · rw [if_pos hm]
        dsimp only
        have hs := take_ten_magic hm
        have hb := batch_ident decode hid ((k :: b1 :: b2 :: b3 :: rest).drop 10) w
        rw [← hs] at hb
        rw [hb]
        simp
      · rw [if_neg hm]
        dsimp only
        rcases Nat.lt_or_ge (k :: b1 :: b2 :: b3 :: rest).length 10 with h10 | h10
        · obtain ⟨f, h⟩ := batch_ff_short decode hid _ w (by simpa using hff) h10
          exact ⟨f, w, h⟩
        · exact ⟨_, _, batch_bad_magic decode hid _ w h10
            (by
              have : k = 0xff := by
                apply UInt8.eq_of_val_eq
                apply Fin.ext
                exact hff
              rw [this]
              rfl) hm⟩
    · rw [if_neg hff]
      by_cases hinc : rest.length < frameLen b1 b2 b3
      · rw [if_pos hinc]
        exact batch_incomplete decode hid _ w
          (Or.inr (by rw [declared_of_cons]; simp only [List.length_cons]; omega))
      · rw [if_neg hinc]
        have hlen : frameLen b1 b2 b3 ≤ rest.length := by omega
        by_cases h1 : k.toNat = 0x01
        · rw [if_pos h1]
          by_cases h4 : 4 ≤ frameLen b1 b2 b3
          · rw [if_pos h4]
            exact batch_uncompressed decode hid k b1 b2 b3 rest w h1 h4 hlen
          · rw [if_neg h4]
            exact ⟨_, _, batch_short_data decode hid k b1 b2 b3 rest w (Or.inr h1) (by omega)⟩
        · rw [if_neg h1]
          by_cases h0 : k.toNat = 0x00
          · rw [if_pos h0]
            by_cases h4 : 4 ≤ frameLen b1 b2 b3
            · rw [if_pos h4]
              cases hdec : decode ((rest.take (frameLen b1 b2 b3)).drop 4) with
              | none =>
                exact ⟨_, _, batch_corrupt decode hid k b1 b2 b3 rest w h0 h4 hlen hdec⟩
              | some dec =>
                exact batch_compressed decode hid k b1 b2 b3 rest dec w h0 h4 hlen hdec
            · rw [if_neg h4]
              exact ⟨_, _, batch_short_data decode hid k b1 b2 b3 rest w (Or.inl h0) (by omega)⟩
          · rw [if_neg h0]
            by_cases hsk : k.toNat = 0xfe ∨ (0x80 ≤ k.toNat ∧ k.toNat ≤ 0xfd)
            · rw [if_pos hsk]
              dsimp only
              rw [batch_skippable decode hid k b1 b2 b3 rest w hsk hlen]
              simp
            · rw [if_neg hsk]
              exact ⟨_, _, batch_unsupported decode hid _ w (by simp)
                (by
                  simp only [List.headD_cons]
                  exact unsupported_range k hff h0 h1 hsk)⟩

theorem body_next_inv (decode : List UInt8 → Option (List UInt8)) (hid chunk c1 : List UInt8)
    (st st1 : PassState) (hview : st.encBuf.data = chunk)
    (h : UnsnapOneFrame.body decode hid chunk st = .next c1 st1) :
    ∃ out, frameRule decode chunk = some (c1, out) ∧
      c1.length + 4 ≤ chunk.length ∧
      out.length ≤ st.decBuf.N - st.decBuf.data.length ∧
      st1 = ⟨⟨st.encBuf.N, c1⟩, ⟨st.decBuf.N, st.decBuf.data ++ out⟩,
        st.nEnc + (chunk.length - c1.length), st.nDec + out.length⟩ := by
  have hs := body_spec decode hid chunk st hview
  cases hfr : frameRule decode chunk with
  | none =>
    rw [hfr] at hs
    obtain ⟨f, s1, hb⟩ := hs
    rw [hb] at h
    cases h
  | some p =>
    obtain ⟨c1', out⟩ := p
    rw [hfr] at hs
    obtain ⟨hlen, hok, hshort⟩ := hs
    rcases Nat.lt_or_ge (st.decBuf.N - st.decBuf.data.length) out.length with hr | hr
    · obtain ⟨s1, hb⟩ := hshort hr
      rw [hb] at h
      cases h
    · have hb := hok hr
      rw [hb] at h
      cases h
      exact ⟨out, rfl, hlen, hr, rfl⟩

theorem batch_next_inv (decode : List UInt8 → Option (List UInt8)) (hid chunk c1 w w1 : List UInt8)
    (h : Unsnappy.body decode hid chunk w = .next c1 w1) :
    ∃ out, frameRule decode chunk = some (c1, out) ∧ w1 = w ++ out := by
  have hs := batch_spec decode hid chunk w
  cases hfr : frameRule decode chunk with
  | none =>
    rw [hfr] at hs
    obtain ⟨f, s1, hb⟩ := hs
    rw [hb] at h
    cases h
  | some p =>
    obtain ⟨c1', out⟩ := p
    rw [hfr] at hs
    dsimp only at hs
    rw [hs] at h
    cases h
    exact ⟨out, rfl, rfl⟩

theorem batch_abort_len (decode : List UInt8 → Option (List UInt8)) (hid chunk w w1 : List UInt8)
    (f : Failure) (h : Unsnappy.body decode hid chunk w = .abort f w1) :
    w.length ≤ w1.length := by
  have hsame : ∀ {f1 : Failure} {x : List UInt8},
      BatchStep.abort f1 x = BatchStep.abort f w1 → x.length ≤ w1.length := by
    intro f1 x hx
    rw [(BatchStep.abort.inj hx).2]
  have happ : ∀ {f1 : Failure} {x : List UInt8},
      BatchStep.abort f1 (w ++ x) = BatchStep.abort f w1 → w.length ≤ w1.length := by
    intro f1 x hx
    rw [← (BatchStep.abort.inj hx).2]
    simp
  unfold Unsnappy.body at h
  cases h14 : sliceLoHi chunk hid 1 4 with
  | none =>
    rw [h14] at h
    exact hsame h
  | some lenBytes =>
    rw [h14] at h
    dsimp only at h
    split_ifs at h with hff h0 h1 hsk
    · cases h10 : sliceLoHi chunk hid 0 snappyStreamHeaderSz with
      | none =>
        rw [h10] at h
        exact hsame h
      | some streamHeader =>
        rw [h10] at h
        dsimp only at h
        split_ifs at h with hm
        · exact hsame h
        · cases hlo : sliceLo chunk snappyStreamHeaderSz with
          | none =>
            rw [hlo] at h
            exact hsame h
          | some c1 =>
            rw [hlo] at h
            cases h
    · cases hs : sliceLoHi chunk hid (headerSz + crc32Sz) (headerSz + leUint32 (lenBytes ++ [0])) with
      | none =>
        rw [hs] at h
        exact hsame h
      | some sectn =>
        rw [hs] at h
        dsimp only at h
        cases hd : decode sectn with
        | none =>
          rw [hd] at h
          exact hsame h
        | some dec =>
          rw [hd] at h
          dsimp only at h
          cases hlo : sliceLo chunk (headerSz + leUint32 (lenBytes ++ [0])) with
          | none =>
            rw [hlo] at h
            exact happ h
          | some c1 =>
            rw [hlo] at h
            cases h
    · cases hs : sliceLoHi chunk hid (headerSz + crc32Sz) (headerSz + leUint32 (lenBytes ++ [0])) with
      | none =>
        rw [hs] at h
        exact hsame h
      | some sectn =>
        rw [hs] at h
        dsimp only at h
        split_ifs at h with hn
        · exact happ h
        · cases hlo : sliceLo chunk (headerSz + leUint32 (lenBytes ++ [0])) with
          | none =>
            rw [hlo] at h
            exact happ h
          | some c1 =>
            rw [hlo] at h
            cases h
    · cases hlo : sliceLo chunk (headerSz + leUint32 (lenBytes ++ [0])) with
      | none =>
        rw [hlo] at h
        exact hsame h
      | some c1 =>
        rw [hlo] at h
        cases h
    · exact hsame h

/-! ## Invariants of the parse loop -/

/-- Induction over the parse loop of `UnsnapOneFrame`: a property of the view and the state
that every step licensed by the frame rule preserves holds when the loop returns, and the
loop returns only with the budget used up or the view empty. -/
theorem loop_ret_rule (decode : List UInt8 → Option (List UInt8)) (hid r : List UInt8)
    (Inv : List UInt8 → PassState → Prop)
    (hstep : ∀ (chunk c1 out : List UInt8) (st : PassState), Inv chunk st →
      st.encBuf.data = chunk → st.nDec < 65536 → frameRule decode chunk = some (c1, out) →
      out.length ≤ st.decBuf.N - st.decBuf.data.length →
      Inv c1 ⟨⟨st.encBuf.N, c1⟩, ⟨st.decBuf.N, st.decBuf.data ++ out⟩,
        st.nEnc + (chunk.length - c1.length), st.nDec + out.length⟩) :
    ∀ (fuel : Nat) (chunk : List UInt8) (st st1 : PassState) (r1 : List UInt8) (e : Bool),
      Inv chunk st → st.encBuf.data = chunk →
      UnsnapOneFrame.loop decode hid r fuel chunk st = .ret st1 r1 e →
      Inv st1.encBuf.data st1 ∧ (65536 ≤ st1.nDec ∨ st1.encBuf.data = []) := by
  intro fuel
  induction fuel with
  | zero =>
    intro chunk st st1 r1 e hinv hview h
    unfold UnsnapOneFrame.loop at h
    split_ifs at h with h1 h2
    · cases h
      exact ⟨hview ▸ hinv, Or.inl h1⟩
    · cases h
      have hc : chunk = [] := List.length_eq_zero.mp h2
      exact ⟨hview ▸ hinv, Or.inr (hview.trans hc)⟩
  | succ n ih =>
    intro chunk st st1 r1 e hinv hview h
    unfold UnsnapOneFrame.loop at h
    split_ifs at h with h1 h2
    · cases h
      exact ⟨hview ▸ hinv, Or.inl h1⟩
    · cases h
      have hc : chunk = [] := List.length_eq_zero.mp h2
      exact ⟨hview ▸ hinv, Or.inr (hview.trans hc)⟩
    · cases hb : UnsnapOneFrame.body decode hid chunk st with
      | abort f s1 =>
        rw [hb] at h
        cases h
      | next c1 s1 =>
        rw [hb] at h
        obtain ⟨out, hfr, -, hroom, hs1⟩ := body_next_inv decode hid chunk c1 st s1 hview hb
        subst hs1
        exact ih c1 _ st1 r1 e (hstep chunk c1 out st hinv hview (by omega) hfr hroom) rfl h

/-- Induction over the parse loop of `UnsnapOneFrame`: when the loop aborts, the loop body
has aborted on a view and a state that satisfy the invariant, with the budget not used
up. -/
theorem loop_abort_rule (decode : List UInt8 → Option (List UInt8)) (hid r : List UInt8)
    (Inv : List UInt8 → PassState → Prop)
    (hstep : ∀ (chunk c1 out : List UInt8) (st : PassState), Inv chunk st →
      st.encBuf.data = chunk → st.nDec < 65536 → frameRule decode chunk = some (c1, out) →
      out.length ≤ st.decBuf.N - st.decBuf.data.length →
      Inv c1 ⟨⟨st.encBuf.N, c1⟩, ⟨st.decBuf.N, st.decBuf.data ++ out⟩,
        st.nEnc + (chunk.length - c1.length), st.nDec + out.length⟩) :
    ∀ (fuel : Nat) (chunk : List UInt8) (st st1 : PassState) (r1 : List UInt8) (f : Failure),
      Inv chunk st → st.encBuf.data = chunk →
      UnsnapOneFrame.loop decode hid r fuel chunk st = .abort f st1 r1 →
      ∃ chunk0 st0, Inv chunk0 st0 ∧ st0.encBuf.data = chunk0 ∧ st0.nDec < 65536 ∧
        UnsnapOneFrame.body decode hid chunk0 st0 = .abort f st1 := by
  intro fuel
  induction fuel with
  | zero =>
    intro chunk st st1 r1 f hinv hview h
    unfold UnsnapOneFrame.loop at h
    split_ifs at h
  | succ n ih =>
    intro chunk st st1 r1 f hinv hview h
    unfold UnsnapOneFrame.loop at h
    split_ifs at h with h1 h2
    cases hb : UnsnapOneFrame.body decode hid chunk st with
    | abort f0 s1 =>
      rw [hb] at h
      cases h
      exact ⟨chunk, st, hinv, hview, by omega, hb⟩
    | next c1 s1 =>
      rw [hb] at h
      obtain ⟨out, hfr, -, hroom, hs1⟩ := body_next_inv decode hid chunk c1 st s1 hview hb
      subst hs1
      exact ih c1 _ st1 r1 f (hstep chunk c1 out st hinv hview (by omega) hfr hroom) rfl h

/-- A call of `UnsnapOneFrame` is its parse loop on the refilled view, except for the early
return with `io.EOF`. -/
theorem pass_cases (decode : List UInt8 → Option (List UInt8)) (hid r : List UInt8)
    (encBuf outDecodedBuf : FixedSizeRingBuf) :
    UnsnapOneFrame decode hid r encBuf outDecodedBuf =
        .ret ⟨(copyN encBuf r 65536).1, outDecodedBuf, 0, 0⟩ (copyN encBuf r 65536).2.1 true ∨
      UnsnapOneFrame decode hid r encBuf outDecodedBuf =
        UnsnapOneFrame.loop decode hid (copyN encBuf r 65536).2.1
          (copyN encBuf r 65536).1.data.length (copyN encBuf r 65536).1.data
          ⟨(copyN encBuf r 65536).1, outDecodedBuf, (copyN encBuf r 65536).2.2.1, 0⟩ := by
  unfold UnsnapOneFrame
  dsimp only [FixedSizeRingBuf.Bytes]
  split_ifs with h
  · left
    rw [h.2.1]
  · right
    rfl

theorem refill_length (encBuf : FixedSizeRingBuf) (r : List UInt8) (n : Nat)
    (hwf : encBuf.data.length ≤ encBuf.N) :
    (copyN encBuf r n).1.data.length ≤ encBuf.N := by
  unfold copyN
  simp only [List.length_append, List.length_take]
  omega

theorem frameRule_out_le (decode : List UInt8 → Option (List UInt8)) (chunk c1 out : List UInt8)
    (hdec : ∀ blk d, decode blk = some d → d.length ≤ 65536)
    (hlen : chunk.length ≤ 65544) (h : frameRule decode chunk = some (c1, out)) :
    out.length ≤ 65536 := by
  rcases Nat.lt_or_ge chunk.length 4 with hlt | hge
  · rw [frameRule_short decode chunk hlt] at h
    cases h
  · obtain ⟨k, b1, b2, b3, rest, rfl⟩ : ∃ k b1 b2 b3 rest, chunk = k :: b1 :: b2 :: b3 :: rest := by
      match chunk, hge with
      | k :: b1 :: b2 :: b3 :: rest, _ => exact ⟨k, b1, b2, b3, rest, rfl⟩
    rw [frameRule_cons] at h
    simp only [List.length_cons] at hlen
    split_ifs at h with hff hm hinc h1 h4 h0 h4 hsk
    · cases h
      simp
    · cases h
      simp only [List.length_drop, List.length_take]
      omega
    · cases hd : decode ((rest.take (frameLen b1 b2 b3)).drop 4) with
      | none =>
        rw [hd] at h
        cases h
      | some dec =>
        rw [hd] at h
        cases h
        exact hdec _ _ hd
    · cases h
      simp


/-! ## C11: the decode budget of a pass -/

/-- C11 (amended): let the encoded buffer be within its capacity of at most 65536 bytes and
let no block decompress to more than 65536 bytes.  Then a call of `UnsnapOneFrame` that
returns has `nDec ≤ 131071 = 65535 + 65536`: the loop starts a frame only while
`nDec < 65536`, and one frame adds at most 65536. -/
theorem C11_decode_budget (decode : List UInt8 → Option (List UInt8)) (hid r : List UInt8)
    (encBuf outDecodedBuf : FixedSizeRingBuf)
    (hdec : ∀ blk d, decode blk = some d → d.length ≤ 65536)
    (hwf : encBuf.data.length ≤ encBuf.N) (hN : encBuf.N ≤ 65536)
    (st : PassState) (r1 : List UInt8) (e : Bool)
    (h : UnsnapOneFrame decode hid r encBuf outDecodedBuf = .ret st r1 e) :
    st.nDec ≤ 131071 := by
  rcases pass_cases decode hid r encBuf outDecodedBuf with hp | hp
  · rw [hp] at h
    cases h
    simp
  · rw [hp] at h
    have hl := refill_length encBuf r 65536 hwf
    exact (loop_ret_rule decode hid (copyN encBuf r 65536).2.1
      (fun chunk s => chunk.length ≤ 65544 ∧ s.nDec ≤ 131071)
      (by
        intro chunk c1 out s hinv _ hb hfr _
        have ho := frameRule_out_le decode chunk c1 out hdec hinv.1 hfr
        have hc := (body_spec decode hid chunk ⟨⟨0, chunk⟩, ⟨0, []⟩, 0, 0⟩ rfl)
        rw [hfr] at hc
        have hc1 := hc.1
        constructor
        · omega
        · show s.nDec + out.length ≤ 131071
          omega)
      (copyN encBuf r 65536).1.data.length (copyN encBuf r 65536).1.data
      ⟨(copyN encBuf r 65536).1, outDecodedBuf, (copyN encBuf r 65536).2.2.1, 0⟩ st r1 e
      ⟨by omega, Nat.zero_le _⟩ rfl h).1.2

/-! ## C16: the sizing of the decoded buffer -/

theorem sliceLoHi_some {chunk hid s : List UInt8} {lo hi : Nat}
    (h : sliceLoHi chunk hid lo hi = some s) :
    lo ≤ hi ∧ hi ≤ chunk.length + hid.length ∧ s.length = hi - lo := by
  unfold sliceLoHi at h
  split_ifs at h with hc
  cases h
  refine ⟨hc.1, hc.2, ?_⟩
  simp only [List.length_drop, List.length_take, List.length_append]
  omega

theorem body_no_short (decode : List UInt8 → Option (List UInt8)) (hid chunk : List UInt8)
    (st st1 : PassState) (f : Failure)
    (hdec : ∀ blk d, decode blk = some d → d.length ≤ 65536)
    (hcap : chunk.length + hid.length ≤ 65544)
    (hroom : 65536 ≤ st.decBuf.N - st.decBuf.data.length)
    (h : UnsnapOneFrame.body decode hid chunk st = .abort f st1) : f ≠ .shortWrite := by
  have hne : ∀ {f1 : Failure} {x : PassState}, f1 ≠ .shortWrite →
      Step.abort f1 x = Step.abort f st1 → f ≠ .shortWrite := by
    intro f1 x h1 hx
    rw [← (Step.abort.inj hx).1]
    exact h1
  have hadv : ∀ {c : List UInt8} {s : PassState} {n : Nat},
      UnsnapOneFrame.advance c s n = .abort f st1 → f ≠ .shortWrite := by
    intro c s n hx
    rcases advance_abort_kind hx with hk | hk <;> rw [hk] <;> decide
  unfold UnsnapOneFrame.body at h
  cases h14 : sliceLoHi chunk hid 1 4 with
  | none =>
    rw [h14] at h
    exact hne (by decide) h
  | some lenBytes =>
    rw [h14] at h
    dsimp only at h
    split_ifs at h with hff h0 h1 hsk
    · cases h10 : sliceLoHi chunk hid 0 snappyStreamHeaderSz with
      | none =>
        rw [h10] at h
        exact hne (by decide) h
      | some streamHeader =>
        rw [h10] at h
        dsimp only at h
        split_ifs at h with hm
        · exact hne (by decide) h
        · cases hlo : sliceLo chunk snappyStreamHeaderSz with
          | none =>
            rw [hlo] at h
            exact hne (by decide) h
          | some c1 =>
            rw [hlo] at h
            dsimp only at h
            cases hadv' : st.encBuf.Advance snappyStreamHeaderSz with
            | none =>
              rw [hadv'] at h
              exact hne (by decide) h
            | some e =>
              rw [hadv'] at h
              cases h
    · cases hs : sliceLoHi chunk hid (headerSz + crc32Sz) (headerSz + leUint32 (lenBytes ++ [0])) with
      | none =>
        rw [hs] at h
        exact hne (by decide) h
      | some sectn =>
        rw [hs] at h
        dsimp only at h
        cases hd : decode sectn with
        | none =>
          rw [hd] at h
          exact hne (by decide) h
        | some dec =>
          rw [hd] at h
          dsimp only at h
          rw [emit_fits st dec (by have := hdec _ _ hd; omega)] at h
          exact hadv h
    · cases hs : sliceLoHi chunk hid (headerSz + crc32Sz) (headerSz + leUint32 (lenBytes ++ [0])) with
      | none =>
        rw [hs] at h
        exact hne (by decide) h
      | some sectn =>
        rw [hs] at h
        dsimp only at h
        obtain ⟨hlo, hhi, hlen⟩ := sliceLoHi_some hs
        simp only [headerSz, crc32Sz] at hlo hhi hlen
        have hexp : (leUint32 (lenBytes ++ [0]) + 4294967296 - crc32Sz) % 4294967296 =
            sectn.length := by
          simp only [crc32Sz]
          omega
        rw [hexp, emit_fits st sectn (by omega)] at h
        exact hadv h
    · cases hlo : sliceLo chunk (headerSz + leUint32 (lenBytes ++ [0])) with
      | none =>
        rw [hlo] at h
        exact hne (by decide) h
      | some c1 =>
        rw [hlo] at h
        dsimp only at h
        cases hadv' : st.encBuf.Advance (headerSz + leUint32 (lenBytes ++ [0])) with
        | none =>
          rw [hadv'] at h
          exact hne (by decide) h
        | some e =>
          rw [hadv'] at h
          cases h
    · exact hne (by decide) h

/-- C16: let the decoded buffer have the capacity 131072 and be empty at the start of the
call, let no block decompress to more than 65536 bytes, and let the backing array reachable
from the refilled view hold at most 65544 bytes (so that no uncompressed payload exceeds
65536 bytes; the encoded buffer of capacity 65536 satisfies this).  Then the call never
aborts with the short-write failure, and when it returns the decoded buffer holds exactly
the `nDec` bytes that were produced. -/
theorem C16_short_append_unreachable (decode : List UInt8 → Option (List UInt8))
    (hid r : List UInt8) (encBuf : FixedSizeRingBuf)
    (hdec : ∀ blk d, decode blk = some d → d.length ≤ 65536)
    (hback : (copyN encBuf r 65536).1.Bytes.length + hid.length ≤ 65544) :
    (∀ st1 r1, UnsnapOneFrame decode hid r encBuf (NewFixedSizeRingBuf (65536 * 2)) ≠
      .abort .shortWrite st1 r1) ∧
    (∀ st r1 e, UnsnapOneFrame decode hid r encBuf (NewFixedSizeRingBuf (65536 * 2)) =
      .ret st r1 e → st.decBuf.data.length = st.nDec ∧ st.decBuf.N = 131072) := by
  have hstep : ∀ (chunk c1 out : List UInt8) (s : PassState),
      (s.decBuf.N = 131072 ∧ s.decBuf.data.length = s.nDec ∧
        chunk.length + hid.length ≤ 65544) →
      s.encBuf.data = chunk → s.nDec < 65536 → frameRule decode chunk = some (c1, out) →
      out.length ≤ s.decBuf.N - s.decBuf.data.length →
      ((⟨⟨s.encBuf.N, c1⟩, ⟨s.decBuf.N, s.decBuf.data ++ out⟩,
        s.nEnc + (chunk.length - c1.length), s.nDec + out.length⟩ : PassState).decBuf.N = 131072 ∧
       (⟨⟨s.encBuf.N, c1⟩, ⟨s.decBuf.N, s.decBuf.data ++ out⟩,
        s.nEnc + (chunk.length - c1.length), s.nDec + out.length⟩ : PassState).decBuf.data.length =
        (⟨⟨s.encBuf.N, c1⟩, ⟨s.decBuf.N, s.decBuf.data ++ out⟩,
        s.nEnc + (chunk.length - c1.length), s.nDec + out.length⟩ : PassState).nDec ∧
       c1.length + hid.length ≤ 65544) := by
    intro chunk c1 out s hinv _ _ hfr _
    have hc := (body_spec decode hid chunk ⟨⟨0, chunk⟩, ⟨0, []⟩, 0, 0⟩ rfl)
    rw [hfr] at hc
    have hc1 := hc.1
    refine ⟨hinv.1, ?_, by omega⟩
    simp only [List.length_append]
    omega
  simp only [FixedSizeRingBuf.Bytes] at hback
  constructor
  · intro st1 r1 h
    rcases pass_cases decode hid r encBuf (NewFixedSizeRingBuf (65536 * 2)) with hp | hp
    · rw [hp] at h
      cases h
    · rw [hp] at h
      obtain ⟨chunk0, st0, hinv, -, hb, hbody⟩ := loop_abort_rule decode hid
        (copyN encBuf r 65536).2.1
        (fun chunk s => s.decBuf.N = 131072 ∧ s.decBuf.data.length = s.nDec ∧
          chunk.length + hid.length ≤ 65544) hstep
        (copyN encBuf r 65536).1.data.length (copyN encBuf r 65536).1.data
        ⟨(copyN encBuf r 65536).1, NewFixedSizeRingBuf (65536 * 2), (copyN encBuf r 65536).2.2.1, 0⟩
        st1 r1 .shortWrite ⟨rfl, rfl, hback⟩ rfl h
      exact body_no_short decode hid chunk0 st0 st1 .shortWrite hdec hinv.2.2
        (by rw [hinv.1, hinv.2.1]; omega) hbody rfl
  · intro st r1 e h
    rcases pass_cases decode hid r encBuf (NewFixedSizeRingBuf (65536 * 2)) with hp | hp
    · rw [hp] at h
      cases h
      exact ⟨rfl, rfl⟩
    · rw [hp] at h
      have := (loop_ret_rule decode hid (copyN encBuf r 65536).2.1
        (fun chunk s => s.decBuf.N = 131072 ∧ s.decBuf.data.length = s.nDec ∧
          chunk.length + hid.length ≤ 65544) hstep
        (copyN encBuf r 65536).1.data.length (copyN encBuf r 65536).1.data
        ⟨(copyN encBuf r 65536).1, NewFixedSizeRingBuf (65536 * 2), (copyN encBuf r 65536).2.2.1, 0⟩
        st r1 e ⟨rfl, rfl, hback⟩ rfl h).1
      exact ⟨this.2.1, this.1⟩

/-- C16 (witness): the freshly opened handle's buffers and the 23 bytes of the scenario. -/
theorem C16_short_append_unreachable_witness :
    (∀ blk d, (fun _ => none : List UInt8 → Option (List UInt8)) blk = some d →
      d.length ≤ 65536) ∧
    (copyN (NewFixedSizeRingBuf 65536) (scenario 0x09 0 0 0 0) 65536).1.Bytes.length +
      ([] : List UInt8).length ≤ 65544 ∧
    (∀ st1 r1, UnsnapOneFrame (fun _ => none) [] (scenario 0x09 0 0 0 0)
        (NewFixedSizeRingBuf 65536) (NewFixedSizeRingBuf (65536 * 2)) ≠
      .abort .shortWrite st1 r1) ∧
    (∀ st r1 e, UnsnapOneFrame (fun _ => none) [] (scenario 0x09 0 0 0 0)
        (NewFixedSizeRingBuf 65536) (NewFixedSizeRingBuf (65536 * 2)) =
      .ret st r1 e → st.decBuf.data.length = st.nDec ∧ st.decBuf.N = 131072) :=
  ⟨fun _ _ h => Option.noConfusion h, by decide,
    C16_short_append_unreachable (fun _ => none) [] (scenario 0x09 0 0 0 0)
      (NewFixedSizeRingBuf 65536) (fun _ _ h => Option.noConfusion h) (by decide)⟩

/-! ## C13: the data-frame rule -/

/-- C13 (counterexample): a complete uncompressed frame carrying `hello`, and a decoded
buffer of capacity 4.  The loop body appends `hell`, aborts with the short-write failure
and does not advance the encoded buffer. -/
theorem C13_short_append_aborts :
    UnsnapOneFrame.body (fun _ => none) [] (helloFrame 0 0 0 0)
        ⟨⟨65536, helloFrame 0 0 0 0⟩, NewFixedSizeRingBuf 4, 13, 0⟩ =
      .abort .shortWrite
        ⟨⟨65536, helloFrame 0 0 0 0⟩, ⟨4, [0x68, 0x65, 0x6c, 0x6c]⟩, 13, 0⟩ := by
  decide

theorem frame_payload (k b1 b2 b3 : UInt8) (rest : List UInt8) (n : Nat) :
    ((k :: b1 :: b2 :: b3 :: rest).take (4 + n)).drop 8 = (rest.take n).drop 4 := by
  rw [Nat.add_comm 4 n]
  simp [List.take_succ_cons]

theorem pass_frames (decode : List UInt8 → Option (List UInt8)) (hid r : List UInt8)
    (encBuf outDecodedBuf : FixedSizeRingBuf) (st : PassState) (r1 : List UInt8) (e : Bool)
    (h : UnsnapOneFrame decode hid r encBuf outDecodedBuf = .ret st r1 e) :
    ∃ o, Frames decode (copyN encBuf r 65536).1.data st.encBuf.data o ∧
      st.decBuf.data = outDecodedBuf.data ++ o := by
  rcases pass_cases decode hid r encBuf outDecodedBuf with hp | hp
  · rw [hp] at h
    cases h
    exact ⟨[], Frames.nil _, by simp⟩
  · rw [hp] at h
    exact (loop_ret_rule decode hid (copyN encBuf r 65536).2.1
      (fun chunk s => ∃ o, Frames decode (copyN encBuf r 65536).1.data chunk o ∧
        s.decBuf.data = outDecodedBuf.data ++ o)
      (by
        intro chunk c1 out s hinv _ _ hfr _
        obtain ⟨o, hf, hd⟩ := hinv
        refine ⟨o ++ out, Frames.snoc _ _ _ _ _ hf hfr, ?_⟩
        show s.decBuf.data ++ out = outDecodedBuf.data ++ (o ++ out)
        rw [hd, List.append_assoc])
      (copyN encBuf r 65536).1.data.length (copyN encBuf r 65536).1.data
      ⟨(copyN encBuf r 65536).1, outDecodedBuf, (copyN encBuf r 65536).2.2.1, 0⟩ st r1 e
      ⟨[], Frames.nil _, by simp⟩ rfl h).1

/-- C13 (amended): let a data frame with declared length `L ≥ 4` be completely present at
the front of the view.  If the decoded buffer has room for the payload, the loop body of
`UnsnapOneFrame` appends exactly the frame bytes `8..4+L` (kind `0x01`), or exactly their
decompression when it succeeds (kind `0x00`), and takes exactly `4+L` bytes from the view
and the encoded buffer.  And whenever a call returns, the decoded buffer holds what it held
before followed by the in-order concatenation of what the consumed frames contribute. -/
theorem C13_data_frame_rule (decode : List UInt8 → Option (List UInt8)) (hid : List UInt8)
    (k b1 b2 b3 : UInt8) (rest : List UInt8) (st : PassState)
    (h4 : 4 ≤ frameLen b1 b2 b3) (hlen : frameLen b1 b2 b3 ≤ rest.length)
    (hview : st.encBuf.Bytes = k :: b1 :: b2 :: b3 :: rest) :
    (k.toNat = 0x01 →
      frameLen b1 b2 b3 - 4 ≤ st.decBuf.N - st.decBuf.Bytes.length →
      UnsnapOneFrame.body decode hid (k :: b1 :: b2 :: b3 :: rest) st =
        .next ((k :: b1 :: b2 :: b3 :: rest).drop (4 + frameLen b1 b2 b3))
          ⟨⟨st.encBuf.N, st.encBuf.Bytes.drop (4 + frameLen b1 b2 b3)⟩,
            ⟨st.decBuf.N, st.decBuf.Bytes ++
              ((k :: b1 :: b2 :: b3 :: rest).take (4 + frameLen b1 b2 b3)).drop 8⟩,
            st.nEnc + (4 + frameLen b1 b2 b3), st.nDec + (frameLen b1 b2 b3 - 4)⟩) ∧
    (k.toNat = 0x00 → ∀ dec,
      decode (((k :: b1 :: b2 :: b3 :: rest).take (4 + frameLen b1 b2 b3)).drop 8) = some dec →
      dec.length ≤ st.decBuf.N - st.decBuf.Bytes.length →
      UnsnapOneFrame.body decode hid (k :: b1 :: b2 :: b3 :: rest) st =
        .next ((k :: b1 :: b2 :: b3 :: rest).drop (4 + frameLen b1 b2 b3))
          ⟨⟨st.encBuf.N, st.encBuf.Bytes.drop (4 + frameLen b1 b2 b3)⟩,
            ⟨st.decBuf.N, st.decBuf.Bytes ++ dec⟩,
            st.nEnc + (4 + frameLen b1 b2 b3), st.nDec + dec.length⟩) ∧
    (∀ r encBuf outDecodedBuf st1 r1 e,
      UnsnapOneFrame decode hid r encBuf outDecodedBuf = .ret st1 r1 e →
      ∃ o, Frames decode (copyN encBuf r 65536).1.Bytes st1.encBuf.Bytes o ∧
        st1.decBuf.Bytes = outDecodedBuf.Bytes ++ o) := by
  simp only [FixedSizeRingBuf.Bytes] at hview ⊢
  rw [hview, drop_header_add, frame_payload]
  refine ⟨fun hk hroom => ?_, fun hk dec hdec hroom => ?_, ?_⟩
  · exact body_uncompressed decode hid k b1 b2 b3 rest st hk h4 hlen hroom hview
  · exact body_compressed decode hid k b1 b2 b3 rest dec st hk h4 hlen hdec hroom hview
  · intro r encBuf outDecodedBuf st1 r1 e h
    exact pass_frames decode hid r encBuf outDecodedBuf st1 r1 e h

/-- C13 (witness): the uncompressed frame carrying `hello`, with the decoded buffer of the
freshly opened handle. -/
theorem C13_data_frame_rule_witness :
    UnsnapOneFrame.body (fun _ => none) [] (helloFrame 0 0 0 0)
        ⟨⟨65536, helloFrame 0 0 0 0⟩, ⟨131072, []⟩, 13, 0⟩ =
      .next [] ⟨⟨65536, []⟩, ⟨131072, hello⟩, 26, 5⟩ :=
  (C13_data_frame_rule (fun _ => none) [] 0x01 0x09 0x00 0x00
    [0x00, 0x00, 0x00, 0x00, 0x68, 0x65, 0x6c, 0x6c, 0x6f]
    ⟨⟨65536, helloFrame 0 0 0 0⟩, ⟨131072, []⟩, 13, 0⟩ (by decide) (by decide) rfl).1
    (by decide) (by decide)

/-! ## C18: progress and termination of the loops -/

/-- C18 (counterexample): a view of three bytes.  Both loops enter their body once (and
abort there), while `3 / 4 = 0`. -/
theorem C18_three_bytes_one_iteration :
    UnsnapOneFrame.chunkCount (fun _ => none) [] 3 [0x02, 0x00, 0x00]
      ⟨⟨65536, [0x02, 0x00, 0x00]⟩, ⟨131072, []⟩, 3, 0⟩ = 1 ∧
    Unsnappy.chunkCount (fun _ => none) [] 3 [0x02, 0x00, 0x00] [] = 1 ∧
    ([0x02, 0x00, 0x00] : List UInt8).length / 4 = 0 := by
  decide

theorem frameRule_progress (decode : List UInt8 → Option (List UInt8)) (chunk c1 out : List UInt8)
    (h : frameRule decode chunk = some (c1, out)) :
    ((chunk.headD 0).toNat = 0xff → c1.length + 10 = chunk.length) ∧
    ((chunk.headD 0).toNat ≠ 0xff →
      c1.length + (4 + leUint32 ((chunk.take 4).drop 1 ++ [0])) = chunk.length) := by
  rcases Nat.lt_or_ge chunk.length 4 with hlt | hge
  · rw [frameRule_short decode chunk hlt] at h
    cases h
  · obtain ⟨k, b1, b2, b3, rest, rfl⟩ : ∃ k b1 b2 b3 rest, chunk = k :: b1 :: b2 :: b3 :: rest := by
      match chunk, hge with
      | k :: b1 :: b2 :: b3 :: rest, _ => exact ⟨k, b1, b2, b3, rest, rfl⟩
    rw [frameRule_cons] at h
    rw [declared_of_cons]
    simp only [List.headD_cons]
    have hd : ∀ {c : List UInt8}, c = rest.drop (frameLen b1 b2 b3) →
        frameLen b1 b2 b3 ≤ rest.length →
        c.length + (4 + frameLen b1 b2 b3) = (k :: b1 :: b2 :: b3 :: rest).length := by
      intro c hc hl
      rw [hc]
      simp only [List.length_cons, List.length_drop]
      omega
    split_ifs at h with hff hm hinc h1 h4 h0 h4 hsk
    · cases h
      refine ⟨fun _ => ?_, fun hn => absurd hff hn⟩
      have hs := take_ten_magic hm
      conv_rhs => rw [hs]
      simp [streamMagic]
    · cases h
      exact ⟨fun hn => absurd hn hff, fun _ => hd rfl (by omega)⟩
    · cases hdc : decode ((rest.take (frameLen b1 b2 b3)).drop 4) with
      | none =>
        rw [hdc] at h
        cases h
      | some dec =>
        rw [hdc] at h
        cases h
        exact ⟨fun hn => absurd hn hff, fun _ => hd rfl (by omega)⟩
    · cases h
      exact ⟨fun hn => absurd hn hff, fun _ => hd rfl (by omega)⟩

theorem frameRule_shorter (decode : List UInt8 → Option (List UInt8)) (chunk c1 out : List UInt8)
    (h : frameRule decode chunk = some (c1, out)) : c1.length + 4 ≤ chunk.length := by
  have hp := frameRule_progress decode chunk c1 out h
  by_cases hff : (chunk.headD 0).toNat = 0xff
  · have := hp.1 hff
    omega
  · have := hp.2 hff
    omega

theorem chunkCount_le (decode : List UInt8 → Option (List UInt8)) (hid : List UInt8) :
    ∀ (fuel : Nat) (chunk : List UInt8) (st : PassState), st.encBuf.data = chunk →
      UnsnapOneFrame.chunkCount decode hid fuel chunk st ≤ (chunk.length + 3) / 4 := by
  intro fuel
  induction fuel with
  | zero =>
    intro chunk st _
    simp [UnsnapOneFrame.chunkCount]
  | succ n ih =>
    intro chunk st hview
    unfold UnsnapOneFrame.chunkCount
    split_ifs with h1 h2
    · exact Nat.zero_le _
    · exact Nat.zero_le _
    · have hpos : 0 < chunk.length := Nat.pos_of_ne_zero h2
      cases hb : UnsnapOneFrame.body decode hid chunk st with
      | abort f s1 =>
        dsimp only
        omega
      | next c1 s1 =>
        dsimp only
        obtain ⟨out, hfr, hlen, -, hs1⟩ := body_next_inv decode hid chunk c1 st s1 hview hb
        have := ih c1 s1 (by rw [hs1])
        omega

theorem chunkCount_ret (decode : List UInt8 → Option (List UInt8)) (hid r : List UInt8) :
    ∀ (fuel : Nat) (chunk : List UInt8) (st st1 : PassState) (r1 : List UInt8) (e : Bool),
      st.encBuf.data = chunk →
      UnsnapOneFrame.loop decode hid r fuel chunk st = .ret st1 r1 e →
      UnsnapOneFrame.chunkCount decode hid fuel chunk st ≤ chunk.length / 4 := by
  intro fuel
  induction fuel with
  | zero =>
    intro chunk st st1 r1 e _ _
    simp [UnsnapOneFrame.chunkCount]
  | succ n ih =>
    intro chunk st st1 r1 e hview h
    unfold UnsnapOneFrame.loop at h
    unfold UnsnapOneFrame.chunkCount
    split_ifs at h ⊢ with h1 h2
    · exact Nat.zero_le _
    · exact Nat.zero_le _
    · cases hb : UnsnapOneFrame.body decode hid chunk st with
      | abort f s1 =>
        rw [hb] at h
        cases h
      | next c1 s1 =>
        rw [hb] at h
        dsimp only
        obtain ⟨out, hfr, hlen, -, hs1⟩ := body_next_inv decode hid chunk c1 st s1 hview hb
        have := ih c1 s1 st1 r1 e (by rw [hs1]) h
        omega

theorem loop_fuel (decode : List UInt8 → Option (List UInt8)) (hid r : List UInt8) :
    ∀ (fuel : Nat) (chunk : List UInt8) (st : PassState), st.encBuf.data = chunk →
      chunk.length ≤ 4 * fuel →
      UnsnapOneFrame.loop decode hid r fuel chunk st ≠ .outOfFuel := by
  intro fuel
  induction fuel with
  | zero =>
    intro chunk st _ hlen h
    unfold UnsnapOneFrame.loop at h
    split_ifs at h with h1 h2
    omega
  | succ n ih =>
    intro chunk st hview hlen h
    unfold UnsnapOneFrame.loop at h
    split_ifs at h with h1 h2
    cases hb : UnsnapOneFrame.body decode hid chunk st with
    | abort f s1 =>
      rw [hb] at h
      cases h
    | next c1 s1 =>
      rw [hb] at h
      obtain ⟨out, hfr, hl, -, hs1⟩ := body_next_inv decode hid chunk c1 st s1 hview hb
      exact ih c1 s1 (by rw [hs1]) (by omega) h

theorem batch_chunkCount_le (decode : List UInt8 → Option (List UInt8)) (hid : List UInt8) :
    ∀ (fuel : Nat) (chunk w : List UInt8),
      Unsnappy.chunkCount decode hid fuel chunk w ≤ (chunk.length + 3) / 4 := by
  intro fuel
  induction fuel with
  | zero =>
    intro chunk w
    simp [Unsnappy.chunkCount]
  | succ n ih =>
    intro chunk w
    unfold Unsnappy.chunkCount
    split_ifs with h2
    · exact Nat.zero_le _
    · have hpos : 0 < chunk.length := Nat.pos_of_ne_zero h2
      cases hb : Unsnappy.body decode hid chunk w with
      | abort f s1 =>
        dsimp only
        omega
      | next c1 w1 =>
        dsimp only
        obtain ⟨out, hfr, -⟩ := batch_next_inv decode hid chunk c1 w w1 hb
        have hlen := frameRule_shorter decode chunk c1 out hfr
        have := ih c1 w1
        omega

theorem batch_chunkCount_ok (decode : List UInt8 → Option (List UInt8)) (hid : List UInt8) :
    ∀ (fuel : Nat) (chunk w W : List UInt8),
      Unsnappy.loop decode hid fuel chunk w = .ok W →
      Unsnappy.chunkCount decode hid fuel chunk w ≤ chunk.length / 4 := by
  intro fuel
  induction fuel with
  | zero =>
    intro chunk w W _
    simp [Unsnappy.chunkCount]
  | succ n ih =>
    intro chunk w W h
    unfold Unsnappy.loop at h
    unfold Unsnappy.chunkCount
    split_ifs at h ⊢ with h2
    · exact Nat.zero_le _
    · cases hb : Unsnappy.body decode hid chunk w with
      | abort f s1 =>
        rw [hb] at h
        cases h
      | next c1 w1 =>
        rw [hb] at h
        dsimp only
        obtain ⟨out, hfr, -⟩ := batch_next_inv decode hid chunk c1 w w1 hb
        have hlen := frameRule_shorter decode chunk c1 out hfr
        have := ih c1 w1 W h
        omega

theorem batch_loop_fuel (decode : List UInt8 → Option (List UInt8)) (hid : List UInt8) :
    ∀ (fuel : Nat) (chunk w : List UInt8), chunk.length ≤ 4 * fuel →
      Unsnappy.loop decode hid fuel chunk w ≠ .outOfFuel := by
  intro fuel
  induction fuel with
  | zero =>
    intro chunk w hlen h
    unfold Unsnappy.loop at h
    split_ifs at h with h2
    omega
  | succ n ih =>
    intro chunk w hlen h
    unfold Unsnappy.loop at h
    split_ifs at h with h2
    cases hb : Unsnappy.body decode hid chunk w with
    | abort f s1 =>
      rw [hb] at h
      cases h
    | next c1 w1 =>
      rw [hb] at h
      obtain ⟨out, hfr, -⟩ := batch_next_inv decode hid chunk c1 w w1 hb
      have hl := frameRule_shorter decode chunk c1 out hfr
      exact ih c1 w1 (by omega) h

/-- C18 (amended): an iteration of either loop that does not fail shortens the view by
exactly 10 bytes at an identifier frame and by exactly `4 + length` bytes otherwise, hence by
at least 4.  So `chunkCount`, the number of iterations started, is at most `⌈len(view)/4⌉`,
and at most `len(view)/4` when the loop ends without a failure; `⌈len(view)/4⌉` iterations
always suffice for the loop to end, and `UnsnapOneFrame` and `Unsnappy` end on every
input. -/
theorem C18_loop_progress (decode : List UInt8 → Option (List UInt8))
    (hid r chunk w : List UInt8) (st : PassState) (fuel : Nat)
    (hview : st.encBuf.Bytes = chunk) :
    (∀ c1 st1, UnsnapOneFrame.body decode hid chunk st = .next c1 st1 →
      ((chunk.headD 0).toNat = 0xff → c1.length + 10 = chunk.length) ∧
      ((chunk.headD 0).toNat ≠ 0xff →
        c1.length + (4 + leUint32 ((chunk.take 4).drop 1 ++ [0])) = chunk.length) ∧
      c1.length + 4 ≤ chunk.length) ∧
    (∀ c1 w1, Unsnappy.body decode hid chunk w = .next c1 w1 →
      ((chunk.headD 0).toNat = 0xff → c1.length + 10 = chunk.length) ∧
      ((chunk.headD 0).toNat ≠ 0xff →
        c1.length + (4 + leUint32 ((chunk.take 4).drop 1 ++ [0])) = chunk.length) ∧
      c1.length + 4 ≤ chunk.length) ∧
    UnsnapOneFrame.chunkCount decode hid fuel chunk st ≤ (chunk.length + 3) / 4 ∧
    Unsnappy.chunkCount decode hid fuel chunk w ≤ (chunk.length + 3) / 4 ∧
    (∀ st1 r1 e, UnsnapOneFrame.loop decode hid r fuel chunk st = .ret st1 r1 e →
      UnsnapOneFrame.chunkCount decode hid fuel chunk st ≤ chunk.length / 4) ∧
    (∀ W, Unsnappy.loop decode hid fuel chunk w = .ok W →
      Unsnappy.chunkCount decode hid fuel chunk w ≤ chunk.length / 4) ∧
    ((chunk.length + 3) / 4 ≤ fuel →
      UnsnapOneFrame.loop decode hid r fuel chunk st ≠ .outOfFuel ∧
      Unsnappy.loop decode hid fuel chunk w ≠ .outOfFuel) ∧
    (∀ encBuf outDecodedBuf,
      UnsnapOneFrame decode hid r encBuf outDecodedBuf ≠ .outOfFuel) ∧
    Unsnappy decode hid chunk ≠ .outOfFuel := by
  simp only [FixedSizeRingBuf.Bytes] at hview
  refine ⟨fun c1 st1 h => ?_, fun c1 w1 h => ?_, chunkCount_le decode hid fuel chunk st hview,
    batch_chunkCount_le decode hid fuel chunk w,
    fun st1 r1 e h => chunkCount_ret decode hid r fuel chunk st st1 r1 e hview h,
    fun W h => batch_chunkCount_ok decode hid fuel chunk w W h,
    fun hf => ⟨loop_fuel decode hid r fuel chunk st hview (by omega),
      batch_loop_fuel decode hid fuel chunk w (by omega)⟩,
    fun encBuf outDecodedBuf h => ?_, batch_loop_fuel decode hid _ chunk [] (by omega)⟩
  · obtain ⟨out, hfr, hlen, -, -⟩ := body_next_inv decode hid chunk c1 st st1 hview h
    have hp := frameRule_progress decode chunk c1 out hfr
    exact ⟨hp.1, hp.2, hlen⟩
  · obtain ⟨out, hfr, -⟩ := batch_next_inv decode hid chunk c1 w w1 h
    have hp := frameRule_progress decode chunk c1 out hfr
    exact ⟨hp.1, hp.2, frameRule_shorter decode chunk c1 out hfr⟩
  · rcases pass_cases decode hid r encBuf outDecodedBuf with hp | hp
    · rw [hp] at h
      cases h
    · rw [hp] at h
      exact loop_fuel decode hid (copyN encBuf r 65536).2.1
        (copyN encBuf r 65536).1.data.length (copyN encBuf r 65536).1.data
        ⟨(copyN encBuf r 65536).1, outDecodedBuf, (copyN encBuf r 65536).2.2.1, 0⟩ rfl
        (by omega) h

/-- C18 (witness): the view of the counterexample: one iteration, `⌈3/4⌉ = 1`. -/
theorem C18_loop_progress_witness :
    UnsnapOneFrame.chunkCount (fun _ => none) [] 3 [0x02, 0x00, 0x00]
      ⟨⟨65536, [0x02, 0x00, 0x00]⟩, ⟨131072, []⟩, 3, 0⟩ ≤
        (([0x02, 0x00, 0x00] : List UInt8).length + 3) / 4 ∧
    Unsnappy.chunkCount (fun _ => none) [] 3 [0x02, 0x00, 0x00] [] ≤
        (([0x02, 0x00, 0x00] : List UInt8).length + 3) / 4 :=
  ⟨(C18_loop_progress (fun _ => none) [] [] [0x02, 0x00, 0x00] []
      ⟨⟨65536, [0x02, 0x00, 0x00]⟩, ⟨131072, []⟩, 3, 0⟩ 3 rfl).2.2.1,
   (C18_loop_progress (fun _ => none) [] [] [0x02, 0x00, 0x00] []
      ⟨⟨65536, [0x02, 0x00, 0x00]⟩, ⟨131072, []⟩, 3, 0⟩ 3 rfl).2.2.2.1⟩

/-! ## C12: the counts a pass returns -/

theorem pass_counts (decode : List UInt8 → Option (List UInt8)) (hid r : List UInt8)
    (encBuf outDecodedBuf : FixedSizeRingBuf) (st : PassState) (r1 : List UInt8) (e : Bool)
    (h : UnsnapOneFrame decode hid r encBuf outDecodedBuf = .ret st r1 e) :
    st.nEnc + st.encBuf.data.length =
      (copyN encBuf r 65536).2.2.1 + (copyN encBuf r 65536).1.data.length ∧
    st.decBuf.data.length = outDecodedBuf.data.length + st.nDec := by
  rcases pass_cases decode hid r encBuf outDecodedBuf with hp | hp
  · rw [hp] at h
    have h0 : (copyN encBuf r 65536).2.2.1 = 0 := by
      unfold UnsnapOneFrame at hp
      dsimp only at hp
      split_ifs at hp with hc
      · exact hc.2.1
      · exact absurd (loop_ret_nil decode hid _ _ _ _ _ _ _ hp).1 (by simp)
    cases h
    rw [h0]
    simp
  · rw [hp] at h
    exact (loop_ret_rule decode hid (copyN encBuf r 65536).2.1
      (fun chunk s => s.nEnc + chunk.length =
          (copyN encBuf r 65536).2.2.1 + (copyN encBuf r 65536).1.data.length ∧
        s.decBuf.data.length = outDecodedBuf.data.length + s.nDec)
      (by
        intro chunk c1 out s hinv _ _ hfr _
        have hl := frameRule_shorter decode chunk c1 out hfr
        constructor
        · show s.nEnc + (chunk.length - c1.length) + c1.length = _
          have := hinv.1
          omega
        · show (s.decBuf.data ++ out).length = outDecodedBuf.data.length + (s.nDec + out.length)
          rw [List.length_append, hinv.2]
          omega)
      (copyN encBuf r 65536).1.data.length (copyN encBuf r 65536).1.data
      ⟨(copyN encBuf r 65536).1, outDecodedBuf, (copyN encBuf r 65536).2.2.1, 0⟩ st r1 e
      ⟨rfl, rfl⟩ rfl h).1

/-- C12 (failing input): the 23 bytes of the scenario on empty buffers.  The refill puts 23
bytes into the encoded buffer and the loop consumes these 23 bytes, but the call returns
`nEnc = 46`: the count starts at the number of bytes refilled.  The returned `nDec = 5` is
the number of bytes appended. -/
theorem C12_nEnc_adds_refilled_bytes :
    UnsnapOneFrame (fun _ => none) [] (scenario 0x09 0 0 0 0) (NewFixedSizeRingBuf 65536)
        (NewFixedSizeRingBuf (65536 * 2)) =
      .ret ⟨⟨65536, []⟩, ⟨131072, hello⟩, 46, 5⟩ [] false ∧
    (copyN (NewFixedSizeRingBuf 65536) (scenario 0x09 0 0 0 0) 65536).1.Bytes.length = 23 ∧
    (copyN (NewFixedSizeRingBuf 65536) (scenario 0x09 0 0 0 0) 65536).2.2.1 = 23 := by
  decide

/-! ## C14: the batch decoder and one pass of the incremental decoder -/

theorem batch_loop_mono_ok (decode : List UInt8 → Option (List UInt8)) (hid : List UInt8) :
    ∀ (fuel : Nat) (chunk w W : List UInt8),
      Unsnappy.loop decode hid fuel chunk w = .ok W → w.length ≤ W.length := by
  intro fuel
  induction fuel with
  | zero =>
    intro chunk w W h
    unfold Unsnappy.loop at h
    split_ifs at h
    cases h
    exact Nat.le_refl _
  | succ n ih =>
    intro chunk w W h
    unfold Unsnappy.loop at h
    split_ifs at h with h2
    · cases h
      exact Nat.le_refl _
    · cases hb : Unsnappy.body decode hid chunk w with
      | abort f s1 =>
        rw [hb] at h
        cases h
      | next c1 w1 =>
        rw [hb] at h
        obtain ⟨out, -, hw⟩ := batch_next_inv decode hid chunk c1 w w1 hb
        have := ih c1 w1 W h
        rw [hw, List.length_append] at this
        omega

theorem batch_loop_mono_abort (decode : List UInt8 → Option (List UInt8)) (hid : List UInt8) :
    ∀ (fuel : Nat) (chunk w W : List UInt8) (f : Failure),
      Unsnappy.loop decode hid fuel chunk w = .abort f W → w.length ≤ W.length := by
  intro fuel
  induction fuel with
  | zero =>
    intro chunk w W f h
    unfold Unsnappy.loop at h
    split_ifs at h
  | succ n ih =>
    intro chunk w W f h
    unfold Unsnappy.loop at h
    split_ifs at h with h2
    cases hb : Unsnappy.body decode hid chunk w with
    | abort f1 s1 =>
      rw [hb] at h
      cases h
      exact batch_abort_len decode hid chunk w W f hb
    | next c1 w1 =>
      rw [hb] at h
      obtain ⟨out, -, hw⟩ := batch_next_inv decode hid chunk c1 w w1 hb
      have := ih c1 w1 W f h
      rw [hw, List.length_append] at this
      omega

theorem sim_ok (decode : List UInt8 → Option (List UInt8)) (hidB hidS r : List UInt8) :
    ∀ (fuel : Nat) (chunk w W : List UInt8) (st : PassState),
      st.encBuf.data = chunk → st.decBuf.data = w → st.nDec = w.length →
      65536 ≤ st.decBuf.N →
      Unsnappy.loop decode hidB fuel chunk w = .ok W → W.length < 65536 →
      UnsnapOneFrame.loop decode hidS r fuel chunk st =
        .ret ⟨⟨st.encBuf.N, []⟩, ⟨st.decBuf.N, W⟩, st.nEnc + chunk.length, W.length⟩ r
          false := by
  intro fuel
  induction fuel with
  | zero =>
    intro chunk w W st hview hdata hn hN h hW
    unfold Unsnappy.loop at h
    split_ifs at h with h2
    cases h
    have hc : chunk = [] := List.length_eq_zero.mp h2
    rw [loop_done decode hidS r 0 chunk st (Or.inr hc)]
    obtain ⟨⟨n1, d1⟩, ⟨n2, d2⟩, a, b⟩ := st
    simp only at hview hdata hn
    rw [hview, hc, hdata, hn]
    rfl
  | succ n ih =>
    intro chunk w W st hview hdata hn hN h hW
    unfold Unsnappy.loop at h
    split_ifs at h with h2
    · cases h
      have hc : chunk = [] := List.length_eq_zero.mp h2
      rw [loop_done decode hidS r (n + 1) chunk st (Or.inr hc)]
      obtain ⟨⟨n1, d1⟩, ⟨n2, d2⟩, a, b⟩ := st
      simp only at hview hdata hn
      rw [hview, hc, hdata, hn]
      rfl
    · cases hb : Unsnappy.body decode hidB chunk w with
      | abort f s1 =>
        rw [hb] at h
        cases h
      | next c1 w1 =>
        rw [hb] at h
        obtain ⟨out, hfr, hw⟩ := batch_next_inv decode hidB chunk c1 w w1 hb
        have hmono := batch_loop_mono_ok decode hidB n c1 w1 W h
        rw [hw, List.length_append] at hmono
        have hs := body_spec decode hidS chunk st hview
        rw [hfr] at hs
        have hbody := hs.2.1 (by rw [hdata]; omega)
        have hne : chunk ≠ [] := fun hc => h2 (by rw [hc]; rfl)
        rw [loop_next decode hidS r n chunk c1 st _ (by omega) hne hbody]
        have hih := ih c1 w1 W
          ⟨⟨st.encBuf.N, c1⟩, ⟨st.decBuf.N, st.decBuf.data ++ out⟩,
            st.nEnc + (chunk.length - c1.length), st.nDec + out.length⟩
          rfl (by rw [hw, hdata]) (by rw [hw, hn, List.length_append]) hN h hW
        have hle := hs.1
        have e : st.nEnc + (chunk.length - c1.length) + c1.length = st.nEnc + chunk.length := by
          omega
        rw [hih]
        simp only
        rw [e]

theorem sim_abort (decode : List UInt8 → Option (List UInt8)) (hidB hidS r : List UInt8) :
    ∀ (fuel : Nat) (chunk w W : List UInt8) (f : Failure) (st : PassState),
      st.encBuf.data = chunk → st.decBuf.data = w → st.nDec = w.length →
      65536 ≤ st.decBuf.N →
      Unsnappy.loop decode hidB fuel chunk w = .abort f W → W.length < 65536 →
      ∃ f1 st1, UnsnapOneFrame.loop decode hidS r fuel chunk st = .abort f1 st1 r := by
  intro fuel
  induction fuel with
  | zero =>
    intro chunk w W f st hview hdata hn hN h hW
    unfold Unsnappy.loop at h
    split_ifs at h
  | succ n ih =>
    intro chunk w W f st hview hdata hn hN h hW
    unfold Unsnappy.loop at h
    split_ifs at h with h2
    have hne : chunk ≠ [] := fun hc => h2 (by rw [hc]; rfl)
    have hs := body_spec decode hidS chunk st hview
    have hbs := batch_spec decode hidB chunk w
    cases hb : Unsnappy.body decode hidB chunk w with
    | abort f0 s1 =>
      rw [hb] at h
      cases h
      have hlen := batch_abort_len decode hidB chunk w W f hb
      cases hfr : frameRule decode chunk with
      | none =>
        rw [hfr] at hs
        obtain ⟨f1, st1, hbody⟩ := hs
        exact ⟨f1, st1, loop_abort decode hidS r n chunk st st1 f1 (by omega) hne hbody⟩
      | some p =>
        rw [hfr] at hbs
        rw [hbs] at hb
        cases hb
    | next c1 w1 =>
      rw [hb] at h
      obtain ⟨out, hfr, hw⟩ := batch_next_inv decode hidB chunk c1 w w1 hb
      have hmono := batch_loop_mono_abort decode hidB n c1 w1 W f h
      rw [hw, List.length_append] at hmono
      rw [hfr] at hs
      have hbody := hs.2.1 (by rw [hdata]; omega)
      rw [loop_next decode hidS r n chunk c1 st _ (by omega) hne hbody]
      exact ih c1 w1 W f
        ⟨⟨st.encBuf.N, c1⟩, ⟨st.decBuf.N, st.decBuf.data ++ out⟩,
          st.nEnc + (chunk.length - c1.length), st.nDec + out.length⟩
        rfl (by rw [hw, hdata]) (by rw [hw, hn, List.length_append]) hN h hW

theorem pass_fresh_le (decode : List UInt8 → Option (List UInt8)) (hid b : List UInt8)
    (out : FixedSizeRingBuf) (hne : b ≠ []) (hlen : b.length ≤ 65536) :
    UnsnapOneFrame decode hid b (NewFixedSizeRingBuf 65536) out =
      UnsnapOneFrame.loop decode hid [] b.length b ⟨⟨65536, b⟩, out, b.length, 0⟩ := by
  have hm : min 65536 b.length = b.length := by omega
  rw [pass_fresh decode hid b out hne, hm, List.take_length, List.drop_length]

/-- C14 (amended): let `b` have at most 65536 bytes, let the encoded buffer be the empty
buffer of 65536 bytes and the decoded buffer be empty with room for 65536 bytes.  If
`Unsnappy` succeeds on `b` writing `W` with `|W| < 65536`, one call of `UnsnapOneFrame`
returns without a failure, leaves the encoded buffer and the source empty and exactly `W`
in the decoded buffer (`io.EOF` is reported only for the empty `b`).  If `Unsnappy` fails
on `b` having written fewer than 65536 bytes, the call of `UnsnapOneFrame` fails too. -/
theorem C14_batch_and_pass_agree (decode : List UInt8 → Option (List UInt8))
    (hidB hidS b : List UInt8) (out : FixedSizeRingBuf)
    (hlen : b.length ≤ 65536) (hout : out.data = []) (hN : 65536 ≤ out.N) :
    (∀ W, Unsnappy decode hidB b = .ok W → W.length < 65536 →
      UnsnapOneFrame decode hidS b (NewFixedSizeRingBuf 65536) out =
        .ret ⟨⟨65536, []⟩, ⟨out.N, W⟩, b.length + b.length, W.length⟩ []
          (decide (b = []))) ∧
    (∀ f W, Unsnappy decode hidB b = .abort f W → W.length < 65536 →
      ∃ f1 st1 r1, UnsnapOneFrame decode hidS b (NewFixedSizeRingBuf 65536) out =
        .abort f1 st1 r1) := by
  constructor
  · intro W h hW
    by_cases hb : b = []
    · subst hb
      unfold Unsnappy Unsnappy.loop at h
      simp only [List.length_nil, if_true] at h
      cases h
      obtain ⟨n, d⟩ := out
      simp only at hout
      subst hout
      simp [UnsnapOneFrame, copyN, NewFixedSizeRingBuf, FixedSizeRingBuf.Readable]
    · rw [pass_fresh_le decode hidS b out hb hlen,
        sim_ok decode hidB hidS [] b.length b [] W ⟨⟨65536, b⟩, out, b.length, 0⟩
          rfl hout rfl hN h hW]
      simp [hb]
  · intro f W h hW
    have hb : b ≠ [] := by
      intro hb
      subst hb
      unfold Unsnappy Unsnappy.loop at h
      simp at h
    rw [pass_fresh_le decode hidS b out hb hlen]
    obtain ⟨f1, st1, h1⟩ := sim_abort decode hidB hidS [] b.length b [] W f
      ⟨⟨65536, b⟩, out, b.length, 0⟩ rfl hout rfl hN h hW
    exact ⟨f1, st1, [], h1⟩

theorem C14_batch_and_pass_agree_witness :
    (streamMagic ++ helloFrame 0x00 0x00 0x00 0x00).length ≤ 65536 ∧
    Unsnappy (fun _ => none) [] (streamMagic ++ helloFrame 0x00 0x00 0x00 0x00) = .ok hello ∧
    UnsnapOneFrame (fun _ => none) [] (streamMagic ++ helloFrame 0x00 0x00 0x00 0x00)
        (NewFixedSizeRingBuf 65536) (NewFixedSizeRingBuf (65536 * 2)) =
      .ret ⟨⟨65536, []⟩, ⟨131072, hello⟩, 46, 5⟩ [] false :=
  ⟨by decide, by decide,
    (C14_batch_and_pass_agree (fun _ => none) [] []
      (streamMagic ++ helloFrame 0x00 0x00 0x00 0x00)
      (NewFixedSizeRingBuf (65536 * 2)) (by decide) rfl (by decide)).1 hello (by decide)
      (by decide)⟩

/-! ## C15: the checksum bytes of data frames are not looked at -/

theorem same_length {v v' : List UInt8} (h : SameButChecksums v v') : v.length = v'.length := by
  induction h with
  | refl v => rfl
  | frame k b1 b2 b3 c c' p t t' hc _ _ _ _ _ _ ih =>
    simp only [List.length_cons, List.length_append]
    omega

theorem same_take {v v' : List UInt8} (h : SameButChecksums v v') (n : Nat) :
    SameButChecksums (v.take n) (v'.take n) := by
  induction h generalizing n with
  | refl v => exact .refl _
  | frame k b1 b2 b3 c c' p t t' hc h4 hk hp hle hcut _ ih =>
    match n with
    | 0 => exact .refl _
    | 1 => exact .refl _
    | 2 => exact .refl _
    | 3 => exact .refl _
    | m + 4 =>
      simp only [List.take_succ_cons, List.take_append_eq_append_take, List.length_append]
      have hlc : (c.take m).length = min m c.length := List.length_take _ _
      have hlc' : (c'.take m).length = min m c'.length := List.length_take _ _
      have hlp : (p.take (m - c.length)).length = min (m - c.length) p.length :=
        List.length_take _ _
      rw [← hc]
      refine .frame k b1 b2 b3 _ _ _ _ _ (by omega) (by omega) ?_ ?_ (by omega) ?_
        (ih (m - (c.length + p.length)))
      · intro hne
        apply hk
        intro he
        exact hne (by rw [he])
      · intro hlt
        by_cases h5 : c.length < 4
        · rw [hp h5]
          exact List.take_nil
        · have : m - c.length = 0 := by omega
          rw [this]
          rfl
      · intro hlt
        by_cases h5 : c.length + p.length < frameLen b1 b2 b3
        · obtain ⟨e1, e2⟩ := hcut h5
          rw [e1, e2]
          exact ⟨by simp, by simp⟩
        · have : m - (c.length + p.length) = 0 := by omega
          rw [this]
          exact ⟨rfl, rfl⟩

theorem slice_congr {chunk chunk' : List UInt8} (hid : List UInt8) (lo hi : Nat)
    (hlen : chunk.length = chunk'.length)
    (h : (chunk.take hi).drop lo = (chunk'.take hi).drop lo) :
    sliceLoHi chunk' hid lo hi = sliceLoHi chunk hid lo hi := by
  unfold sliceLoHi
  rw [hlen, List.take_append_eq_append_take, List.take_append_eq_append_take,
    List.drop_append_eq_append_drop, List.drop_append_eq_append_drop, h,
    List.length_take, List.length_take, hlen]

theorem same_facts (hid : List UInt8) {chunk chunk' : List UInt8}
    (h : SameButChecksums chunk chunk') :
    chunk.take 4 = chunk'.take 4 ∧
    ∀ L, L = leUint32 ((((chunk ++ hid).take 4).drop 1) ++ [0]) →
      (((chunk.headD 0).toNat ≠ 0x00 ∧ (chunk.headD 0).toNat ≠ 0x01) →
        chunk.take (4 + L) = chunk'.take (4 + L)) ∧
      (chunk.take (4 + L)).drop 8 = (chunk'.take (4 + L)).drop 8 ∧
      SameButChecksums (chunk.drop (4 + L)) (chunk'.drop (4 + L)) := by
  cases h with
  | refl v => exact ⟨rfl, fun L _ => ⟨fun _ => rfl, rfl, .refl _⟩⟩
  | frame k b1 b2 b3 c c' p t t' hc h4 hk hp hle hcut ht =>
    refine ⟨by simp, ?_⟩
    intro L hL
    have hL' : L = frameLen b1 b2 b3 := by
      rw [hL]
      simp [leUint32, frameLen]
    rw [← hL'] at hle hcut
    have hT : (c ++ p ++ t).take L = c ++ p := by
      by_cases h5 : c.length + p.length < L
      · rw [(hcut h5).1, List.append_nil]
        exact List.take_of_length_le (by simp only [List.length_append]; omega)
      · exact List.take_left' (by simp only [List.length_append]; omega)
    have hT' : (c' ++ p ++ t').take L = c' ++ p := by
      by_cases h5 : c.length + p.length < L
      · rw [(hcut h5).2, List.append_nil]
        exact List.take_of_length_le (by simp only [List.length_append]; omega)
      · exact List.take_left' (by simp only [List.length_append]; omega)
    have hD : SameButChecksums ((c ++ p ++ t).drop L) ((c' ++ p ++ t').drop L) := by
      by_cases h5 : c.length + p.length < L
      · rw [(hcut h5).1, (hcut h5).2, List.append_nil, List.append_nil,
          List.drop_of_length_le (by simp only [List.length_append]; omega),
          List.drop_of_length_le (by simp only [List.length_append]; omega)]
        exact .refl _
      · rw [List.drop_left' (by simp only [List.length_append]; omega),
          List.drop_left' (by simp only [List.length_append]; omega)]
        exact ht
    have hP : (c ++ p).drop 4 = (c' ++ p).drop 4 := by
      by_cases h5 : c.length < 4
      · rw [hp h5, List.append_nil, List.append_nil, List.drop_of_length_le (by omega),
          List.drop_of_length_le (by omega)]
      · rw [List.drop_left' (by omega), List.drop_left' (by omega)]
    simp only [Nat.add_comm 4 L, List.take_succ_cons, List.drop_succ_cons, hT, hT',
      List.headD_cons]
    refine ⟨?_, hP, hD⟩
    intro hne
    have hcc : c = c' := by
      by_contra hcc
      rcases hk hcc with h0 | h1
      · exact hne.1 h0
      · exact hne.2 h1
    rw [hcc]

theorem seen_eq {st st' : PassState} :
    st.seen = st'.seen ↔ st.nEnc = st'.nEnc ∧ st.nDec = st'.nDec ∧ st.decBuf = st'.decBuf ∧
      st.encBuf.N = st'.encBuf.N ∧ st.encBuf.data.length = st'.encBuf.data.length := by
  simp only [PassState.seen, Prod.mk.injEq]

theorem emit_same (st st' : PassState) (dec : List UInt8) (expected : Nat)
    (hs : st.seen = st'.seen) :
    (∃ s s', UnsnapOneFrame.emit st dec expected = .ok s ∧
        UnsnapOneFrame.emit st' dec expected = .ok s' ∧ s.seen = s'.seen) ∨
    (∃ f s s', UnsnapOneFrame.emit st dec expected = .error (f, s) ∧
        UnsnapOneFrame.emit st' dec expected = .error (f, s') ∧ s.seen = s'.seen) := by
  obtain ⟨h1, h2, h3, h4, h5⟩ := seen_eq.mp hs
  unfold UnsnapOneFrame.emit FixedSizeRingBuf.Write
  simp only [← h3, ← h2]
  by_cases c1 : min dec.length (st.decBuf.N - st.decBuf.data.length) ≠ dec.length
  · rw [if_pos c1, if_pos c1]
    exact Or.inr ⟨_, _, _, rfl, rfl, seen_eq.mpr ⟨h1, rfl, rfl, h4, h5⟩⟩
  · rw [if_neg c1, if_neg c1]
    by_cases c2 : min dec.length (st.decBuf.N - st.decBuf.data.length) ≠ expected
    · rw [if_pos c2, if_pos c2]
      exact Or.inr ⟨_, _, _, rfl, rfl, seen_eq.mpr ⟨h1, rfl, rfl, h4, h5⟩⟩
    · rw [if_neg c2, if_neg c2]
      exact Or.inl ⟨_, _, rfl, rfl, seen_eq.mpr ⟨h1, rfl, rfl, h4, h5⟩⟩

theorem advance_same {chunk chunk' : List UInt8} (st st' : PassState) (inc : Nat)
    (hE : chunk.length = chunk'.length)
    (hD : SameButChecksums (chunk.drop inc) (chunk'.drop inc)) (hs : st.seen = st'.seen) :
    (∃ c1 c2 s1 s2, UnsnapOneFrame.advance chunk st inc = .next c1 s1 ∧
        UnsnapOneFrame.advance chunk' st' inc = .next c2 s2 ∧
        SameButChecksums c1 c2 ∧ s1.seen = s2.seen) ∨
    (∃ f s1 s2, UnsnapOneFrame.advance chunk st inc = .abort f s1 ∧
        UnsnapOneFrame.advance chunk' st' inc = .abort f s2 ∧ s1.seen = s2.seen) := by
  obtain ⟨h1, h2, h3, h4, h5⟩ := seen_eq.mp hs
  unfold UnsnapOneFrame.advance sliceLo FixedSizeRingBuf.Advance
  rw [← hE, ← h5]
  by_cases c1 : inc ≤ chunk.length
  · rw [if_pos c1, if_pos c1]
    dsimp only
    by_cases c2 : inc ≤ st.encBuf.data.length
    · rw [if_pos c2, if_pos c2]
      refine Or.inl ⟨_, _, _, _, rfl, rfl, hD, seen_eq.mpr ⟨?_, h2, h3, h4, ?_⟩⟩
      · simp only [h1]
      · simp only [List.length_drop, h5]
    · rw [if_neg c2, if_neg c2]
      exact Or.inr ⟨_, _, _, rfl, rfl, hs⟩
  · rw [if_neg c1, if_neg c1]
    exact Or.inr ⟨_, _, _, rfl, rfl, hs⟩

theorem magic_len {chunk hid : List UInt8}
    (h : sliceLoHi chunk hid 0 snappyStreamHeaderSz = some streamMagic) :
    leUint32 ((((chunk ++ hid).take 4).drop 1) ++ [0]) = 6 := by
  unfold sliceLoHi at h
  split_ifs at h
  simp only [Option.some.injEq, List.drop_zero] at h
  have h4 : (chunk ++ hid).take 4 = streamMagic.take 4 := by
    rw [← h, List.take_take]
    rfl
  rw [h4]
  decide

theorem sliceLoHi_none_congr {chunk chunk' : List UInt8} (hid : List UInt8) (lo hi : Nat)
    (hE : chunk.length = chunk'.length) (h : sliceLoHi chunk hid lo hi = none) :
    sliceLoHi chunk' hid lo hi = none := by
  unfold sliceLoHi at h ⊢
  rw [← hE]
  split_ifs at h ⊢
  rfl

theorem body_same (decode : List UInt8 → Option (List UInt8)) (hid : List UInt8)
    {chunk chunk' : List UInt8} (st st' : PassState)
    (h : SameButChecksums chunk chunk') (hs : st.seen = st'.seen) :
    (∃ c1 c2 s1 s2, UnsnapOneFrame.body decode hid chunk st = .next c1 s1 ∧
        UnsnapOneFrame.body decode hid chunk' st' = .next c2 s2 ∧
        SameButChecksums c1 c2 ∧ s1.seen = s2.seen) ∨
    (∃ f s1 s2, UnsnapOneFrame.body decode hid chunk st = .abort f s1 ∧
        UnsnapOneFrame.body decode hid chunk' st' = .abort f s2 ∧ s1.seen = s2.seen) := by
  have hE := same_length h
  obtain ⟨hA, hF⟩ := same_facts hid h
  have e4 : (chunk' ++ hid).take 4 = (chunk ++ hid).take 4 := by
    rw [List.take_append_eq_append_take, List.take_append_eq_append_take, hA, hE]
  have e14 : sliceLoHi chunk' hid 1 4 = sliceLoHi chunk hid 1 4 :=
    slice_congr hid 1 4 hE (by rw [hA])
  have ehd : chunk'.headD 0 = chunk.headD 0 := by
    cases chunk with
    | nil =>
      cases chunk' with
      | nil => rfl
      | cons a l => simp at hE
    | cons a l =>
      cases chunk' with
      | nil => simp at hE
      | cons a' l' =>
        simp at hA
        simp [hA.1]
  obtain ⟨h1, h2, h3, h4, h5⟩ := seen_eq.mp hs
  unfold UnsnapOneFrame.body
  rw [e14, ehd]
  cases h14 : sliceLoHi chunk hid 1 4 with
  | none => exact Or.inr ⟨_, _, _, rfl, rfl, hs⟩
  | some lenBytes =>
    have hlb : lenBytes = ((chunk ++ hid).take 4).drop 1 := by
      unfold sliceLoHi at h14
      split_ifs at h14
      cases h14
      rfl
    dsimp only
    obtain ⟨hB, hC, hD⟩ := hF (leUint32 (lenBytes ++ [0])) (by rw [hlb])
    have hm : sliceLoHi chunk hid 0 snappyStreamHeaderSz = some streamMagic →
        leUint32 (lenBytes ++ [0]) = 6 := fun hh => by
      rw [hlb]
      exact magic_len hh
    have hm' : sliceLoHi chunk' hid 0 snappyStreamHeaderSz = some streamMagic →
        leUint32 (lenBytes ++ [0]) = 6 := fun hh => by
      rw [hlb, ← e4]
      exact magic_len hh
    generalize leUint32 (lenBytes ++ [0]) = L at hB hC hD hm hm' ⊢
    by_cases hff : (chunk.headD 0).toNat = 0xff
    · rw [if_pos hff, if_pos hff]
      have hBB := hB ⟨by omega, by omega⟩
      have e10 : L = 6 → sliceLoHi chunk' hid 0 snappyStreamHeaderSz =
          sliceLoHi chunk hid 0 snappyStreamHeaderSz := by
        intro h6
        subst h6
        exact slice_congr hid 0 10 hE (congrArg (List.drop 0) hBB)
      by_cases hmg : sliceLoHi chunk hid 0 snappyStreamHeaderSz = some streamMagic
      · have h6 := hm hmg
        rw [e10 h6, hmg]
        dsimp only
        rw [if_neg (by simp), if_neg (by simp)]
        subst h6
        have := advance_same st st' snappyStreamHeaderSz hE hD hs
        unfold UnsnapOneFrame.advance at this
        exact this
      · have hmg' : sliceLoHi chunk' hid 0 snappyStreamHeaderSz ≠ some streamMagic := by
          intro hh
          have h6 := hm' hh
          rw [e10 h6] at hh
          exact hmg hh
        cases ha : sliceLoHi chunk hid 0 snappyStreamHeaderSz with
        | none =>
          rw [sliceLoHi_none_congr hid _ _ hE ha]
          exact Or.inr ⟨_, _, _, rfl, rfl, hs⟩
        | some sh =>
          cases hb : sliceLoHi chunk' hid 0 snappyStreamHeaderSz with
          | none =>
            rw [sliceLoHi_none_congr hid _ _ hE.symm hb] at ha
            cases ha
          | some sh' =>
            dsimp only
            rw [if_pos (fun e => hmg (by rw [ha, e])), if_pos (fun e => hmg' (by rw [hb, e]))]
            exact Or.inr ⟨_, _, _, rfl, rfl, hs⟩
    · rw [if_neg hff, if_neg hff]
      have e8 : sliceLoHi chunk' hid (headerSz + crc32Sz) (headerSz + L) =
          sliceLoHi chunk hid (headerSz + crc32Sz) (headerSz + L) :=
        slice_congr hid _ _ hE hC
      by_cases h0 : (chunk.headD 0).toNat = 0x00
      · rw [if_pos h0, if_pos h0, e8]
        cases sliceLoHi chunk hid (headerSz + crc32Sz) (headerSz + L) with
        | none => exact Or.inr ⟨_, _, _, rfl, rfl, hs⟩
        | some sectn =>
          dsimp only
          cases decode sectn with
          | none => exact Or.inr ⟨_, _, _, rfl, rfl, hs⟩
          | some dec =>
            dsimp only
            rcases emit_same st st' dec dec.length hs with ⟨s, s', ha, hb, hss⟩ | ⟨f, s, s', ha, hb, hss⟩
            · rw [ha, hb]
              exact advance_same s s' (headerSz + L) hE hD hss
            · rw [ha, hb]
              exact Or.inr ⟨_, _, _, rfl, rfl, hss⟩
      · rw [if_neg h0, if_neg h0]
        by_cases h01 : (chunk.headD 0).toNat = 0x01
        · rw [if_pos h01, if_pos h01, e8]
          cases sliceLoHi chunk hid (headerSz + crc32Sz) (headerSz + L) with
          | none => exact Or.inr ⟨_, _, _, rfl, rfl, hs⟩
          | some sectn =>
            dsimp only
            rcases emit_same st st' sectn ((L + 4294967296 - crc32Sz) % 4294967296) hs with
              ⟨s, s', ha, hb, hss⟩ | ⟨f, s, s', ha, hb, hss⟩
            · rw [ha, hb]
              exact advance_same s s' (headerSz + L) hE hD hss
            · rw [ha, hb]
              exact Or.inr ⟨_, _, _, rfl, rfl, hss⟩
        · rw [if_neg h01, if_neg h01]
          by_cases hsk : (chunk.headD 0).toNat = 0xfe ∨
              (0x80 ≤ (chunk.headD 0).toNat ∧ (chunk.headD 0).toNat ≤ 0xfd)
          · rw [if_pos hsk, if_pos hsk]
            unfold sliceLo FixedSizeRingBuf.Advance
            rw [← hE, ← h5]
            by_cases c1 : headerSz + L ≤ chunk.length
            · rw [if_pos c1, if_pos c1]
              dsimp only
              by_cases c2 : headerSz + L ≤ st.encBuf.data.length
              · rw [if_pos c2, if_pos c2]
                refine Or.inl ⟨_, _, _, _, rfl, rfl, hD, seen_eq.mpr ⟨?_, h2, h3, h4, ?_⟩⟩
                · simp only [h1]
                · simp only [List.length_drop, h5]
              · rw [if_neg c2, if_neg c2]
                refine Or.inr ⟨_, _, _, rfl, rfl, seen_eq.mpr ⟨?_, h2, h3, h4, h5⟩⟩
                simp only [h1]
            · rw [if_neg c1, if_neg c1]
              exact Or.inr ⟨_, _, _, rfl, rfl, hs⟩
          · rw [if_neg hsk, if_neg hsk]
            exact Or.inr ⟨_, _, _, rfl, rfl, hs⟩

theorem batch_same (decode : List UInt8 → Option (List UInt8)) (hid : List UInt8)
    {chunk chunk' : List UInt8} (w : List UInt8) (h : SameButChecksums chunk chunk') :
    (∃ c1 c2 w1, Unsnappy.body decode hid chunk w = .next c1 w1 ∧
        Unsnappy.body decode hid chunk' w = .next c2 w1 ∧ SameButChecksums c1 c2) ∨
    (∃ f w1, Unsnappy.body decode hid chunk w = .abort f w1 ∧
        Unsnappy.body decode hid chunk' w = .abort f w1) := by
  have hE := same_length h
  obtain ⟨hA, hF⟩ := same_facts hid h
  have e4 : (chunk' ++ hid).take 4 = (chunk ++ hid).take 4 := by
    rw [List.take_append_eq_append_take, List.take_append_eq_append_take, hA, hE]
  have e14 : sliceLoHi chunk' hid 1 4 = sliceLoHi chunk hid 1 4 :=
    slice_congr hid 1 4 hE (by rw [hA])
  have ehd : chunk'.headD 0 = chunk.headD 0 := by
    cases chunk with
    | nil =>
      cases chunk' with
      | nil => rfl
      | cons a l => simp at hE
    | cons a l =>
      cases chunk' with
      | nil => simp at hE
      | cons a' l' =>
        simp at hA
        simp [hA.1]
  have hlo : ∀ inc, SameButChecksums (chunk.drop inc) (chunk'.drop inc) →
      (∃ c1 c2, sliceLo chunk inc = some c1 ∧ sliceLo chunk' inc = some c2 ∧
        SameButChecksums c1 c2) ∨
      (sliceLo chunk inc = none ∧ sliceLo chunk' inc = none) := by
    intro inc hD
    unfold sliceLo
    rw [← hE]
    by_cases c1 : inc ≤ chunk.length
    · rw [if_pos c1, if_pos c1]
      exact Or.inl ⟨_, _, rfl, rfl, hD⟩
    · rw [if_neg c1, if_neg c1]
      exact Or.inr ⟨rfl, rfl⟩
  unfold Unsnappy.body
  rw [e14, ehd]
  cases h14 : sliceLoHi chunk hid 1 4 with
  | none => exact Or.inr ⟨_, _, rfl, rfl⟩
  | some lenBytes =>
    have hlb : lenBytes = ((chunk ++ hid).take 4).drop 1 := by
      unfold sliceLoHi at h14
      split_ifs at h14
      cases h14
      rfl
    dsimp only
    obtain ⟨hB, hC, hD⟩ := hF (leUint32 (lenBytes ++ [0])) (by rw [hlb])
    have hm : sliceLoHi chunk hid 0 snappyStreamHeaderSz = some streamMagic →
        leUint32 (lenBytes ++ [0]) = 6 := fun hh => by
      rw [hlb]
      exact magic_len hh
    have hm' : sliceLoHi chunk' hid 0 snappyStreamHeaderSz = some streamMagic →
        leUint32 (lenBytes ++ [0]) = 6 := fun hh => by
      rw [hlb, ← e4]
      exact magic_len hh
    generalize leUint32 (lenBytes ++ [0]) = L at hB hC hD hm hm' ⊢
    by_cases hff : (chunk.headD 0).toNat = 0xff
    · rw [if_pos hff, if_pos hff]
      have hBB := hB ⟨by omega, by omega⟩
      have e10 : L = 6 → sliceLoHi chunk' hid 0 snappyStreamHeaderSz =
          sliceLoHi chunk hid 0 snappyStreamHeaderSz := by
        intro h6
        subst h6
        exact slice_congr hid 0 10 hE (congrArg (List.drop 0) hBB)
      by_cases hmg : sliceLoHi chunk hid 0 snappyStreamHeaderSz = some streamMagic
      · have h6 := hm hmg
        rw [e10 h6, hmg]
        dsimp only
        rw [if_neg (by simp), if_neg (by simp)]
        subst h6
        rcases hlo snappyStreamHeaderSz hD with ⟨c1, c2, ha, hb, hcc⟩ | ⟨ha, hb⟩
        · rw [ha, hb]
          exact Or.inl ⟨_, _, _, rfl, rfl, hcc⟩
        · rw [ha, hb]
          exact Or.inr ⟨_, _, rfl, rfl⟩
      · have hmg' : sliceLoHi chunk' hid 0 snappyStreamHeaderSz ≠ some streamMagic := by
          intro hh
          have h6 := hm' hh
          rw [e10 h6] at hh
          exact hmg hh
        cases ha : sliceLoHi chunk hid 0 snappyStreamHeaderSz with
        | none =>
          rw [sliceLoHi_none_congr hid _ _ hE ha]
          exact Or.inr ⟨_, _, rfl, rfl⟩
        | some sh =>
          cases hb : sliceLoHi chunk' hid 0 snappyStreamHeaderSz with
          | none =>
            rw [sliceLoHi_none_congr hid _ _ hE.symm hb] at ha
            cases ha
          | some sh' =>
            dsimp only
            rw [if_pos (fun e => hmg (by rw [ha, e])), if_pos (fun e => hmg' (by rw [hb, e]))]
            exact Or.inr ⟨_, _, rfl, rfl⟩
    · rw [if_neg hff, if_neg hff]
      have e8 : sliceLoHi chunk' hid (headerSz + crc32Sz) (headerSz + L) =
          sliceLoHi chunk hid (headerSz + crc32Sz) (headerSz + L) :=
        slice_congr hid _ _ hE hC
      by_cases h0 : (chunk.headD 0).toNat = 0x00
      · rw [if_pos h0, if_pos h0, e8]
        cases sliceLoHi chunk hid (headerSz + crc32Sz) (headerSz + L) with
        | none => exact Or.inr ⟨_, _, rfl, rfl⟩
        | some sectn =>
          dsimp only
          cases decode sectn with
          | none => exact Or.inr ⟨_, _, rfl, rfl⟩
          | some dec =>
            dsimp only
            rcases hlo (headerSz + L) hD with ⟨c1, c2, ha, hb, hcc⟩ | ⟨ha, hb⟩
            · rw [ha, hb]
              exact Or.inl ⟨_, _, _, rfl, rfl, hcc⟩
            · rw [ha, hb]
              exact Or.inr ⟨_, _, rfl, rfl⟩
      · rw [if_neg h0, if_neg h0]
        by_cases h01 : (chunk.headD 0).toNat = 0x01
        · rw [if_pos h01, if_pos h01, e8]
          cases sliceLoHi chunk hid (headerSz + crc32Sz) (headerSz + L) with
          | none => exact Or.inr ⟨_, _, rfl, rfl⟩
          | some sectn =>
            dsimp only
            by_cases hsz : sectn.length ≠ (L + 4294967296 - crc32Sz) % 4294967296
            · rw [if_pos hsz, if_pos hsz]
              exact Or.inr ⟨_, _, rfl, rfl⟩
            · rw [if_neg hsz, if_neg hsz]
              rcases hlo (headerSz + L) hD with ⟨c1, c2, ha, hb, hcc⟩ | ⟨ha, hb⟩
              · rw [ha, hb]
                exact Or.inl ⟨_, _, _, rfl, rfl, hcc⟩
              · rw [ha, hb]
                exact Or.inr ⟨_, _, rfl, rfl⟩
        · rw [if_neg h01, if_neg h01]
          by_cases hsk : (chunk.headD 0).toNat = 0xfe ∨
              (0x80 ≤ (chunk.headD 0).toNat ∧ (chunk.headD 0).toNat ≤ 0xfd)
          · rw [if_pos hsk, if_pos hsk]
            rcases hlo (headerSz + L) hD with ⟨c1, c2, ha, hb, hcc⟩ | ⟨ha, hb⟩
            · rw [ha, hb]
              exact Or.inl ⟨_, _, _, rfl, rfl, hcc⟩
            · rw [ha, hb]
              exact Or.inr ⟨_, _, rfl, rfl⟩
          · rw [if_neg hsk, if_neg hsk]
            exact Or.inr ⟨_, _, rfl, rfl⟩

theorem loop_same (decode : List UInt8 → Option (List UInt8)) (hid r r' : List UInt8)
    (hr : r.length = r'.length) :
    ∀ (fuel : Nat) (chunk chunk' : List UInt8) (st st' : PassState),
      SameButChecksums chunk chunk' → st.seen = st'.seen →
      (UnsnapOneFrame.loop decode hid r fuel chunk st).behaviour =
        (UnsnapOneFrame.loop decode hid r' fuel chunk' st').behaviour := by
  intro fuel
  induction fuel with
  | zero =>
    intro chunk chunk' st st' h hs
    have hE := same_length h
    obtain ⟨h1, h2, h3, h4, h5⟩ := seen_eq.mp hs
    unfold UnsnapOneFrame.loop
    rw [← hE, ← h2]
    split_ifs <;> simp [Outcome.behaviour, hs, hr]
  | succ n ih =>
    intro chunk chunk' st st' h hs
    have hE := same_length h
    obtain ⟨h1, h2, h3, h4, h5⟩ := seen_eq.mp hs
    unfold UnsnapOneFrame.loop
    rw [← hE, ← h2]
    by_cases c1 : 65536 ≤ st.nDec
    · rw [if_pos c1, if_pos c1]
      simp [Outcome.behaviour, hs, hr]
    · rw [if_neg c1, if_neg c1]
      by_cases c2 : chunk.length = 0
      · rw [if_pos c2, if_pos c2]
        simp [Outcome.behaviour, hs, hr]
      · rw [if_neg c2, if_neg c2]
        rcases body_same decode hid st st' h hs with
          ⟨c1, c2, s1, s2, ha, hb, hcc, hss⟩ | ⟨f, s1, s2, ha, hb, hss⟩
        · rw [ha, hb]
          exact ih c1 c2 s1 s2 hcc hss
        · rw [ha, hb]
          simp [Outcome.behaviour, hss, hr]

theorem batch_loop_same (decode : List UInt8 → Option (List UInt8)) (hid : List UInt8) :
    ∀ (fuel : Nat) (chunk chunk' w : List UInt8), SameButChecksums chunk chunk' →
      Unsnappy.loop decode hid fuel chunk w = Unsnappy.loop decode hid fuel chunk' w := by
  intro fuel
  induction fuel with
  | zero =>
    intro chunk chunk' w h
    unfold Unsnappy.loop
    rw [← same_length h]
  | succ n ih =>
    intro chunk chunk' w h
    unfold Unsnappy.loop
    rw [← same_length h]
    by_cases c2 : chunk.length = 0
    · rw [if_pos c2, if_pos c2]
    · rw [if_neg c2, if_neg c2]
      rcases batch_same decode hid w h with ⟨c1, c2, w1, ha, hb, hcc⟩ | ⟨f, w1, ha, hb⟩
      · rw [ha, hb]
        exact ih c1 c2 w1 hcc
      · rw [ha, hb]

theorem pass_same (decode : List UInt8 → Option (List UInt8)) (hid r r' : List UInt8)
    (encBuf outDecodedBuf : FixedSizeRingBuf)
    (h : SameButChecksums (encBuf.data ++ r) (encBuf.data ++ r')) :
    (UnsnapOneFrame decode hid r encBuf outDecodedBuf).behaviour =
      (UnsnapOneFrame decode hid r' encBuf outDecodedBuf).behaviour := by
  have hr : r.length = r'.length := by
    have := same_length h
    simp only [List.length_append] at this
    omega
  have hv := same_take h
    (encBuf.data.length + min 65536 (min (encBuf.N - encBuf.data.length) r.length))
  rw [List.take_append, List.take_append] at hv
  have hl : ∀ k, (r.take k).length = (r'.take k).length := by
    intro k
    rw [List.length_take, List.length_take, hr]
  have hd : ∀ k, (r.drop k).length = (r'.drop k).length := by
    intro k
    rw [List.length_drop, List.length_drop, hr]
  unfold UnsnapOneFrame copyN
  simp only [FixedSizeRingBuf.Readable, FixedSizeRingBuf.Bytes, List.length_append, ← hr, ← hl]
  split_ifs
  · simp [Outcome.behaviour, PassState.seen, hl, hd]
  · exact loop_same decode hid _ _ (hd _) _ _ _ _ _ hv
      (by simp [PassState.seen, hl])

theorem pass_fuel (decode : List UInt8 → Option (List UInt8)) (hid r : List UInt8)
    (encBuf outDecodedBuf : FixedSizeRingBuf) :
    UnsnapOneFrame decode hid r encBuf outDecodedBuf ≠ .outOfFuel := by
  rcases pass_cases decode hid r encBuf outDecodedBuf with hp | hp
  · rw [hp]
    simp
  · rw [hp]
    exact loop_fuel decode hid (copyN encBuf r 65536).2.1 (copyN encBuf r 65536).1.data.length
      (copyN encBuf r 65536).1.data
      ⟨(copyN encBuf r 65536).1, outDecodedBuf, (copyN encBuf r 65536).2.2.1, 0⟩ rfl (by omega)

theorem same_hello :
    SameButChecksums (helloFrame 0x01 0x02 0x03 0x04) (helloFrame 0x05 0x06 0x07 0x08) :=
  .frame 0x01 0x09 0x00 0x00 [0x01, 0x02, 0x03, 0x04] [0x05, 0x06, 0x07, 0x08] hello [] []
    rfl (by decide) (fun _ => Or.inr (by decide)) (by decide) (by decide) (by decide)
    (.refl [])

theorem same_after_magic {t t' : List UInt8} (h : SameButChecksums t t') :
    SameButChecksums (streamMagic ++ t) (streamMagic ++ t') :=
  .frame 0xff 0x06 0x00 0x00 [0x73, 0x4e, 0x61, 0x50] [0x73, 0x4e, 0x61, 0x50] [0x70, 0x59]
    t t' rfl (by decide) (fun h => absurd rfl h) (by decide) (by decide)
    (fun hlt => absurd hlt (by decide)) h

/-- C15: let two sources `r` and `r'` be identical except in the four checksum bytes
(frame offsets 4..8) of the frames of kind `0x00` and `0x01`, the frames being counted
from the first byte that `UnsnapOneFrame` parses (the encoded buffer's unread bytes come
first), and let `b` and `b'` be two inputs of `Unsnappy` that are identical in the same
sense.  Then `UnsnapOneFrame` behaves identically on `r` and `r'`: the same return or the
same failure, the same `io.EOF` flag, the same `nEnc` and `nDec`, the same decoded buffer,
and as many bytes left in the encoded buffer and in the source.  `Unsnappy` gives the same
result or failure and the same output on `b` and `b'`.  Both calls end. -/
theorem C15_checksum_not_enforced (decode : List UInt8 → Option (List UInt8))
    (hid hidB r r' b b' : List UInt8) (encBuf outDecodedBuf : FixedSizeRingBuf)
    (hr : SameButChecksums (encBuf.data ++ r) (encBuf.data ++ r'))
    (hb : SameButChecksums b b') :
    (UnsnapOneFrame decode hid r encBuf outDecodedBuf).behaviour =
      (UnsnapOneFrame decode hid r' encBuf outDecodedBuf).behaviour ∧
    Unsnappy decode hidB b = Unsnappy decode hidB b' ∧
    UnsnapOneFrame decode hid r encBuf outDecodedBuf ≠ .outOfFuel ∧
    Unsnappy decode hidB b ≠ .outOfFuel := by
  refine ⟨pass_same decode hid r r' encBuf outDecodedBuf hr, ?_,
    pass_fuel decode hid r encBuf outDecodedBuf,
    batch_loop_fuel decode hidB b.length b [] (by omega)⟩
  unfold Unsnappy
  rw [← same_length hb]
  exact batch_loop_same decode hidB b.length b b' [] hb

theorem C15_checksum_not_enforced_witness :
    SameButChecksums (helloFrame 0x01 0x02 0x03 0x04) (helloFrame 0x05 0x06 0x07 0x08) ∧
    (UnsnapOneFrame (fun _ => none) [] (helloFrame 0x01 0x02 0x03 0x04)
        (NewFixedSizeRingBuf 65536) (NewFixedSizeRingBuf (65536 * 2))).behaviour =
      some (none, false, (26, 5, ⟨131072, hello⟩, 65536, 0), 0) ∧
    ((UnsnapOneFrame (fun _ => none) [] (helloFrame 0x01 0x02 0x03 0x04)
        (NewFixedSizeRingBuf 65536) (NewFixedSizeRingBuf (65536 * 2))).behaviour =
      (UnsnapOneFrame (fun _ => none) [] (helloFrame 0x05 0x06 0x07 0x08)
        (NewFixedSizeRingBuf 65536) (NewFixedSizeRingBuf (65536 * 2))).behaviour ∧
    Unsnappy (fun _ => none) [] (helloFrame 0x01 0x02 0x03 0x04) =
      Unsnappy (fun _ => none) [] (helloFrame 0x05 0x06 0x07 0x08) ∧
    UnsnapOneFrame (fun _ => none) [] (helloFrame 0x01 0x02 0x03 0x04)
        (NewFixedSizeRingBuf 65536) (NewFixedSizeRingBuf (65536 * 2)) ≠ .outOfFuel ∧
    Unsnappy (fun _ => none) [] (helloFrame 0x01 0x02 0x03 0x04) ≠ .outOfFuel) :=
  ⟨same_hello, by rw [pass_hello_frame]; rfl,
    C15_checksum_not_enforced (fun _ => none) [] []
      (helloFrame 0x01 0x02 0x03 0x04) (helloFrame 0x05 0x06 0x07 0x08)
      (helloFrame 0x01 0x02 0x03 0x04) (helloFrame 0x05 0x06 0x07 0x08)
      (NewFixedSizeRingBuf 65536) (NewFixedSizeRingBuf (65536 * 2)) same_hello same_hello⟩

/-! ## A compressed frame with a block of 65536 zero bytes -/

theorem copyRun_length (n : Nat) : (copyRun n).length = 3 * n := by
  induction n with
  | zero => rfl
  | succ n ih =>
    simp only [copyRun, List.length_cons, ih]
    omega

theorem zerosBlock_length : zerosBlock.length = 3077 := by
  simp only [zerosBlock, List.length_append, copyRun_length, List.length_cons, List.length_nil]

theorem decodeZeros_block : decodeZeros zerosBlock = some (zeros 65536) := by
  unfold decodeZeros
  rw [if_pos rfl]

theorem block_payload (c0 c1 c2 c3 : UInt8) (blk tail : List UInt8) (L : Nat)
    (hL : L = 4 + blk.length) :
    ((c0 :: c1 :: c2 :: c3 :: (blk ++ tail)).take L).drop 4 = blk ∧
    (c0 :: c1 :: c2 :: c3 :: (blk ++ tail)).drop L = tail := by
  subst hL
  rw [Nat.add_comm 4 blk.length]
  simp only [List.take_succ_cons, List.drop_succ_cons, List.drop_zero]
  exact ⟨List.take_left' rfl, List.drop_left' rfl⟩

theorem body_block (decode : List UInt8 → Option (List UInt8)) (hid : List UInt8)
    (b1 b2 b3 c0 c1 c2 c3 : UInt8) (blk tail out : List UInt8) (st : PassState)
    (hL : frameLen b1 b2 b3 = 4 + blk.length) (hd : decode blk = some out)
    (hroom : out.length ≤ st.decBuf.N - st.decBuf.data.length)
    (hview : st.encBuf.data = 0x00 :: b1 :: b2 :: b3 :: c0 :: c1 :: c2 :: c3 :: (blk ++ tail)) :
    UnsnapOneFrame.body decode hid
        (0x00 :: b1 :: b2 :: b3 :: c0 :: c1 :: c2 :: c3 :: (blk ++ tail)) st =
      .next tail ⟨⟨st.encBuf.N, tail⟩, ⟨st.decBuf.N, st.decBuf.data ++ out⟩,
        st.nEnc + (8 + blk.length), st.nDec + out.length⟩ := by
  obtain ⟨hp, hdr⟩ := block_payload c0 c1 c2 c3 blk tail (frameLen b1 b2 b3) hL
  have := body_compressed decode hid 0x00 b1 b2 b3 (c0 :: c1 :: c2 :: c3 :: (blk ++ tail)) out st
    rfl (by omega)
    (by simp only [List.length_cons, List.length_append]; omega)
    (by rw [hp]; exact hd) hroom hview
  rw [this, hdr, hL]
  have e : st.nEnc + (4 + (4 + blk.length)) = st.nEnc + (8 + blk.length) := by omega
  rw [e]

theorem batch_block (decode : List UInt8 → Option (List UInt8)) (hid : List UInt8)
    (b1 b2 b3 c0 c1 c2 c3 : UInt8) (blk tail out w : List UInt8)
    (hL : frameLen b1 b2 b3 = 4 + blk.length) (hd : decode blk = some out) :
    Unsnappy.body decode hid
        (0x00 :: b1 :: b2 :: b3 :: c0 :: c1 :: c2 :: c3 :: (blk ++ tail)) w =
      .next tail (w ++ out) := by
  obtain ⟨hp, hdr⟩ := block_payload c0 c1 c2 c3 blk tail (frameLen b1 b2 b3) hL
  have := batch_compressed decode hid 0x00 b1 b2 b3 (c0 :: c1 :: c2 :: c3 :: (blk ++ tail)) out w
    rfl (by omega)
    (by simp only [List.length_cons, List.length_append]; omega)
    (by rw [hp]; exact hd)
  rw [this, hdr]

theorem pass_hello_then_block (decode : List UInt8 → Option (List UInt8))
    (hid blk out : List UInt8) (hb : blk.length = 3077) (hd : decode blk = some out)
    (ho : out.length = 65536) :
    UnsnapOneFrame decode hid
        (streamMagic ++ (helloFrame 0x00 0x00 0x00 0x00 ++
          ([0x00, 0x09, 0x0c, 0x00, 0x00, 0x00, 0x00, 0x00] ++ blk)))
        (NewFixedSizeRingBuf 65536) (NewFixedSizeRingBuf (65536 * 2)) =
      .ret ⟨⟨65536, []⟩, ⟨131072, hello ++ out⟩, 6216, 65541⟩ [] false := by
  have h9 : frameLen 0x09 0x00 0x00 = 9 := by decide
  have hL : frameLen 0x09 0x0c 0x00 = 4 + blk.length := by
    rw [hb]
    decide
  have e1 : UnsnapOneFrame.body decode hid
      (streamMagic ++ (helloFrame 0x00 0x00 0x00 0x00 ++
        ([0x00, 0x09, 0x0c, 0x00, 0x00, 0x00, 0x00, 0x00] ++ blk)))
      ⟨⟨65536, streamMagic ++ (helloFrame 0x00 0x00 0x00 0x00 ++
          ([0x00, 0x09, 0x0c, 0x00, 0x00, 0x00, 0x00, 0x00] ++ blk))⟩,
        NewFixedSizeRingBuf (65536 * 2),
        (streamMagic ++ (helloFrame 0x00 0x00 0x00 0x00 ++
          ([0x00, 0x09, 0x0c, 0x00, 0x00, 0x00, 0x00, 0x00] ++ blk))).length, 0⟩ =
      .next (helloFrame 0x00 0x00 0x00 0x00 ++
          ([0x00, 0x09, 0x0c, 0x00, 0x00, 0x00, 0x00, 0x00] ++ blk))
        ⟨⟨65536, helloFrame 0x00 0x00 0x00 0x00 ++
          ([0x00, 0x09, 0x0c, 0x00, 0x00, 0x00, 0x00, 0x00] ++ blk)⟩, ⟨131072, []⟩, 3118, 0⟩ := by
    simpa [NewFixedSizeRingBuf, streamMagic, helloFrame, hb] using
      body_ident decode hid (helloFrame 0x00 0x00 0x00 0x00 ++
          ([0x00, 0x09, 0x0c, 0x00, 0x00, 0x00, 0x00, 0x00] ++ blk))
        ⟨⟨65536, streamMagic ++ (helloFrame 0x00 0x00 0x00 0x00 ++
          ([0x00, 0x09, 0x0c, 0x00, 0x00, 0x00, 0x00, 0x00] ++ blk))⟩, ⟨131072, []⟩, 3108, 0⟩ rfl
  have e2 : UnsnapOneFrame.body decode hid
      (helloFrame 0x00 0x00 0x00 0x00 ++ ([0x00, 0x09, 0x0c, 0x00, 0x00, 0x00, 0x00, 0x00] ++ blk))
      ⟨⟨65536, helloFrame 0x00 0x00 0x00 0x00 ++
          ([0x00, 0x09, 0x0c, 0x00, 0x00, 0x00, 0x00, 0x00] ++ blk)⟩, ⟨131072, []⟩, 3118, 0⟩ =
      .next ([0x00, 0x09, 0x0c, 0x00, 0x00, 0x00, 0x00, 0x00] ++ blk)
        ⟨⟨65536, [0x00, 0x09, 0x0c, 0x00, 0x00, 0x00, 0x00, 0x00] ++ blk⟩, ⟨131072, hello⟩,
          3131, 5⟩ := by
    have := body_uncompressed decode hid 0x01 0x09 0x00 0x00
      ([0x00, 0x00, 0x00, 0x00, 0x68, 0x65, 0x6c, 0x6c, 0x6f] ++
        ([0x00, 0x09, 0x0c, 0x00, 0x00, 0x00, 0x00, 0x00] ++ blk))
      ⟨⟨65536, helloFrame 0x00 0x00 0x00 0x00 ++
          ([0x00, 0x09, 0x0c, 0x00, 0x00, 0x00, 0x00, 0x00] ++ blk)⟩, ⟨131072, []⟩, 3118, 0⟩
      rfl (by decide) (by rw [h9]; simp) (by rw [h9]; simp) rfl
    simpa [h9, helloFrame, hello] using this
  have e3 : UnsnapOneFrame.body decode hid
      ([0x00, 0x09, 0x0c, 0x00, 0x00, 0x00, 0x00, 0x00] ++ blk)
      ⟨⟨65536, [0x00, 0x09, 0x0c, 0x00, 0x00, 0x00, 0x00, 0x00] ++ blk⟩, ⟨131072, hello⟩,
        3131, 5⟩ =
      .next [] ⟨⟨65536, []⟩, ⟨131072, hello ++ out⟩, 6216, 65541⟩ := by
    have := body_block decode hid 0x09 0x0c 0x00 0x00 0x00 0x00 0x00 blk [] out
      ⟨⟨65536, [0x00, 0x09, 0x0c, 0x00, 0x00, 0x00, 0x00, 0x00] ++ blk⟩, ⟨131072, hello⟩,
        3131, 5⟩ hL hd (by rw [ho]; simp [hello]) (by simp)
    simpa [hb, ho] using this
  rw [pass_fresh_short _ hid _ _ (by simp [streamMagic]) (by simp [streamMagic, helloFrame, hb]),
    loop_next_pos _ hid _ _ _ _ _ _ (by simp [streamMagic]) (by simp) (by simp [streamMagic]) e1,
    loop_next_pos _ hid _ _ _ _ _ _ (by simp [streamMagic, helloFrame]) (by simp)
      (by simp [helloFrame]) e2,
    loop_next_pos _ hid _ _ _ _ _ _ (by simp [streamMagic, helloFrame, hb]) (by simp)
      (by simp) e3,
    loop_done _ hid _ _ _ _ (Or.inr rfl)]

theorem pass_zeros_then_unsupported (decode : List UInt8 → Option (List UInt8))
    (hid blk out : List UInt8) (hb : blk.length = 3077) (hd : decode blk = some out)
    (ho : out.length = 65536) :
    UnsnapOneFrame decode hid
        (streamMagic ++ (([0x00, 0x09, 0x0c, 0x00, 0x00, 0x00, 0x00, 0x00] ++ blk) ++
          [0x02, 0x00, 0x00, 0x00]))
        (NewFixedSizeRingBuf 65536) (NewFixedSizeRingBuf (65536 * 2)) =
      .ret ⟨⟨65536, [0x02, 0x00, 0x00, 0x00]⟩, ⟨131072, out⟩, 6194, 65536⟩ [] false := by
  have hL : frameLen 0x09 0x0c 0x00 = 4 + blk.length := by
    rw [hb]
    decide
  have e1 : UnsnapOneFrame.body decode hid
      (streamMagic ++ (([0x00, 0x09, 0x0c, 0x00, 0x00, 0x00, 0x00, 0x00] ++ blk) ++
        [0x02, 0x00, 0x00, 0x00]))
      ⟨⟨65536, streamMagic ++ (([0x00, 0x09, 0x0c, 0x00, 0x00, 0x00, 0x00, 0x00] ++ blk) ++
          [0x02, 0x00, 0x00, 0x00])⟩,
        NewFixedSizeRingBuf (65536 * 2),
        (streamMagic ++ (([0x00, 0x09, 0x0c, 0x00, 0x00, 0x00, 0x00, 0x00] ++ blk) ++
          [0x02, 0x00, 0x00, 0x00])).length, 0⟩ =
      .next (([0x00, 0x09, 0x0c, 0x00, 0x00, 0x00, 0x00, 0x00] ++ blk) ++
          [0x02, 0x00, 0x00, 0x00])
        ⟨⟨65536, ([0x00, 0x09, 0x0c, 0x00, 0x00, 0x00, 0x00, 0x00] ++ blk) ++
          [0x02, 0x00, 0x00, 0x00]⟩, ⟨131072, []⟩, 3109, 0⟩ := by
    simpa [NewFixedSizeRingBuf, streamMagic, hb] using
      body_ident decode hid (([0x00, 0x09, 0x0c, 0x00, 0x00, 0x00, 0x00, 0x00] ++ blk) ++
          [0x02, 0x00, 0x00, 0x00])
        ⟨⟨65536, streamMagic ++ (([0x00, 0x09, 0x0c, 0x00, 0x00, 0x00, 0x00, 0x00] ++ blk) ++
          [0x02, 0x00, 0x00, 0x00])⟩, ⟨131072, []⟩, 3099, 0⟩ rfl
  have e2 : UnsnapOneFrame.body decode hid
      (([0x00, 0x09, 0x0c, 0x00, 0x00, 0x00, 0x00, 0x00] ++ blk) ++ [0x02, 0x00, 0x00, 0x00])
      ⟨⟨65536, ([0x00, 0x09, 0x0c, 0x00, 0x00, 0x00, 0x00, 0x00] ++ blk) ++
          [0x02, 0x00, 0x00, 0x00]⟩, ⟨131072, []⟩, 3109, 0⟩ =
      .next [0x02, 0x00, 0x00, 0x00]
        ⟨⟨65536, [0x02, 0x00, 0x00, 0x00]⟩, ⟨131072, out⟩, 6194, 65536⟩ := by
    have := body_block decode hid 0x09 0x0c 0x00 0x00 0x00 0x00 0x00 blk
      [0x02, 0x00, 0x00, 0x00] out
      ⟨⟨65536, ([0x00, 0x09, 0x0c, 0x00, 0x00, 0x00, 0x00, 0x00] ++ blk) ++
          [0x02, 0x00, 0x00, 0x00]⟩, ⟨131072, []⟩, 3109, 0⟩ hL hd (by rw [ho]; simp)
      (by simp)
    simpa [hb, ho] using this
  rw [pass_fresh_short _ hid _ _ (by simp [streamMagic]) (by simp [streamMagic, hb]),
    loop_next_pos _ hid _ _ _ _ _ _ (by simp [streamMagic]) (by simp) (by simp [streamMagic]) e1,
    loop_next_pos _ hid _ _ _ _ _ _ (by simp [streamMagic, hb]) (by simp) (by simp) e2,
    loop_done _ hid _ _ _ _ (Or.inl (Nat.le_refl _))]

theorem batch_zeros_then_unsupported (decode : List UInt8 → Option (List UInt8))
    (hid blk out : List UInt8) (hb : blk.length = 3077) (hd : decode blk = some out) :
    Unsnappy decode hid
        (streamMagic ++ (([0x00, 0x09, 0x0c, 0x00, 0x00, 0x00, 0x00, 0x00] ++ blk) ++
          [0x02, 0x00, 0x00, 0x00])) =
      .abort .unsupportedChunk out := by
  have hL : frameLen 0x09 0x0c 0x00 = 4 + blk.length := by
    rw [hb]
    decide
  have e1 := batch_ident decode hid
    (([0x00, 0x09, 0x0c, 0x00, 0x00, 0x00, 0x00, 0x00] ++ blk) ++ [0x02, 0x00, 0x00, 0x00]) []
  have e2 : Unsnappy.body decode hid
      (([0x00, 0x09, 0x0c, 0x00, 0x00, 0x00, 0x00, 0x00] ++ blk) ++ [0x02, 0x00, 0x00, 0x00])
      [] = .next [0x02, 0x00, 0x00, 0x00] out := by
    have := batch_block decode hid 0x09 0x0c 0x00 0x00 0x00 0x00 0x00 blk
      [0x02, 0x00, 0x00, 0x00] out [] hL hd
    simpa using this
  have e3 : Unsnappy.body decode hid [0x02, 0x00, 0x00, 0x00] out =
      .abort .unsupportedChunk out :=
    batch_unsupported _ hid _ out (by simp) (by decide)
  unfold Unsnappy
  rw [batch_loop_next_pos _ hid _ _ _ _ _ (by simp [streamMagic]) (by simp [streamMagic]) e1,
    batch_loop_next_pos _ hid _ _ _ _ _ (by simp [streamMagic, hb]) (by simp) e2]
  exact batch_loop_abort _ hid _ _ _ _ _ (by simp) e3

/-! ## C11 and C14: inputs with a block that decodes to 65536 bytes -/

theorem helloThenZeros_length : helloThenZeros.length = 3108 := by
  simp only [helloThenZeros, zerosFrame, helloFrame, streamMagic, List.length_append,
    zerosBlock_length, List.length_cons, List.length_nil]

theorem zerosThenUnsupported_length : zerosThenUnsupported.length = 3099 := by
  simp only [zerosThenUnsupported, zerosFrame, streamMagic, List.length_append,
    zerosBlock_length, List.length_cons, List.length_nil]

/-- C11 (counterexample): the identifier frame, the uncompressed frame of `hello` and a
compressed frame whose block is the snappy encoding of 65536 zero bytes (3108 bytes in
all).  The budget is tested before each frame only: after `hello` the call has `nDec = 5`,
so it decodes the block too and returns `nDec = 65541`. -/
theorem C11_pass_decodes_65541_bytes :
    helloThenZeros.length = 3108 ∧
    decodeZeros zerosBlock = some (zeros 65536) ∧
    UnsnapOneFrame decodeZeros [] helloThenZeros
        (NewFixedSizeRingBuf 65536) (NewFixedSizeRingBuf (65536 * 2)) =
      .ret ⟨⟨65536, []⟩, ⟨131072, hello ++ zeros 65536⟩, 6216, 65541⟩ [] false :=
  ⟨helloThenZeros_length, decodeZeros_block,
    pass_hello_then_block decodeZeros [] zerosBlock (zeros 65536) zerosBlock_length
      decodeZeros_block (zeros_length 65536)⟩

/-- C14 (counterexample): the identifier frame, a compressed frame whose block is the
snappy encoding of 65536 zero bytes, and a frame of the unsupported kind `0x02` (3099
bytes in all).  `Unsnappy` fails on the third frame.  One call of `UnsnapOneFrame` on empty
buffers returns without a failure: after the second frame `nDec = 65536`, the loop ends,
and the third frame stays unread in the encoded buffer. -/
theorem C14_batch_fails_pass_returns :
    zerosThenUnsupported.length = 3099 ∧
    decodeZeros zerosBlock = some (zeros 65536) ∧
    Unsnappy decodeZeros [] zerosThenUnsupported = .abort .unsupportedChunk (zeros 65536) ∧
    UnsnapOneFrame decodeZeros [] zerosThenUnsupported
        (NewFixedSizeRingBuf 65536) (NewFixedSizeRingBuf (65536 * 2)) =
      .ret ⟨⟨65536, [0x02, 0x00, 0x00, 0x00]⟩, ⟨131072, zeros 65536⟩, 6194, 65536⟩ [] false :=
  ⟨zerosThenUnsupported_length, decodeZeros_block,
    batch_zeros_then_unsupported decodeZeros [] zerosBlock (zeros 65536) zerosBlock_length
      decodeZeros_block,
    pass_zeros_then_unsupported decodeZeros [] zerosBlock (zeros 65536) zerosBlock_length
      decodeZeros_block (zeros_length 65536)⟩

/-- C11 (witness): the call on `helloThenZeros` returns `nDec = 65541`, within the bound. -/
theorem C11_decode_budget_witness :
    UnsnapOneFrame decodeZeros [] helloThenZeros
        (NewFixedSizeRingBuf 65536) (NewFixedSizeRingBuf (65536 * 2)) =
      .ret ⟨⟨65536, []⟩, ⟨131072, hello ++ zeros 65536⟩, 6216, 65541⟩ [] false ∧
    (65541 : Nat) ≤ 131071 := by
  have hp : UnsnapOneFrame decodeZeros [] helloThenZeros
      (NewFixedSizeRingBuf 65536) (NewFixedSizeRingBuf (65536 * 2)) =
      .ret ⟨⟨65536, []⟩, ⟨131072, hello ++ zeros 65536⟩, 6216, 65541⟩ [] false :=
    pass_hello_then_block decodeZeros [] zerosBlock (zeros 65536) zerosBlock_length
      decodeZeros_block (zeros_length 65536)
  exact ⟨hp, C11_decode_budget decodeZeros [] helloThenZeros
    (NewFixedSizeRingBuf 65536) (NewFixedSizeRingBuf (65536 * 2))
    (by
      intro blk d hd
      unfold decodeZeros at hd
      split_ifs at hd
      cases hd
      rw [zeros_length])
    (by decide) (by decide)
    ⟨⟨65536, []⟩, ⟨131072, hello ++ zeros 65536⟩, 6216, 65541⟩ [] false hp⟩

end Unsnap
